import Mathlib

/-!
Verification development for the calbot repository: a streaming tool-use
agent loop around a Google-Calendar tool set.

The development shallowly embeds the TypeScript sources:
  - `date-format.ts` (shipped inside `cli-helpers.ts`): `parseStringDate`,
    `formatDateTimeForGoogle`, `normalizeDateTime`, `isValidGoogleDateTimeFormat`;
  - `agent-loop.ts` (also inside `cli-helpers.ts`): the streaming delta
    aggregator of `LLM.call`;
  - `tools.ts`: validators, `formatGoogleApiError`, `handleToolCall`;
  - `google-tools.ts`: `checkForConflicts`, `findFreeTimeSlots`,
    `createQuickEvent`, `getEventsInTimeRange` parameter assembly.

JavaScript `Date` values are modelled as epoch milliseconds (`Int`), with the
proleptic Gregorian calendar arithmetic of ECMA-262 made explicit below.  The
model fixes a constant local-time offset (`tz`, minutes east of UTC): daylight
saving transitions are outside the model.  JavaScript numbers are modelled as
integers (all date arithmetic in the sources is integral).
-/

set_option maxRecDepth 100000

namespace Calbot

/-! ## Proleptic Gregorian calendar (ECMA-262 Date arithmetic) -/

/-- Gregorian leap-year test (ECMA-262 DaysInYear). -/
def isLeap (y : Nat) : Bool := decide ((y % 4 = 0 ∧ y % 100 ≠ 0) ∨ y % 400 = 0)

theorem isLeap_iff (y : Nat) :
    isLeap y = true ↔ (y % 4 = 0 ∧ y % 100 ≠ 0) ∨ y % 400 = 0 := by
  simp [isLeap]

/-- Number of days in a year. -/
def yearLen : Bool → Nat
  | true => 366
  | false => 365

/-- Days in month `m` (1..12) of a year with leap flag `leap`. -/
def monthLen (leap : Bool) : Nat → Nat
  | 1 => 31 | 2 => if leap then 29 else 28 | 3 => 31 | 4 => 30
  | 5 => 31 | 6 => 30 | 7 => 31 | 8 => 31 | 9 => 30 | 10 => 31
  | 11 => 30 | 12 => 31 | _ => 0

/-- Days strictly before month `m` (1..13) within a year (ECMA-262 DayWithinYear
tables); `m = 13` gives the year length. -/
def daysBeforeMonth (leap : Bool) (m : Nat) : Nat :=
  let e : Nat := if leap then 1 else 0
  match m with
  | 1 => 0 | 2 => 31 | 3 => 59 + e | 4 => 90 + e | 5 => 120 + e
  | 6 => 151 + e | 7 => 181 + e | 8 => 212 + e | 9 => 243 + e
  | 10 => 273 + e | 11 => 304 + e | 12 => 334 + e | _ => 365 + e

/-- Day count from 0001-01-01 (day 0) to `y`-01-01, for `y ≥ 1`. -/
def yearDays (y : Nat) : Nat :=
  365 * (y - 1) + (y - 1) / 4 - (y - 1) / 100 + (y - 1) / 400

/-- Day count from 0001-01-01 (day 0) to `y`-`m`-`d` (ECMA-262 MakeDay for
in-range month/day). -/
def dayNumber (y m d : Nat) : Nat :=
  yearDays y + daysBeforeMonth (isLeap y) m + (d - 1)

set_option maxHeartbeats 1000000 in
theorem yearDays_succ (y : Nat) (hy : 1 ≤ y) :
    yearDays (y + 1) = yearDays y + yearLen (isLeap y) := by
  have hsub : y + 1 - 1 = y := rfl
  cases hl : isLeap y with
  | true =>
    have h : (y % 4 = 0 ∧ y % 100 ≠ 0) ∨ y % 400 = 0 := (isLeap_iff y).mp hl
    simp only [yearDays, yearLen, hsub]
    rcases h with ⟨h4, h100⟩ | h400
    · omega
    · omega
  | false =>
    have h : ¬ ((y % 4 = 0 ∧ y % 100 ≠ 0) ∨ y % 400 = 0) := by
      rw [← isLeap_iff, hl]
      simp
    push_neg at h
    simp only [yearDays, yearLen, hsub]
    omega

theorem yearDays_mono {y₁ y₂ : Nat} (h1 : 1 ≤ y₁) (h : y₁ ≤ y₂) :
    yearDays y₁ ≤ yearDays y₂ := by
  induction y₂, h using Nat.le_induction with
  | base => exact Nat.le_refl _
  | succ n hn ih =>
    have := yearDays_succ n (le_trans h1 hn)
    omega

theorem yearDays_lt (y : Nat) (hy : 1 ≤ y) : yearDays y < yearDays (y + 1) := by
  have := yearDays_succ y hy
  simp only [yearLen] at this
  split at this <;> omega

/-- Year search: smallest `y ≥ y₀` whose successor year starts after day `n`. -/
def yearOfAux : Nat → Nat → Nat → Nat
  | 0, y, _ => y
  | fuel + 1, y, n => if n < yearDays (y + 1) then y else yearOfAux fuel (y + 1) n

/-- ECMA-262 YearFromTime: the year containing absolute day `n`. -/
def yearOf (n : Nat) : Nat := yearOfAux (n + 1) 1 n

theorem yearOfAux_eq (y n : Nat) (hy : 1 ≤ y) (h1 : yearDays y ≤ n)
    (h2 : n < yearDays (y + 1)) :
    ∀ fuel y₀, 1 ≤ y₀ → y₀ ≤ y → y - y₀ < fuel → yearOfAux fuel y₀ n = y := by
  intro fuel
  induction fuel with
  | zero => intro y₀ _ _ hf; omega
  | succ f ih =>
    intro y₀ h₀ hle hf
    by_cases hc : y₀ = y
    · subst hc
      simp [yearOfAux, if_pos h2]
    · have hlt : y₀ < y := lt_of_le_of_ne hle hc
      have hmono : yearDays (y₀ + 1) ≤ yearDays y := yearDays_mono (by omega) (by omega)
      have : ¬ n < yearDays (y₀ + 1) := by omega
      simp only [yearOfAux, if_neg this]
      exact ih (y₀ + 1) (by omega) (by omega) (by omega)

theorem yearOfAux_spec :
    ∀ fuel y₀ n, 1 ≤ y₀ → yearDays y₀ ≤ n →
    (∃ y, y₀ ≤ y ∧ y - y₀ < fuel ∧ n < yearDays (y + 1)) →
    1 ≤ yearOfAux fuel y₀ n ∧ yearDays (yearOfAux fuel y₀ n) ≤ n ∧
      n < yearDays (yearOfAux fuel y₀ n + 1) := by
  intro fuel
  induction fuel with
  | zero =>
    intro y₀ n _ _ hex
    obtain ⟨y, _, hf, _⟩ := hex
    omega
  | succ f ih =>
    intro y₀ n h₀ hd hex
    by_cases hc : n < yearDays (y₀ + 1)
    · simp only [yearOfAux, if_pos hc]
      exact ⟨h₀, hd, hc⟩
    · simp only [yearOfAux, if_neg hc]
      obtain ⟨y, hy1, hy2, hy3⟩ := hex
      have hne : y ≠ y₀ := by
        intro h; subst h; exact hc hy3
      exact ih (y₀ + 1) n (by omega) (by omega) ⟨y, by omega, by omega, hy3⟩

theorem yearOf_spec (n : Nat) :
    1 ≤ yearOf n ∧ yearDays (yearOf n) ≤ n ∧ n < yearDays (yearOf n + 1) := by
  refine yearOfAux_spec (n + 1) 1 n (Nat.le_refl 1) (by simp [yearDays]) ?_
  refine ⟨n + 1, by omega, by omega, ?_⟩
  have h2 : n + 1 + 1 = n + 2 := rfl
  rw [h2]
  have : 365 * (n + 1) ≤ yearDays (n + 2) := by
    simp only [yearDays]
    omega
  omega

theorem yearOf_eq (y n : Nat) (hy : 1 ≤ y) (h1 : yearDays y ≤ n)
    (h2 : n < yearDays (y + 1)) : yearOf n = y := by
  have hyd : 365 * (y - 1) ≤ yearDays y := by simp only [yearDays]; omega
  exact yearOfAux_eq y n hy h1 h2 (n + 1) 1 (Nat.le_refl 1) hy (by omega)

/-- Month search within a year: the month (1..12) containing day-of-year `doy`. -/
def monthOf (leap : Bool) (doy : Nat) : Nat :=
  if doy < daysBeforeMonth leap 2 then 1
  else if doy < daysBeforeMonth leap 3 then 2
  else if doy < daysBeforeMonth leap 4 then 3
  else if doy < daysBeforeMonth leap 5 then 4
  else if doy < daysBeforeMonth leap 6 then 5
  else if doy < daysBeforeMonth leap 7 then 6
  else if doy < daysBeforeMonth leap 8 then 7
  else if doy < daysBeforeMonth leap 9 then 8
  else if doy < daysBeforeMonth leap 10 then 9
  else if doy < daysBeforeMonth leap 11 then 10
  else if doy < daysBeforeMonth leap 12 then 11
  else 12

theorem monthOf_spec : ∀ l : Bool, ∀ doy, doy < yearLen l →
    1 ≤ monthOf l doy ∧ monthOf l doy ≤ 12 ∧
    daysBeforeMonth l (monthOf l doy) ≤ doy ∧
    doy < daysBeforeMonth l (monthOf l doy + 1) := by decide

theorem daysBeforeMonth_step : ∀ l : Bool, ∀ m, 1 ≤ m → m ≤ 12 →
    daysBeforeMonth l (m + 1) = daysBeforeMonth l m + monthLen l m := by decide

theorem daysBeforeMonth_le_yearLen : ∀ l : Bool, ∀ m, m ≤ 13 →
    daysBeforeMonth l m ≤ yearLen l := by decide

theorem daysBeforeMonth_mono : ∀ l : Bool, ∀ m₂ < 14, ∀ m₁ < 14, 1 ≤ m₁ → m₁ ≤ m₂ →
    daysBeforeMonth l m₁ ≤ daysBeforeMonth l m₂ := by decide

/-- Inverse of `dayNumber`: civil date of absolute day `n` (ECMA-262
MonthFromTime / DateFromTime). -/
def civilFromDay (n : Nat) : Nat × Nat × Nat :=
  let y := yearOf n
  let leap := isLeap y
  let doy := n - yearDays y
  let m := monthOf leap doy
  (y, m, doy - daysBeforeMonth leap m + 1)

theorem dayNumber_sandwich (y m d : Nat) (hy : 1 ≤ y) (hm1 : 1 ≤ m) (hm2 : m ≤ 12)
    (hd1 : 1 ≤ d) (hd2 : d ≤ monthLen (isLeap y) m) :
    yearDays y ≤ dayNumber y m d ∧ dayNumber y m d < yearDays (y + 1) := by
  have hstep := daysBeforeMonth_step (isLeap y) m hm1 hm2
  have hle := daysBeforeMonth_le_yearLen (isLeap y) (m + 1) (by omega)
  have hsucc := yearDays_succ y hy
  simp only [dayNumber]
  omega

theorem civilFromDay_dayNumber (y m d : Nat) (hy : 1 ≤ y) (hm1 : 1 ≤ m)
    (hm2 : m ≤ 12) (hd1 : 1 ≤ d) (hd2 : d ≤ monthLen (isLeap y) m) :
    civilFromDay (dayNumber y m d) = (y, m, d) := by
  obtain ⟨hs1, hs2⟩ := dayNumber_sandwich y m d hy hm1 hm2 hd1 hd2
  have hyeq : yearOf (dayNumber y m d) = y := yearOf_eq y _ hy hs1 hs2
  have hstep := daysBeforeMonth_step (isLeap y) m hm1 hm2
  have hdoy : dayNumber y m d - yearDays y = daysBeforeMonth (isLeap y) m + (d - 1) := by
    simp only [dayNumber]; omega
  have hdoylt : dayNumber y m d - yearDays y < yearLen (isLeap y) := by
    have := yearDays_succ y hy
    omega
  obtain ⟨hm'1, hm'2, hm'3, hm'4⟩ :=
    monthOf_spec (isLeap y) (dayNumber y m d - yearDays y) hdoylt
  -- the searched month coincides with `m`
  have hmeq : monthOf (isLeap y) (dayNumber y m d - yearDays y) = m := by
    set m' := monthOf (isLeap y) (dayNumber y m d - yearDays y) with hm'
    rcases lt_trichotomy m' m with hlt | heq | hgt
    · have : daysBeforeMonth (isLeap y) (m' + 1) ≤ daysBeforeMonth (isLeap y) m :=
        daysBeforeMonth_mono (isLeap y) m (by omega) (m' + 1) (by omega) (by omega) (by omega)
      omega
    · exact heq
    · have : daysBeforeMonth (isLeap y) (m + 1) ≤ daysBeforeMonth (isLeap y) m' :=
        daysBeforeMonth_mono (isLeap y) m' (by omega) (m + 1) (by omega) (by omega) (by omega)
      omega
  simp only [civilFromDay, hyeq, hmeq]
  refine Prod.ext rfl (Prod.ext rfl ?_)
  simp only
  omega

theorem civilFromDay_spec (n : Nat) :
    1 ≤ (civilFromDay n).1 ∧ 1 ≤ (civilFromDay n).2.1 ∧ (civilFromDay n).2.1 ≤ 12 ∧
    1 ≤ (civilFromDay n).2.2 ∧
    (civilFromDay n).2.2 ≤ monthLen (isLeap (civilFromDay n).1) (civilFromDay n).2.1 ∧
    dayNumber (civilFromDay n).1 (civilFromDay n).2.1 (civilFromDay n).2.2 = n := by
  obtain ⟨h1, h2, h3⟩ := yearOf_spec n
  have hdoylt : n - yearDays (yearOf n) < yearLen (isLeap (yearOf n)) := by
    have := yearDays_succ (yearOf n) h1
    omega
  obtain ⟨hm1, hm2, hm3, hm4⟩ := monthOf_spec (isLeap (yearOf n)) (n - yearDays (yearOf n)) hdoylt
  have hstep := daysBeforeMonth_step (isLeap (yearOf n))
    (monthOf (isLeap (yearOf n)) (n - yearDays (yearOf n))) hm1 hm2
  simp only [civilFromDay, dayNumber]
  refine ⟨h1, by omega, by omega, by omega, by omega, by omega⟩

theorem yearOf_lt_10000 {n : Nat} (h : n < yearDays 10000) : yearOf n ≤ 9999 := by
  by_contra hc
  push_neg at hc
  obtain ⟨h1, h2, _⟩ := yearOf_spec n
  have : yearDays 10000 ≤ yearDays (yearOf n) := yearDays_mono (by omega) (by omega)
  omega

/-! ## Epoch milliseconds, `toISOString`, and the canonical ISO parser -/

/-- Absolute day of the Unix epoch 1970-01-01. -/
def epochDayOffset : Nat := dayNumber 1970 1 1

theorem epochDayOffset_eq : epochDayOffset = 719162 := by decide

/-- Epoch milliseconds of a UTC civil datetime (ECMA-262 MakeDate∘MakeDay). -/
def epochOfCivil (y mo d h mi s ms : Nat) : Int :=
  ((dayNumber y mo d : Int) - (epochDayOffset : Int)) * 86400000 +
    ((((h * 60 + mi) * 60 + s) * 1000 + ms : Nat) : Int)

def digitChar (n : Nat) : Char := Char.ofNat (48 + n)

def pad2 (n : Nat) : List Char := [digitChar (n / 10), digitChar (n % 10)]

def pad3 (n : Nat) : List Char :=
  [digitChar (n / 100), digitChar (n / 10 % 10), digitChar (n % 10)]

def pad4 (n : Nat) : List Char :=
  [digitChar (n / 1000), digitChar (n / 100 % 10), digitChar (n / 10 % 10), digitChar (n % 10)]

/-- `Date.prototype.toISOString` for instants with year 1..9999:
`YYYY-MM-DDTHH:MM:SS.sssZ`. -/
def renderIso (t : Int) : String :=
  let msOfDay : Nat := (t % 86400000).toNat
  let n : Nat := (t / 86400000 + (epochDayOffset : Int)).toNat
  let c := civilFromDay n
  String.mk (pad4 c.1 ++ ['-'] ++ pad2 c.2.1 ++ ['-'] ++ pad2 c.2.2 ++ ['T'] ++
    pad2 (msOfDay / 3600000) ++ [':'] ++ pad2 (msOfDay / 60000 % 60) ++ [':'] ++
    pad2 (msOfDay / 1000 % 60) ++ ['.'] ++ pad3 (msOfDay % 1000) ++ ['Z'])

/-- Timezone designator of an ISO string: absent, `Z`, or `±HH:MM`. -/
inductive IsoZone where
  | noZone : IsoZone
  | utc : IsoZone
  | offset (neg : Bool) (oh om : Nat) : IsoZone
deriving DecidableEq, Repr

/-- Parsed components of a string matching the source's `isoRegex`
`^\d\x7b4\x7d-\d\x7b2\x7d-\d\x7b2\x7dT\d\x7b2\x7d:\d\x7b2\x7d:\d\x7b2\x7d(\.\d\x7b3\x7d)?([+-]\d\x7b2\x7d:\d\x7b2\x7d|Z)?$`. -/
structure IsoFields where
  y : Nat
  mo : Nat
  dd : Nat
  hh : Nat
  mi : Nat
  ss : Nat
  ms : Nat
  hasMs : Bool
  zone : IsoZone
deriving DecidableEq, Repr

def digVal (c : Char) : Nat := c.toNat - 48

def parseZoneChars : List Char → Option IsoZone
  | [] => some .noZone
  | ['Z'] => some .utc
  | [sg, a, b, ':', c, d] =>
    if (sg == '+' || sg == '-') && a.isDigit && b.isDigit && c.isDigit && d.isDigit then
      some (.offset (sg == '-') (10 * digVal a + digVal b) (10 * digVal c + digVal d))
    else none
  | _ => none

def parseMsChars : List Char → Option (Nat × Bool × List Char)
  | '.' :: a :: b :: c :: rest =>
    if a.isDigit && b.isDigit && c.isDigit then
      some (100 * digVal a + 10 * digVal b + digVal c, true, rest)
    else none
  | rest => some (0, false, rest)

/-- Decompose a character list matching the `isoRegex` shape. -/
def parseCanonical : List Char → Option IsoFields
  | y1 :: y2 :: y3 :: y4 :: '-' :: a1 :: a2 :: '-' :: b1 :: b2 :: 'T' ::
      h1 :: h2 :: ':' :: m1 :: m2 :: ':' :: s1 :: s2 :: rest =>
    if y1.isDigit && y2.isDigit && y3.isDigit && y4.isDigit && a1.isDigit && a2.isDigit &&
        b1.isDigit && b2.isDigit && h1.isDigit && h2.isDigit && m1.isDigit && m2.isDigit &&
        s1.isDigit && s2.isDigit then
      (parseMsChars rest).bind fun msr =>
        (parseZoneChars msr.2.2).map fun z =>
          ⟨1000 * digVal y1 + 100 * digVal y2 + 10 * digVal y3 + digVal y4,
           10 * digVal a1 + digVal a2, 10 * digVal b1 + digVal b2,
           10 * digVal h1 + digVal h2, 10 * digVal m1 + digVal m2,
           10 * digVal s1 + digVal s2, msr.1, msr.2.1, z⟩
    else none
  | _ => none

/-- The source's `isoRegex.test`. -/
def isCanonicalShape (s : String) : Bool := (parseCanonical s.data).isSome

/-- Calendar validity of parsed ISO fields (ECMA-262 rejects out-of-range
fields with NaN).  Model restriction: year 0000 is treated as invalid (the
calendar arithmetic above counts from year 1). -/
def fieldsValid (f : IsoFields) : Bool :=
  1 ≤ f.y && 1 ≤ f.mo && f.mo ≤ 12 && 1 ≤ f.dd &&
  f.dd ≤ monthLen (isLeap f.y) f.mo && f.hh ≤ 23 && f.mi ≤ 59 && f.ss ≤ 59 &&
  (match f.zone with
   | .offset _ oh om => oh ≤ 23 && om ≤ 59
   | _ => true)

/-- Epoch milliseconds of valid ISO fields, given the local offset `tz`
(minutes east of UTC) used when no zone designator is present. -/
def epochOfFields (tz : Int) (f : IsoFields) : Int :=
  epochOfCivil f.y f.mo f.dd f.hh f.mi f.ss f.ms -
    60000 * (match f.zone with
             | .noZone => tz
             | .utc => 0
             | .offset neg oh om => if neg then -((oh * 60 + om : Nat) : Int) else ((oh * 60 + om : Nat) : Int))

/-- `new Date(s)` for strings matching the source's `isoRegex` (`none` models
an Invalid Date). -/
def jsDateFromIso (tz : Int) (s : String) : Option Int :=
  match parseCanonical s.data with
  | some f => if fieldsValid f then some (epochOfFields tz f) else none
  | none => none

/-- `isValidGoogleDateTimeFormat` from `date-format.ts`: the `isoRegex` test
followed by a `new Date` validity check. -/
def isValidGoogleDateTimeFormat (dateTime : String) : Bool :=
  match parseCanonical dateTime.data with
  | some f => fieldsValid f
  | none => false

/-- Fractional-second characters of an ISO string. -/
def msChars : Bool → Nat → List Char
  | true, ms => '.' :: pad3 ms
  | false, _ => []

/-- Zone-designator characters of an ISO string. -/
def zoneChars : IsoZone → List Char
  | .noZone => []
  | .utc => ['Z']
  | .offset true oh om => '-' :: (pad2 oh ++ [':'] ++ pad2 om)
  | .offset false oh om => '+' :: (pad2 oh ++ [':'] ++ pad2 om)

/-- Render ISO fields back to the unique string they came from. -/
def renderFields (f : IsoFields) : String :=
  String.mk (pad4 f.y ++ ['-'] ++ pad2 f.mo ++ ['-'] ++ pad2 f.dd ++ ['T'] ++
    pad2 f.hh ++ [':'] ++ pad2 f.mi ++ [':'] ++ pad2 f.ss ++
    msChars f.hasMs f.ms ++ zoneChars f.zone)

theorem digitChar_isDigit : ∀ n < 10, (digitChar n).isDigit = true := by decide

theorem digVal_digitChar : ∀ n < 10, digVal (digitChar n) = n := by decide

theorem data_mk (l : List Char) : (String.mk l).data = l := rfl

theorem pad2_spec (n : Nat) (h : n < 100) :
    (digitChar (n / 10)).isDigit = true ∧ (digitChar (n % 10)).isDigit = true ∧
    10 * digVal (digitChar (n / 10)) + digVal (digitChar (n % 10)) = n := by
  have h1 := digitChar_isDigit (n / 10) (by omega)
  have h2 := digitChar_isDigit (n % 10) (by omega)
  have h3 := digVal_digitChar (n / 10) (by omega)
  have h4 := digVal_digitChar (n % 10) (by omega)
  exact ⟨h1, h2, by omega⟩

theorem pad3_spec (n : Nat) (h : n < 1000) :
    (digitChar (n / 100)).isDigit = true ∧ (digitChar (n / 10 % 10)).isDigit = true ∧
    (digitChar (n % 10)).isDigit = true ∧
    100 * digVal (digitChar (n / 100)) + 10 * digVal (digitChar (n / 10 % 10)) +
      digVal (digitChar (n % 10)) = n := by
  have h1 := digitChar_isDigit (n / 100) (by omega)
  have h2 := digitChar_isDigit (n / 10 % 10) (by omega)
  have h3 := digitChar_isDigit (n % 10) (by omega)
  have h4 := digVal_digitChar (n / 100) (by omega)
  have h5 := digVal_digitChar (n / 10 % 10) (by omega)
  have h6 := digVal_digitChar (n % 10) (by omega)
  exact ⟨h1, h2, h3, by omega⟩

theorem pad4_spec (n : Nat) (h : n < 10000) :
    (digitChar (n / 1000)).isDigit = true ∧ (digitChar (n / 100 % 10)).isDigit = true ∧
    (digitChar (n / 10 % 10)).isDigit = true ∧ (digitChar (n % 10)).isDigit = true ∧
    1000 * digVal (digitChar (n / 1000)) + 100 * digVal (digitChar (n / 100 % 10)) +
      10 * digVal (digitChar (n / 10 % 10)) + digVal (digitChar (n % 10)) = n := by
  have h1 := digitChar_isDigit (n / 1000) (by omega)
  have h2 := digitChar_isDigit (n / 100 % 10) (by omega)
  have h3 := digitChar_isDigit (n / 10 % 10) (by omega)
  have h4 := digitChar_isDigit (n % 10) (by omega)
  have h5 := digVal_digitChar (n / 1000) (by omega)
  have h6 := digVal_digitChar (n / 100 % 10) (by omega)
  have h7 := digVal_digitChar (n / 10 % 10) (by omega)
  have h8 := digVal_digitChar (n % 10) (by omega)
  exact ⟨h1, h2, h3, h4, by omega⟩

theorem parseMsChars_dot (ms : Nat) (rest : List Char) (h : ms < 1000) :
    parseMsChars ('.' :: digitChar (ms / 100) :: digitChar (ms / 10 % 10) ::
      digitChar (ms % 10) :: rest) = some (ms, true, rest) := by
  obtain ⟨m1, m2, m3, m4⟩ := pad3_spec ms h
  simp only [parseMsChars, m1, m2, m3, Bool.and_self, Bool.and_true, Bool.true_and,
    eq_self_iff_true, if_true]
  rw [m4]

theorem parseMsChars_no_dot (l : List Char) (h : ∀ a b c rest, l ≠ '.' :: a :: b :: c :: rest) :
    parseMsChars l = some (0, false, l) := by
  rw [parseMsChars.eq_def]
  split
  all_goals first
    | rfl
    | (rename_i a b c rest; exact absurd rfl (h a b c rest))
    | (rename_i a b c rest hne; exact absurd rfl (h a b c rest))

theorem parseZoneChars_neg (oh om : Nat) (hoh : oh < 100) (hom : om < 100) :
    parseZoneChars ['-', digitChar (oh / 10), digitChar (oh % 10), ':',
      digitChar (om / 10), digitChar (om % 10)] = some (IsoZone.offset true oh om) := by
  obtain ⟨g1, g2, g3⟩ := pad2_spec oh hoh
  obtain ⟨k1, k2, k3⟩ := pad2_spec om hom
  have hminus : ('-' == '-') = true := rfl
  have hmp : ('-' == '+') = false := rfl
  simp only [parseZoneChars, g1, g2, k1, k2, hminus, hmp, Bool.or_true, Bool.false_or,
    Bool.and_self, Bool.and_true, Bool.true_and, eq_self_iff_true, if_true]
  rw [g3, k3]

theorem parseZoneChars_pos (oh om : Nat) (hoh : oh < 100) (hom : om < 100) :
    parseZoneChars ['+', digitChar (oh / 10), digitChar (oh % 10), ':',
      digitChar (om / 10), digitChar (om % 10)] = some (IsoZone.offset false oh om) := by
  obtain ⟨g1, g2, g3⟩ := pad2_spec oh hoh
  obtain ⟨k1, k2, k3⟩ := pad2_spec om hom
  have hplus : ('+' == '-') = false := rfl
  have hpp : ('+' == '+') = true := rfl
  simp only [parseZoneChars, g1, g2, k1, k2, hplus, hpp, Bool.true_or, Bool.or_true,
    Bool.and_self, Bool.and_true, Bool.true_and, eq_self_iff_true, if_true]
  rw [g3, k3]

set_option maxHeartbeats 2000000 in
theorem parseCanonical_renderFields (f : IsoFields)
    (hy : f.y ≤ 9999) (hmo : f.mo ≤ 99) (hdd : f.dd ≤ 99) (hhh : f.hh ≤ 99)
    (hmi : f.mi ≤ 99) (hss : f.ss ≤ 99) (hms : f.ms ≤ 999)
    (hcoh : f.hasMs = false → f.ms = 0)
    (hzo : ∀ neg oh om, f.zone = IsoZone.offset neg oh om → oh ≤ 99 ∧ om ≤ 99) :
    parseCanonical (renderFields f).data = some f := by
  obtain ⟨y, mo, dd, hh, mi, ss, ms, hasMs, zone⟩ := f
  simp only at hy hmo hdd hhh hmi hss hms hcoh hzo
  obtain ⟨y1, y2, y3, y4a, y4b⟩ := pad4_spec y (by omega)
  obtain ⟨a1, a2, a3⟩ := pad2_spec mo (by omega)
  obtain ⟨b1, b2, b3⟩ := pad2_spec dd (by omega)
  obtain ⟨c1, c2, c3⟩ := pad2_spec hh (by omega)
  obtain ⟨d1, d2, d3⟩ := pad2_spec mi (by omega)
  obtain ⟨e1, e2, e3⟩ := pad2_spec ss (by omega)
  cases hasMs with
  | true =>
    cases zone with
    | noZone =>
      simp only [renderFields, data_mk, msChars, zoneChars, pad4, pad2, pad3,
        List.cons_append, List.nil_append, List.append_assoc, List.append_nil]
      simp only [parseCanonical, y1, y2, y3, y4a, a1, a2, b1, b2, c1, c2, d1, d2, e1, e2,
        Bool.and_self, Bool.and_true, Bool.true_and, eq_self_iff_true, if_true]
      rw [parseMsChars_dot ms [] (by omega)]
      simp only [Option.some_bind, parseZoneChars, Option.map_some']
      rw [y4b, a3, b3, c3, d3, e3]
    | utc =>
      simp only [renderFields, data_mk, msChars, zoneChars, pad4, pad2, pad3,
        List.cons_append, List.nil_append, List.append_assoc, List.append_nil]
      simp only [parseCanonical, y1, y2, y3, y4a, a1, a2, b1, b2, c1, c2, d1, d2, e1, e2,
        Bool.and_self, Bool.and_true, Bool.true_and, eq_self_iff_true, if_true]
      rw [parseMsChars_dot ms ['Z'] (by omega)]
      simp only [Option.some_bind, parseZoneChars, Option.map_some']
      rw [y4b, a3, b3, c3, d3, e3]
    | offset neg oh om =>
      obtain ⟨hoh, hom⟩ := hzo neg oh om rfl
      cases neg with
      | true =>
        simp only [renderFields, data_mk, msChars, zoneChars, pad4, pad2, pad3,
          List.cons_append, List.nil_append, List.append_assoc, List.append_nil]
        simp only [parseCanonical, y1, y2, y3, y4a, a1, a2, b1, b2, c1, c2, d1, d2, e1, e2,
          Bool.and_self, Bool.and_true, Bool.true_and, eq_self_iff_true, if_true]
        rw [parseMsChars_dot ms _ (by omega)]
        simp only [Option.some_bind]
        rw [parseZoneChars_neg oh om (by omega) (by omega)]
        simp only [Option.map_some']
        rw [y4b, a3, b3, c3, d3, e3]
      | false =>
        simp only [renderFields, data_mk, msChars, zoneChars, pad4, pad2, pad3,
          List.cons_append, List.nil_append, List.append_assoc, List.append_nil]
        simp only [parseCanonical, y1, y2, y3, y4a, a1, a2, b1, b2, c1, c2, d1, d2, e1, e2,
          Bool.and_self, Bool.and_true, Bool.true_and, eq_self_iff_true, if_true]
        rw [parseMsChars_dot ms _ (by omega)]
        simp only [Option.some_bind]
        rw [parseZoneChars_pos oh om (by omega) (by omega)]
        simp only [Option.map_some']
        rw [y4b, a3, b3, c3, d3, e3]
  | false =>
    have hms0 : ms = 0 := hcoh rfl
    subst hms0
    cases zone with
    | noZone =>
      simp only [renderFields, data_mk, msChars, zoneChars, pad4, pad2, pad3,
        List.cons_append, List.nil_append, List.append_assoc, List.append_nil]
      rw [show (parseCanonical [digitChar (y / 1000), digitChar (y / 100 % 10),
        digitChar (y / 10 % 10), digitChar (y % 10), '-', digitChar (mo / 10),
        digitChar (mo % 10), '-', digitChar (dd / 10), digitChar (dd % 10), 'T',
        digitChar (hh / 10), digitChar (hh % 10), ':', digitChar (mi / 10),
        digitChar (mi % 10), ':', digitChar (ss / 10), digitChar (ss % 10)]) =
        parseCanonical (digitChar (y / 1000) :: digitChar (y / 100 % 10) ::
        digitChar (y / 10 % 10) :: digitChar (y % 10) :: '-' :: digitChar (mo / 10) ::
        digitChar (mo % 10) :: '-' :: digitChar (dd / 10) :: digitChar (dd % 10) :: 'T' ::
        digitChar (hh / 10) :: digitChar (hh % 10) :: ':' :: digitChar (mi / 10) ::
        digitChar (mi % 10) :: ':' :: digitChar (ss / 10) :: digitChar (ss % 10) :: [])
        from rfl]
      simp only [parseCanonical, y1, y2, y3, y4a, a1, a2, b1, b2, c1, c2, d1, d2, e1, e2,
        Bool.and_self, Bool.and_true, Bool.true_and, eq_self_iff_true, if_true]
      rw [parseMsChars_no_dot [] (by intro a b c rest hcon; cases hcon)]
      simp only [Option.some_bind, parseZoneChars, Option.map_some']
      rw [y4b, a3, b3, c3, d3, e3]
    | utc =>
      simp only [renderFields, data_mk, msChars, zoneChars, pad4, pad2, pad3,
        List.cons_append, List.nil_append, List.append_assoc, List.append_nil]
      simp only [parseCanonical, y1, y2, y3, y4a, a1, a2, b1, b2, c1, c2, d1, d2, e1, e2,
        Bool.and_self, Bool.and_true, Bool.true_and, eq_self_iff_true, if_true]
      rw [parseMsChars_no_dot ['Z'] (by intro a b c rest hcon; cases hcon)]
      simp only [Option.some_bind, parseZoneChars, Option.map_some']
      rw [y4b, a3, b3, c3, d3, e3]
    | offset neg oh om =>
      obtain ⟨hoh, hom⟩ := hzo neg oh om rfl
      cases neg with
      | true =>
        simp only [renderFields, data_mk, msChars, zoneChars, pad4, pad2, pad3,
          List.cons_append, List.nil_append, List.append_assoc, List.append_nil]
        simp only [parseCanonical, y1, y2, y3, y4a, a1, a2, b1, b2, c1, c2, d1, d2, e1, e2,
          Bool.and_self, Bool.and_true, Bool.true_and, eq_self_iff_true, if_true]
        rw [parseMsChars_no_dot ('-' :: _)
          (by intro a b c rest hcon; injection hcon with h1 _; exact absurd h1 (by decide))]
        simp only [Option.some_bind]
        rw [parseZoneChars_neg oh om (by omega) (by omega)]
        simp only [Option.map_some']
        rw [y4b, a3, b3, c3, d3, e3]
      | false =>
        simp only [renderFields, data_mk, msChars, zoneChars, pad4, pad2, pad3,
          List.cons_append, List.nil_append, List.append_assoc, List.append_nil]
        simp only [parseCanonical, y1, y2, y3, y4a, a1, a2, b1, b2, c1, c2, d1, d2, e1, e2,
          Bool.and_self, Bool.and_true, Bool.true_and, eq_self_iff_true, if_true]
        rw [parseMsChars_no_dot ('+' :: _)
          (by intro a b c rest hcon; injection hcon with h1 _; exact absurd h1 (by decide))]
        simp only [Option.some_bind]
        rw [parseZoneChars_pos oh om (by omega) (by omega)]
        simp only [Option.map_some']
        rw [y4b, a3, b3, c3, d3, e3]

set_option maxHeartbeats 1000000 in
theorem renderIso_epochOfCivil (y mo d h mi s ms : Nat) (hy1 : 1 ≤ y) (hy2 : y ≤ 9999)
    (hmo1 : 1 ≤ mo) (hmo2 : mo ≤ 12) (hd1 : 1 ≤ d) (hd2 : d ≤ monthLen (isLeap y) mo)
    (hh : h ≤ 23) (hmi : mi ≤ 59) (hs : s ≤ 59) (hms : ms ≤ 999) :
    renderIso (epochOfCivil y mo d h mi s ms) =
      renderFields ⟨y, mo, d, h, mi, s, ms, true, IsoZone.utc⟩ := by
  have e1 : (epochOfCivil y mo d h mi s ms / 86400000 + (epochDayOffset : Int)).toNat =
      dayNumber y mo d := by
    simp only [epochOfCivil]
    omega
  have e2 : (epochOfCivil y mo d h mi s ms % 86400000).toNat =
      ((h * 60 + mi) * 60 + s) * 1000 + ms := by
    simp only [epochOfCivil]
    omega
  have e3 : civilFromDay (dayNumber y mo d) = (y, mo, d) :=
    civilFromDay_dayNumber y mo d hy1 hmo1 hmo2 hd1 hd2
  have t1 : (((h * 60 + mi) * 60 + s) * 1000 + ms) / 3600000 = h := by omega
  have t2 : (((h * 60 + mi) * 60 + s) * 1000 + ms) / 60000 % 60 = mi := by omega
  have t3 : (((h * 60 + mi) * 60 + s) * 1000 + ms) / 1000 % 60 = s := by omega
  have t4 : (((h * 60 + mi) * 60 + s) * 1000 + ms) % 1000 = ms := by omega
  simp only [renderIso, e1, e2, e3, t1, t2, t3, t4, renderFields, msChars, zoneChars,
    List.cons_append, List.nil_append, List.append_assoc]

/-! ## JavaScript values and ambient environment -/

/-- JSON-like JavaScript values (tool-call arguments are parsed JSON).
Numbers are modelled as integers. -/
inductive Json where
  | null : Json
  | bool (b : Bool) : Json
  | num (n : Int) : Json
  | str (s : String) : Json
  | arr (elems : List Json) : Json
  | obj (members : List (String × Json)) : Json
deriving Repr

/-- JavaScript truthiness of a value (`NaN` is outside the model). -/
def jsTruthy : Json → Bool
  | .null => false
  | .bool b => b
  | .num n => !(n == 0)
  | .str s => !s.data.isEmpty
  | .arr _ => true
  | .obj _ => true

/-- `typeof` for the modelled values. -/
def jsTypeName : Json → String
  | .null => "object"
  | .bool _ => "boolean"
  | .num _ => "number"
  | .str _ => "string"
  | .arr _ => "object"
  | .obj _ => "object"

mutual

/-- JavaScript `String(v)` / template-literal coercion. -/
def jsDisplay : Json → String
  | .null => "null"
  | .bool b => cond b "true" "false"
  | .num n => toString n
  | .str s => s
  | .arr xs => jsDisplayList xs
  | .obj _ => "[object Object]"

def jsDisplayList : List Json → String
  | [] => ""
  | [x] => jsDisplay x
  | x :: xs => jsDisplay x ++ "," ++ jsDisplayList xs

end

/-- Ambient facts the date code reads from the JavaScript runtime.  The local
timezone is a fixed offset `tz` in minutes east of UTC (no DST in the model);
`nativeParse` is the oracle for the generic `new Date(string)` fallback on
shapes not handled by an explicit branch (`none` models an Invalid Date). -/
structure JsEnv where
  nowMs : Int
  tz : Int
  tzName : String
  nativeParse : String → Option Int

/-! ## `date-format.ts`: `parseStringDate` and friends -/

/-- JavaScript WhiteSpace/LineTerminator characters (`String.prototype.trim`,
`\s`); exotic Unicode spaces beyond the common ones are omitted. -/
def isJsWs (c : Char) : Bool :=
  c.toNat == 9 || c.toNat == 10 || c.toNat == 11 || c.toNat == 12 || c.toNat == 13 ||
  c.toNat == 32 || c.toNat == 160 || c.toNat == 0x2028 || c.toNat == 0x2029 ||
  c.toNat == 0xFEFF

/-- `String.prototype.trim`. -/
def trimChars (l : List Char) : List Char :=
  ((l.dropWhile isJsWs).reverse.dropWhile isJsWs).reverse

def jsTrim (s : String) : String := String.mk (trimChars s.data)

/-- Leading digit span. -/
def spanDigits : List Char → List Char × List Char
  | [] => ([], [])
  | c :: t => if c.isDigit then
      let (ds, r) := spanDigits t
      (c :: ds, r)
    else ([], c :: t)

/-- Value of a digit run (JS `parseInt` on a matched `\d+` group). -/
def digitsVal (l : List Char) : Nat := l.foldl (fun acc c => 10 * acc + digVal c) 0

/-- Skip `\s*`. -/
def skipWs (l : List Char) : List Char := l.dropWhile isJsWs

/-- Require `\s+`, then skip it. -/
def parseWs1 : List Char → Option (List Char)
  | [] => none
  | c :: t => if isJsWs c then some (skipWs t) else none

/-- The relative-date branch `^in\s+(\d+)\s+(minute|minutes|hour|hours|day|days|week|weeks)$`
(input already lower-cased); returns the advance in milliseconds.
`setMinutes`/`setHours`/`setDate` arithmetic is exact addition under the
fixed-offset timezone model. -/
def parseRelative (l : List Char) : Option Int :=
  match l with
  | 'i' :: 'n' :: rest =>
    match parseWs1 rest with
    | none => none
    | some r1 =>
      let (ds, r2) := spanDigits r1
      if ds.isEmpty then none
      else match parseWs1 r2 with
        | none => none
        | some r3 =>
          let n : Int := digitsVal ds
          if r3 = "minute".data || r3 = "minutes".data then some (n * 60000)
          else if r3 = "hour".data || r3 = "hours".data then some (n * 3600000)
          else if r3 = "day".data || r3 = "days".data then some (n * 86400000)
          else if r3 = "week".data || r3 = "weeks".data then some (n * 604800000)
          else none
  | _ => none

/-- Time suffix of the US-date branch: `\s+(\d\x7b1,2\x7d):(\d\x7b2\x7d)(?::(\d\x7b2\x7d))?(?:\s*(am|pm))?$`
on lower-cased input; result `(H, MIN, SEC, some true ↦ pm / some false ↦ am)`. -/
def parseUSTime (l : List Char) : Option (Nat × Nat × Nat × Option Bool) :=
  match parseWs1 l with
  | none => none
  | some l1 =>
    let (hd, l2) := spanDigits l1
    if hd.length = 0 || 2 < hd.length then none
    else match l2 with
    | ':' :: l3 =>
      let (md, l4) := spanDigits l3
      if md.length ≠ 2 then none
      else
        let secRest : Option (Nat × List Char) :=
          match l4 with
          | ':' :: l4a =>
            let (sd, l5) := spanDigits l4a
            if sd.length = 2 then some (digitsVal sd, l5) else none
          | other => some (0, other)
        match secRest with
        | none => none
        | some (sec, l5) =>
          match l5 with
          | [] => some (digitsVal hd, digitsVal md, sec, none)
          | _ =>
            match skipWs l5 with
            | ['a', 'm'] => some (digitsVal hd, digitsVal md, sec, some false)
            | ['p', 'm'] => some (digitsVal hd, digitsVal md, sec, some true)
            | _ => none
    | _ => none

/-- Date part of the US-date branch
`^(\d\x7b1,2\x7d)[\/\-](\d\x7b1,2\x7d)[\/\-](\d\x7b4\x7d)(time?)?$`:
`(month, day, year, optional time)`. -/
def parseUS (l : List Char) : Option (Nat × Nat × Nat × Option (Nat × Nat × Nat × Option Bool)) :=
  let (md, r1) := spanDigits l
  if md.length = 0 || 2 < md.length then none
  else match r1 with
  | sep1 :: r2 =>
    if !(sep1 == '/' || sep1 == '-') then none
    else
      let (dd, r3) := spanDigits r2
      if dd.length = 0 || 2 < dd.length then none
      else match r3 with
      | sep2 :: r4 =>
        if !(sep2 == '/' || sep2 == '-') then none
        else
          let (yd, r5) := spanDigits r4
          if yd.length ≠ 4 then none
          else match r5 with
          | [] => some (digitsVal md, digitsVal dd, digitsVal yd, none)
          | _ => (parseUSTime r5).map fun t => (digitsVal md, digitsVal dd, digitsVal yd, some t)
      | [] => none
  | [] => none

/-- `new Date(year, month0, day, hour, minute, second)` under the fixed local
offset `tz`: ECMA-262 MakeFullYear (two-digit years map to 19xx), MakeDay
month/day rollover, MakeDate, UTC conversion. -/
def jsMakeLocalDate (tz : Int) (yr : Nat) (m0 : Int) (d : Nat) (h mi s : Nat) : Int :=
  let yr2 : Nat := if yr ≤ 99 then 1900 + yr else yr
  let ym : Int := (yr2 : Int) + m0 / 12
  let mn : Nat := (m0 % 12).toNat
  ((dayNumber ym.toNat (mn + 1) 1 : Int) + (d : Int) - 1 - (epochDayOffset : Int)) * 86400000 +
    ((((h * 60 + mi) * 60 + s) * 1000 : Nat) : Int) - tz * 60000

/-- AM/PM hour adjustment of the US-date branch. -/
def adjustAmPm (h : Nat) (ampm : Option Bool) : Nat :=
  match ampm with
  | some true => if h ≠ 12 then h + 12 else h
  | some false => if h = 12 then 0 else h
  | none => h

/-- Bare ISO date `^\d\x7b4\x7d-\d\x7b2\x7d-\d\x7b2\x7d$`. -/
def isBareIsoDate : List Char → Bool
  | [a, b, c, d, '-', e, f, '-', g, h] =>
    a.isDigit && b.isDigit && c.isDigit && d.isDigit && e.isDigit && f.isDigit &&
    g.isDigit && h.isDigit
  | _ => false

/-- `parseStringDate` from `date-format.ts`.  Branches in source order:
canonical ISO, `today`/`tomorrow`/`yesterday`, relative `in N unit`, US
`M/D/Y [time]`, bare ISO date, native-`Date` fallback, throw.  (The unused
`formats` array in the source is dead code.)  `Except.error` models a thrown
`Error`; `Except.ok none` models returning an Invalid Date. -/
def parseStringDate (env : JsEnv) (dateStr : String) : Except String (Option Int) :=
  let trimmed := jsTrim dateStr
  let lower := trimmed.toLower
  if (parseCanonical trimmed.data).isSome then .ok (jsDateFromIso env.tz trimmed)
  else if lower = "today" then .ok (some env.nowMs)
  else if lower = "tomorrow" then .ok (some (env.nowMs + 86400000))
  else if lower = "yesterday" then .ok (some (env.nowMs - 86400000))
  else match parseRelative lower.data with
  | some delta => .ok (some (env.nowMs + delta))
  | none =>
    match parseUS lower.data with
    | some (mo, d, yr, time) =>
      let t := time.getD (0, 0, 0, none)
      .ok (some (jsMakeLocalDate env.tz yr ((mo : Int) - 1) d
        (adjustAmPm t.1 t.2.2.2) t.2.1 t.2.2.1))
    | none =>
      if isBareIsoDate trimmed.data then
        .ok (jsDateFromIso env.tz (trimmed ++ "T00:00:00"))
      else match env.nativeParse trimmed with
      | some t => .ok (some t)
      | none => .error ("Unable to parse date format: \"" ++ dateStr ++ "\"")

structure GoogleCalendarDateTime where
  dateTime : String
  timeZone : String
deriving DecidableEq, Repr

/-- ECMA-262 TimeClip bound. -/
def timeClip (n : Int) : Option Int :=
  if n.natAbs ≤ 8640000000000000 then some n else none

/-- The `try` body of `formatDateTimeForGoogle`: dispatch on the input type
(number branch with TimeClip, string branch via `parseStringDate`, otherwise
`Unsupported date type`), reject Invalid Dates, and render `toISOString`.
Date-object inputs do not occur at the tool layer (arguments come from JSON). -/
def formatInner (env : JsEnv) (v : Json) : Except String String :=
  match (match v with
         | .num n => Except.ok (timeClip n)
         | .str s => parseStringDate env s
         | other => Except.error ("Unsupported date type: " ++ jsTypeName other) :
           Except String (Option Int)) with
  | .error e => .error e
  | .ok none => .error ("Invalid date: " ++ jsDisplay v)
  | .ok (some t) => .ok (renderIso t)

/-- `formatDateTimeForGoogle` from `date-format.ts`.  `input = none` models a
missing (`undefined`) argument. -/
def formatDateTimeForGoogle (env : JsEnv) (input : Option Json)
    (timeZone : Option String) : Except String GoogleCalendarDateTime :=
  if input.isNone || !(jsTruthy (input.getD .null)) then
    .error "Date input is required"
  else
    match formatInner env (input.getD .null) with
    | .ok dt => .ok ⟨dt, timeZone.getD env.tzName⟩
    | .error e =>
      .error ("Failed to format date \"" ++ jsDisplay (input.getD .null) ++ "\": " ++ e)

/-- `normalizeDateTime` from `date-format.ts`. -/
def normalizeDateTime (env : JsEnv) (input : Option Json) (paramName : String)
    (timeZone : Option String) : Except String String :=
  match formatDateTimeForGoogle env input timeZone with
  | .ok g => .ok g.dateTime
  | .error e => .error (paramName ++ ": " ++ e)

/-- `createGoogleDateTime` from `date-format.ts`. -/
def createGoogleDateTime (env : JsEnv) (input : Option Json) (timeZone : Option String) :
    Except String GoogleCalendarDateTime :=
  formatDateTimeForGoogle env input timeZone

/-! ## Round-trip facts about `normalizeDateTime` on canonical strings -/

theorem dropWhile_eq_self_of_none {p : Char → Bool} :
    ∀ l : List Char, (∀ c ∈ l, p c = false) → l.dropWhile p = l := by
  intro l h
  cases l with
  | nil => rfl
  | cons a t => simp [List.dropWhile_cons, h a (by simp)]

theorem trimChars_eq_self {l : List Char} (h : ∀ c ∈ l, isJsWs c = false) :
    trimChars l = l := by
  unfold trimChars
  rw [dropWhile_eq_self_of_none l h,
    dropWhile_eq_self_of_none l.reverse (fun c hc => h c (List.mem_reverse.mp hc)),
    List.reverse_reverse]

theorem isJsWs_digitChar : ∀ n < 10, isJsWs (digitChar n) = false := by decide

theorem monthLen_le_31 : ∀ l : Bool, ∀ m < 13, monthLen l m ≤ 31 := by decide

/-- Well-formed ISO fields: calendar-valid components within the shapes the
renderer and the calendar arithmetic support. -/
def FieldsOk (f : IsoFields) : Prop :=
  1 ≤ f.y ∧ f.y ≤ 9999 ∧ 1 ≤ f.mo ∧ f.mo ≤ 12 ∧ 1 ≤ f.dd ∧
  f.dd ≤ monthLen (isLeap f.y) f.mo ∧ f.hh ≤ 23 ∧ f.mi ≤ 59 ∧ f.ss ≤ 59 ∧ f.ms ≤ 999 ∧
  (f.hasMs = false → f.ms = 0) ∧
  (∀ neg oh om, f.zone = IsoZone.offset neg oh om → oh ≤ 23 ∧ om ≤ 59)

theorem parseCanonical_of_FieldsOk {f : IsoFields} (h : FieldsOk f) :
    parseCanonical (renderFields f).data = some f := by
  obtain ⟨h1, h2, h3, h4, h5, h6, h7, h8, h9, h10, h11, h12⟩ := h
  have hlen := monthLen_le_31 (isLeap f.y) f.mo (by omega)
  refine parseCanonical_renderFields f (by omega) (by omega) (by omega) (by omega)
    (by omega) (by omega) (by omega) h11 ?_
  intro neg oh om hz
  obtain ⟨ho, hm⟩ := h12 neg oh om hz
  omega

theorem fieldsValid_of_FieldsOk {f : IsoFields} (h : FieldsOk f) :
    fieldsValid f = true := by
  obtain ⟨y, mo, dd, hh, mi, ss, ms, hasMs, zone⟩ := f
  obtain ⟨h1, h2, h3, h4, h5, h6, h7, h8, h9, h10, h11, h12⟩ := h
  cases zone with
  | noZone =>
    simp only [fieldsValid, Bool.and_eq_true, decide_eq_true_eq]
    exact ⟨⟨⟨⟨⟨⟨⟨⟨h1, h3⟩, h4⟩, h5⟩, h6⟩, h7⟩, h8⟩, h9⟩, trivial⟩
  | utc =>
    simp only [fieldsValid, Bool.and_eq_true, decide_eq_true_eq]
    exact ⟨⟨⟨⟨⟨⟨⟨⟨h1, h3⟩, h4⟩, h5⟩, h6⟩, h7⟩, h8⟩, h9⟩, trivial⟩
  | offset neg oh om =>
    obtain ⟨ho, hm⟩ := h12 neg oh om rfl
    simp only [fieldsValid, Bool.and_eq_true, decide_eq_true_eq]
    exact ⟨⟨⟨⟨⟨⟨⟨⟨h1, h3⟩, h4⟩, h5⟩, h6⟩, h7⟩, h8⟩, h9⟩, ho, hm⟩

theorem epochOfFields_utc (tz : Int) (y mo dd hh mi ss ms : Nat) (hasMs : Bool) :
    epochOfFields tz ⟨y, mo, dd, hh, mi, ss, ms, hasMs, IsoZone.utc⟩ =
      epochOfCivil y mo dd hh mi ss ms := by
  simp [epochOfFields]

theorem renderFields_data_ne_empty (f : IsoFields) :
    (renderFields f).data.isEmpty = false := by
  simp only [renderFields, data_mk, pad4, List.cons_append, List.isEmpty_cons]

theorem jsTrim_renderUTCms (y mo d h mi s ms : Nat) (hy : y ≤ 9999) (hmo : mo ≤ 99)
    (hd : d ≤ 99) (hh : h ≤ 99) (hmi : mi ≤ 99) (hs : s ≤ 99) (hms : ms ≤ 999) :
    jsTrim (renderFields ⟨y, mo, d, h, mi, s, ms, true, IsoZone.utc⟩) =
      renderFields ⟨y, mo, d, h, mi, s, ms, true, IsoZone.utc⟩ := by
  unfold jsTrim
  rw [trimChars_eq_self ?hws]
  case hws =>
    intro c hc
    simp only [renderFields, data_mk, msChars, zoneChars, pad4, pad2, pad3,
      List.cons_append, List.nil_append, List.append_assoc, List.mem_cons,
      List.not_mem_nil, or_false] at hc
    rcases hc with rfl|rfl|rfl|rfl|rfl|rfl|rfl|rfl|rfl|rfl|rfl|rfl|rfl|rfl|rfl|rfl|rfl|
      rfl|rfl|rfl|rfl|rfl|rfl|rfl
    all_goals first
      | decide
      | exact isJsWs_digitChar _ (by omega)

set_option maxHeartbeats 1000000 in
theorem normalizeDateTime_renderUTCms (env : JsEnv) (p : String) (tzo : Option String)
    (f : IsoFields) (hok : FieldsOk f) (hms : f.hasMs = true) (hz : f.zone = IsoZone.utc) :
    normalizeDateTime env (some (.str (renderFields f))) p tzo = .ok (renderFields f) := by
  have hv := fieldsValid_of_FieldsOk hok
  have hp := parseCanonical_of_FieldsOk hok
  obtain ⟨y, mo, dd, hh, mi, ss, ms, hasMs, zone⟩ := f
  simp only at hms hz
  subst hms
  subst hz
  obtain ⟨h1, h2, h3, h4, h5, h6, h7, h8, h9, h10, h11, h12⟩ := hok
  simp only at h1 h2 h3 h4 h5 h6 h7 h8 h9 h10
  have hlen := monthLen_le_31 (isLeap y) mo (by omega)
  have htrim := jsTrim_renderUTCms y mo dd hh mi ss ms (by omega) (by omega) (by omega)
    (by omega) (by omega) (by omega) (by omega)
  have hrender := renderIso_epochOfCivil y mo dd hh mi ss ms h1 h2 h3 h4 h5 h6 h7 h8 h9 h10
  simp only [normalizeDateTime, formatDateTimeForGoogle, Option.isNone_some, jsTruthy,
    renderFields_data_ne_empty, Bool.not_false, Bool.false_or, Option.getD_some]
  rw [if_neg (by simp)]
  simp only [formatInner, parseStringDate, htrim, hp, Option.isSome_some, if_true,
    jsDateFromIso, hv, if_true, epochOfFields_utc, hrender]


/-! ## The `M/D/Y` branch: local civil fields of the parsed instant -/

/-- Local-time civil fields of an instant: `getFullYear`, `getMonth`+1,
`getDate`, `getHours`, `getMinutes`, `getSeconds` under the fixed offset. -/
def localCivil (tz : Int) (t : Int) : Nat × Nat × Nat × Nat × Nat × Nat :=
  let lt := t + tz * 60000
  let msOfDay := (lt % 86400000).toNat
  let n := (lt / 86400000 + (epochDayOffset : Int)).toNat
  let c := civilFromDay n
  (c.1, c.2.1, c.2.2, msOfDay / 3600000, msOfDay / 60000 % 60, msOfDay / 1000 % 60)

theorem localCivil_jsMakeLocalDate (tz : Int) (Y M D h mi s : Nat)
    (hY1 : 100 ≤ Y) (hY2 : Y ≤ 9999) (hM1 : 1 ≤ M) (hM2 : M ≤ 12) (hD1 : 1 ≤ D)
    (hD2 : D ≤ monthLen (isLeap Y) M) (hh : h ≤ 23) (hmi : mi ≤ 59) (hs : s ≤ 59) :
    localCivil tz (jsMakeLocalDate tz Y ((M : Int) - 1) D h mi s) = (Y, M, D, h, mi, s) := by
  have hyr : (if Y ≤ 99 then 1900 + Y else Y) = Y := if_neg (by omega)
  have hdiv : ((M : Int) - 1) / 12 = 0 := by omega
  have hmod : (((M : Int) - 1) % 12).toNat = M - 1 := by omega
  have hym : ((Y : Int) + 0).toNat = Y := by omega
  simp only [jsMakeLocalDate, hyr, hdiv, hmod, hym]
  have hsub : M - 1 + 1 = M := by omega
  rw [hsub]
  have hday : (dayNumber Y M 1 : Int) + (D : Int) - 1 = (dayNumber Y M D : Int) := by
    simp only [dayNumber]
    omega
  have hT : ((h * 60 + mi) * 60 + s) * 1000 < 86400000 := by omega
  set lt : Int := ((dayNumber Y M 1 : Int) + (D : Int) - 1 - (epochDayOffset : Int)) * 86400000 +
    ((((h * 60 + mi) * 60 + s) * 1000 : Nat) : Int) - tz * 60000 + tz * 60000 with hlt
  have hlt2 : lt = ((dayNumber Y M D : Int) - (epochDayOffset : Int)) * 86400000 +
      ((((h * 60 + mi) * 60 + s) * 1000 : Nat) : Int) := by
    rw [hlt, ← hday]
    ring
  have e1 : (lt / 86400000 + (epochDayOffset : Int)).toNat = dayNumber Y M D := by
    rw [hlt2]
    omega
  have e2 : (lt % 86400000).toNat = ((h * 60 + mi) * 60 + s) * 1000 := by
    rw [hlt2]
    omega
  have e3 : civilFromDay (dayNumber Y M D) = (Y, M, D) :=
    civilFromDay_dayNumber Y M D (by omega) hM1 hM2 hD1 hD2
  have t1 : (((h * 60 + mi) * 60 + s) * 1000) / 3600000 = h := by omega
  have t2 : (((h * 60 + mi) * 60 + s) * 1000) / 60000 % 60 = mi := by omega
  have t3 : (((h * 60 + mi) * 60 + s) * 1000) / 1000 % 60 = s := by omega
  simp only [localCivil, e1, e2, e3, t1, t2, t3]

theorem parseUS_head_digit {l : List Char} {r : Nat × Nat × Nat × Option (Nat × Nat × Nat × Option Bool)}
    (h : parseUS l = some r) : ∃ c t, l = c :: t ∧ c.isDigit = true := by
  cases l with
  | nil => simp [parseUS, spanDigits] at h
  | cons c t =>
    by_cases hc : c.isDigit
    · exact ⟨c, t, rfl, hc⟩
    · exfalso
      rw [parseUS.eq_def] at h
      simp [spanDigits, hc] at h

theorem parseRelative_none_of_head_digit {c : Char} {t : List Char} (hc : c.isDigit = true) :
    parseRelative (c :: t) = none := by
  rw [parseRelative.eq_def]
  split
  · rename_i rest heq
    exfalso
    have hci : c = 'i' := by injection heq
    subst hci
    exact absurd hc (by decide)
  · rfl

/-- Reduction of `parseStringDate` through the US-date branch. -/
theorem parseStringDate_us (env : JsEnv) (s : String) (M D Y : Nat)
    (time : Option (Nat × Nat × Nat × Option Bool))
    (h1 : parseCanonical (jsTrim s).data = none)
    (h6 : parseUS ((jsTrim s).toLower).data = some (M, D, Y, time)) :
    parseStringDate env s = .ok (some (jsMakeLocalDate env.tz Y ((M : Int) - 1) D
      (adjustAmPm (time.getD (0, 0, 0, none)).1 (time.getD (0, 0, 0, none)).2.2.2)
      (time.getD (0, 0, 0, none)).2.1 (time.getD (0, 0, 0, none)).2.2.1)) := by
  obtain ⟨c, ct, hl, hcdig⟩ := parseUS_head_digit h6
  have htoday : ¬ ((jsTrim s).toLower = "today") := by
    intro he
    have hd : ("today" : String).data = ['t', 'o', 'd', 'a', 'y'] := rfl
    rw [he, hd] at hl
    have : c = 't' := by injection hl with hh ht; exact hh.symm
    subst this
    exact absurd hcdig (by decide)
  have htom : ¬ ((jsTrim s).toLower = "tomorrow") := by
    intro he
    have hd : ("tomorrow" : String).data = ['t', 'o', 'm', 'o', 'r', 'r', 'o', 'w'] := rfl
    rw [he, hd] at hl
    have : c = 't' := by injection hl with hh ht; exact hh.symm
    subst this
    exact absurd hcdig (by decide)
  have hyest : ¬ ((jsTrim s).toLower = "yesterday") := by
    intro he
    have hd : ("yesterday" : String).data = ['y', 'e', 's', 't', 'e', 'r', 'd', 'a', 'y'] := rfl
    rw [he, hd] at hl
    have : c = 'y' := by injection hl with hh ht; exact hh.symm
    subst this
    exact absurd hcdig (by decide)
  have hrel : parseRelative ((jsTrim s).toLower).data = none := by
    rw [hl]
    exact parseRelative_none_of_head_digit hcdig
  simp only [parseStringDate, h1, Option.isSome_none, Bool.false_eq_true, if_false,
    if_neg htoday, if_neg htom, if_neg hyest, hrel, h6]

/-! ## `JSON.parse` (restricted model: integer numerals, no unicode escapes;
it agrees with the JavaScript parser on inputs avoiding those features) -/

def jsonWs (c : Char) : Bool := c == ' ' || c == '\t' || c == '\n' || c == '\r'

def skipJsonWs (l : List Char) : List Char := l.dropWhile jsonWs

/-- JSON integer literal (leading-zero rule enforced). -/
def parseJsonNat (l : List Char) : Option (Nat × List Char) :=
  let (ds, r) := spanDigits l
  if ds.isEmpty then none
  else if 1 < ds.length && ds.head? == some '0' then none
  else some (digitsVal ds, r)

/-- JSON string escapes (`\u` unsupported in the model). -/
def escChar : Char → Option Char
  | '"' => some '"'
  | '\\' => some '\\'
  | '/' => some '/'
  | 'b' => some (Char.ofNat 8)
  | 'f' => some (Char.ofNat 12)
  | 'n' => some '\n'
  | 'r' => some '\r'
  | 't' => some '\t'
  | _ => none

mutual

/-- Parse one JSON value (fuel-indexed recursive descent). -/
def parseJsonVal : Nat → List Char → Option (Json × List Char)
  | 0, _ => none
  | fuel + 1, l =>
    match skipJsonWs l with
    | 'n' :: 'u' :: 'l' :: 'l' :: r => some (.null, r)
    | 't' :: 'r' :: 'u' :: 'e' :: r => some (.bool true, r)
    | 'f' :: 'a' :: 'l' :: 's' :: 'e' :: r => some (.bool false, r)
    | '"' :: r => (parseJsonString fuel r).map fun p => (.str p.1, p.2)
    | '-' :: r => (parseJsonNat r).map fun p => (.num (-(p.1 : Int)), p.2)
    | '[' :: r =>
      match skipJsonWs r with
      | ']' :: r2 => some (.arr [], r2)
      | _ => (parseJsonElems fuel (skipJsonWs r)).map fun p => (.arr p.1, p.2)
    | '{' :: r =>
      match skipJsonWs r with
      | '}' :: r2 => some (.obj [], r2)
      | _ => (parseJsonMembers fuel (skipJsonWs r)).map fun p => (.obj p.1, p.2)
    | c :: r => if c.isDigit then (parseJsonNat (c :: r)).map fun p => (.num p.1, p.2) else none
    | [] => none

/-- Parse nonempty array elements. -/
def parseJsonElems : Nat → List Char → Option (List Json × List Char)
  | 0, _ => none
  | fuel + 1, l =>
    match parseJsonVal fuel l with
    | none => none
    | some (v, r) =>
      match skipJsonWs r with
      | ',' :: r2 => (parseJsonElems fuel r2).map fun p => (v :: p.1, p.2)
      | ']' :: r2 => some ([v], r2)
      | _ => none

/-- Parse nonempty object members. -/
def parseJsonMembers : Nat → List Char → Option (List (String × Json) × List Char)
  | 0, _ => none
  | fuel + 1, l =>
    match skipJsonWs l with
    | '"' :: r =>
      match parseJsonString fuel r with
      | none => none
      | some (k, r2) =>
        match skipJsonWs r2 with
        | ':' :: r3 =>
          match parseJsonVal fuel r3 with
          | none => none
          | some (v, r4) =>
            match skipJsonWs r4 with
            | ',' :: r5 => (parseJsonMembers fuel r5).map fun p => ((k, v) :: p.1, p.2)
            | '}' :: r5 => some ([(k, v)], r5)
            | _ => none
        | _ => none
    | _ => none

/-- Parse the remainder of a JSON string literal (after the opening quote). -/
def parseJsonString : Nat → List Char → Option (String × List Char)
  | 0, _ => none
  | fuel + 1, l =>
    match l with
    | '"' :: r => some ("", r)
    | '\\' :: e :: r =>
      match escChar e with
      | none => none
      | some c => (parseJsonString fuel r).map fun p => (String.mk (c :: p.1.data), p.2)
    | c :: r =>
      if c.toNat < 32 then none
      else (parseJsonString fuel r).map fun p => (String.mk (c :: p.1.data), p.2)
    | [] => none

end

/-- `JSON.parse`: one value, surrounded only by whitespace. -/
def parseJson (s : String) : Option Json :=
  match parseJsonVal (s.data.length + 2) s.data with
  | some (v, r) => if (skipJsonWs r).isEmpty then some v else none
  | none => none

/-! ## `agent-loop.ts`: the streaming delta aggregator of `LLM.call` -/

/-- One entry of a `delta.tool_calls` array: slot index plus optional
id/name/arguments fragments. -/
structure ToolCallDelta where
  index : Option Nat
  id : Option String
  fname : Option String
  args : Option String
deriving Repr

/-- A completed tool-call request (`ToolCall` in `tools.ts`). -/
structure ToolCall where
  id : String
  name : String
  input : Json
deriving Repr

/-- The mutable `currentToolCall` of `LLM.call`. -/
structure PendingToolCall where
  index : Nat
  id : String
  fname : String
  args : String
deriving Repr

/-- Aggregation state: the open slot, completed calls, and the number of
`logger.error` reports for argument-parse failures. -/
structure AggState where
  current : Option PendingToolCall
  calls : List ToolCall
  parseErrors : Nat
deriving Repr

def initAgg : AggState := ⟨none, [], 0⟩

/-- Finalize a pending slot: `JSON.parse` the accumulated argument text. -/
def finalizePending (p : PendingToolCall) : Option ToolCall :=
  (parseJson p.args).map fun v => ⟨p.id, p.fname, v⟩

/-- One `toolCallDelta` transition of `LLM.call`.  (In the append branch the
source guards each `+=` behind a truthiness test; appending the empty string
is the identity, so `getD ""` is extensionally the same.) -/
def stepDelta (st : AggState) (d : ToolCallDelta) : AggState :=
  match d.index with
  | none => st
  | some i =>
    match st.current with
    | none =>
      { st with current := some ⟨i, d.id.getD "", d.fname.getD "", d.args.getD ""⟩ }
    | some cur =>
      if i ≠ cur.index then
        match finalizePending cur with
        | some tc => ⟨some ⟨i, d.id.getD "", d.fname.getD "", d.args.getD ""⟩,
                      st.calls ++ [tc], st.parseErrors⟩
        | none => ⟨some ⟨i, d.id.getD "", d.fname.getD "", d.args.getD ""⟩,
                   st.calls, st.parseErrors + 1⟩
      else
        { st with current := some ⟨cur.index, cur.id ++ d.id.getD "",
            cur.fname ++ d.fname.getD "", cur.args ++ d.args.getD ""⟩ }

/-- Finalize the still-open slot at stream end. -/
def finalizeState (st : AggState) : List ToolCall × Nat :=
  match st.current with
  | some cur =>
    match finalizePending cur with
    | some tc => (st.calls ++ [tc], st.parseErrors)
    | none => (st.calls, st.parseErrors + 1)
  | none => (st.calls, st.parseErrors)

/-- Aggregate a stream of tool-call fragments (no text/finish events). -/
def aggDeltas (ds : List ToolCallDelta) : List ToolCall × Nat :=
  finalizeState (ds.foldl stepDelta initAgg)

/-- One streamed chunk: optional text fragment, tool-call fragments, optional
finish reason. -/
structure StreamChunk where
  content : Option String
  tool_calls : List ToolCallDelta
  finish : Option String
deriving Repr

/-- Process one chunk: stream the text fragment, apply the tool-call deltas. -/
def stepChunk (acc : String × AggState) (ch : StreamChunk) : String × AggState :=
  (acc.1 ++ ch.content.getD "", ch.tool_calls.foldl stepDelta acc.2)

/-- The `for await` loop of `LLM.call`: chunks are consumed in order and the
loop breaks after a chunk carrying a `stop` or `tool_calls` finish reason. -/
def processChunks (acc : String × AggState) : List StreamChunk → String × AggState
  | [] => acc
  | ch :: rest =>
    let acc2 := stepChunk acc ch
    if ch.finish = some "stop" ∨ ch.finish = some "tool_calls" then acc2
    else processChunks acc2 rest

/-- `LLM.call` stream handling: returns the streamed text, the completed tool
calls, and the number of reported argument-parse failures. -/
def runStream (chunks : List StreamChunk) : String × List ToolCall × Nat :=
  let r := processChunks ("", initAgg) chunks
  let f := finalizeState r.2
  (r.1, f.1, f.2)

/-- A continuation fragment for slot `i` carrying only argument text. -/
def contFrag (i : Nat) (a : String) : ToolCallDelta := ⟨some i, none, none, some a⟩

theorem foldl_contFrags (i : Nat) :
    ∀ (as : List String) (cur : PendingToolCall), cur.index = i →
    ∀ (calls : List ToolCall) (errs : Nat),
    List.foldl stepDelta ⟨some cur, calls, errs⟩ (as.map (contFrag i)) =
      ⟨some ⟨cur.index, cur.id, cur.fname, cur.args ++ String.join as⟩, calls, errs⟩ := by
  intro as
  induction as with
  | nil =>
    intro cur hidx calls errs
    simp only [List.map_nil, List.foldl_nil, String.join, List.foldl_nil, String.append_empty]
  | cons a t ih =>
    intro cur hidx calls errs
    simp only [List.map_cons, List.foldl_cons]
    have hstep : stepDelta ⟨some cur, calls, errs⟩ (contFrag i a) =
        ⟨some ⟨cur.index, cur.id ++ "", cur.fname ++ "", cur.args ++ a⟩, calls, errs⟩ := by
      simp [stepDelta, contFrag, hidx]
    rw [hstep]
    rw [ih ⟨cur.index, cur.id ++ "", cur.fname ++ "", cur.args ++ a⟩ hidx calls errs]
    simp only [String.append_empty]
    have hjoin : ∀ (s : String) (l : List String), l.foldl (· ++ ·) s = s ++ String.join l := by
      intro s l
      induction l generalizing s with
      | nil => simp [String.join, List.foldl_nil, String.append_empty]
      | cons b bt ihb =>
        simp only [List.foldl_cons]
        rw [ihb (s ++ b)]
        have hj : String.join (b :: bt) = b ++ String.join bt := by
          show List.foldl (· ++ ·) "" (b :: bt) = _
          rw [List.foldl_cons, ihb ("" ++ b), String.empty_append]
        rw [hj, String.append_assoc]
    have hja : String.join (a :: t) = a ++ String.join t := by
      show List.foldl (· ++ ·) "" (a :: t) = _
      rw [List.foldl_cons, hjoin ("" ++ a) t, String.empty_append]
    rw [hja, String.append_assoc]


/-! ## `google-tools.ts` -/

/-- Google Calendar event time (`dateTime` / all-day `date`, optional zone). -/
structure EventTime where
  dateTime : Option String
  date : Option String
  timeZone : Option String
deriving DecidableEq, Repr

/-- The slice of `calendar_v3.Schema$Event` the core reads and writes. -/
structure CalendarEvent where
  summary : Option String
  description : Option String
  location : Option String
  start : Option EventTime
  «end» : Option EventTime
  attendees : Option (List String)
deriving DecidableEq, Repr

/-- One `calendarList` entry. -/
structure CalendarListEntry where
  id : Option String
  summary : Option String
  description : Option String
deriving Repr

/-- `new Date(s)` on an arbitrary string: explicit ECMA ISO shapes, otherwise
the oracle.  A bare ISO date is interpreted in UTC (ECMA-262), a date-time
without offset in local time. -/
def jsDateOfString (env : JsEnv) (s : String) : Option Int :=
  if (parseCanonical s.data).isSome then jsDateFromIso env.tz s
  else if isBareIsoDate s.data then jsDateFromIso 0 (s ++ "T00:00:00")
  else env.nativeParse s

/-- JavaScript `<` on two Dates (false when either is NaN). -/
def dateLt (a b : Option Int) : Bool :=
  match a, b with
  | some x, some y => decide (x < y)
  | _, _ => false

/-- JavaScript `>=` on two Dates (false when either is NaN). -/
def dateGe (a b : Option Int) : Bool :=
  match a, b with
  | some x, some y => decide (y ≤ x)
  | _, _ => false

/-- `event.start?.dateTime || event.start?.date`. -/
def eventStartStr (e : CalendarEvent) : Option String :=
  match e.start with
  | none => none
  | some t =>
    match t.dateTime with
    | some s => if s.data.isEmpty then t.date else some s
    | none => t.date

/-- `event.end?.dateTime || event.end?.date`. -/
def eventEndStr (e : CalendarEvent) : Option String :=
  match e.«end» with
  | none => none
  | some t =>
    match t.dateTime with
    | some s => if s.data.isEmpty then t.date else some s
    | none => t.date

def truthyStr : Option String → Bool
  | some s => !s.data.isEmpty
  | none => false

/-- The filter body of `checkForConflicts` in `google-tools.ts`. -/
def conflictFilter (env : JsEnv) (startTime endTime : String) (event : CalendarEvent) : Bool :=
  let es := eventStartStr event
  let ee := eventEndStr event
  if !(truthyStr es && truthyStr ee) then false
  else
    dateLt (jsDateOfString env startTime) (jsDateOfString env (ee.getD "")) &&
    dateLt (jsDateOfString env (es.getD "")) (jsDateOfString env endTime)

/-- `checkForConflicts` applied to the events returned by the backend query. -/
def checkForConflicts (env : JsEnv) (startTime endTime : String)
    (events : List CalendarEvent) : List CalendarEvent :=
  events.filter (conflictFilter env startTime endTime)

/-- The spec wording for a conflict: the existing event has both endpoints and
`existingStart < queryEnd && existingEnd > queryStart`. -/
def specOverlaps (env : JsEnv) (startTime endTime : String) (event : CalendarEvent) : Prop :=
  ∃ es ee a b qs qe,
    eventStartStr event = some es ∧ eventEndStr event = some ee ∧
    es.data ≠ [] ∧ ee.data ≠ [] ∧
    jsDateOfString env es = some a ∧ jsDateOfString env ee = some b ∧
    jsDateOfString env startTime = some qs ∧ jsDateOfString env endTime = some qe ∧
    qs < b ∧ a < qe

theorem conflictFilter_iff (env : JsEnv) (startTime endTime : String) (e : CalendarEvent) :
    conflictFilter env startTime endTime e = true ↔ specOverlaps env startTime endTime e := by
  unfold conflictFilter specOverlaps
  constructor
  · intro h
    by_cases hs : truthyStr (eventStartStr e) && truthyStr (eventEndStr e)
    · simp only [hs, Bool.not_true, Bool.false_eq_true, if_false] at h
      obtain ⟨hst, het⟩ := Bool.and_eq_true .. |>.mp hs
      obtain ⟨es, hes, hesne⟩ : ∃ es, eventStartStr e = some es ∧ es.data ≠ [] := by
        cases hx : eventStartStr e with
        | none => rw [hx] at hst; simp [truthyStr] at hst
        | some s =>
          rw [hx] at hst
          simp only [truthyStr, Bool.not_eq_true'] at hst
          exact ⟨s, rfl, by simpa [List.isEmpty_iff] using hst⟩
      obtain ⟨ee, hee, heene⟩ : ∃ ee, eventEndStr e = some ee ∧ ee.data ≠ [] := by
        cases hx : eventEndStr e with
        | none => rw [hx] at het; simp [truthyStr] at het
        | some s =>
          rw [hx] at het
          simp only [truthyStr, Bool.not_eq_true'] at het
          exact ⟨s, rfl, by simpa [List.isEmpty_iff] using het⟩
      rw [hes, hee] at h
      simp only [Option.getD_some, Bool.and_eq_true] at h
      obtain ⟨h1, h2⟩ := h
      obtain ⟨qs, b, hqs, hb, hlt1⟩ : ∃ x y, jsDateOfString env startTime = some x ∧
          jsDateOfString env ee = some y ∧ x < y := by
        unfold dateLt at h1
        split at h1
        · next x y hx hy => exact ⟨x, y, hx, hy, by simpa using h1⟩
        · simp at h1
      obtain ⟨a, qe, ha, hqe, hlt2⟩ : ∃ x y, jsDateOfString env es = some x ∧
          jsDateOfString env endTime = some y ∧ x < y := by
        unfold dateLt at h2
        split at h2
        · next x y hx hy => exact ⟨x, y, hx, hy, by simpa using h2⟩
        · simp at h2
      exact ⟨es, ee, a, b, qs, qe, hes, hee, hesne, heene, ha, hb, hqs, hqe, hlt1, hlt2⟩
    · exfalso
      simp only [Bool.not_eq_true] at hs
      simp only [hs, Bool.not_false, if_true] at h
      exact absurd h (by decide)
  · rintro ⟨es, ee, a, b, qs, qe, hes, hee, hesne, heene, ha, hb, hqs, hqe, hlt1, hlt2⟩
    have hst : truthyStr (eventStartStr e) = true := by
      rw [hes]; simp [truthyStr, List.isEmpty_iff, hesne]
    have het : truthyStr (eventEndStr e) = true := by
      rw [hee]; simp [truthyStr, List.isEmpty_iff, heene]
    simp only [hst, het, Bool.and_self, Bool.not_true, Bool.false_eq_true, if_false,
      hes, hee, Option.getD_some]
    unfold dateLt
    rw [hqs, hb, ha, hqe]
    simp [hlt1, hlt2]
    exact ⟨hes ▸ hst, hee ▸ het⟩

theorem checkForConflicts_mem (env : JsEnv) (qs qe : String) (events : List CalendarEvent)
    (e : CalendarEvent) :
    e ∈ checkForConflicts env qs qe events ↔ e ∈ events ∧ specOverlaps env qs qe e := by
  unfold checkForConflicts
  rw [List.mem_filter, conflictFilter_iff]

/-- The sweep step of `findFreeTimeSlots` over one busy slot. -/
def sweepStep (endT dur : Int) (acc : List (Int × Int) × Int) (b : Int × Int) :
    List (Int × Int) × Int :=
  let slots2 :=
    if acc.2 < b.1 then
      if min b.1 endT - acc.2 ≥ dur then acc.1 ++ [(acc.2, min b.1 endT)] else acc.1
    else acc.1
  (slots2, max acc.2 b.2)

/-- The full sweep of `findFreeTimeSlots` (times in epoch ms, duration in ms). -/
def sweep (startT endT dur : Int) (busy : List (Int × Int)) : List (Int × Int) :=
  let r := busy.foldl (sweepStep endT dur) ([], startT)
  r.1 ++ (if r.2 < endT ∧ endT - r.2 ≥ dur then [(r.2, endT)] else [])

/-- Busy extraction of `findFreeTimeSlots`: events with truthy `dateTime` on
both endpoints. -/
def busyStrings (events : List CalendarEvent) : List (String × String) :=
  events.filterMap fun e =>
    match e.start, e.«end» with
    | some st, some en =>
      match st.dateTime, en.dateTime with
      | some sd, some ed =>
        if !sd.data.isEmpty && !ed.data.isEmpty then some (sd, ed) else none
      | _, _ => none
    | _, _ => none

/-- The busy-slot extraction of `findFreeTimeSlots`: parse both `dateTime`
strings of each kept event (`none` when some string fails to parse). -/
def busyParsed (env : JsEnv) (events : List CalendarEvent) : Option (List (Int × Int)) :=
  (busyStrings events).mapM fun p => do
    let a ← jsDateOfString env p.1
    let b ← jsDateOfString env p.2
    pure (a, b)

/-- `findFreeTimeSlots` from `google-tools.ts` applied to the events returned
by the backend query; `none` when a date string fails to parse (NaN
arithmetic is outside the model). -/
def findFreeTimeSlots (env : JsEnv) (startDate endDate : String) (slotDurationMinutes : Int)
    (events : List CalendarEvent) : Option (List (String × String)) :=
  match jsDateOfString env startDate, jsDateOfString env endDate, busyParsed env events with
  | some s, some e, some busy =>
    some ((sweep s e (slotDurationMinutes * 60000)
      (List.insertionSort (fun a b : Int × Int => a.1 ≤ b.1) busy)).map
        fun p => (renderIso p.1, renderIso p.2))
  | _, _, _ => none


/-- Soundness of an emitted free slot: inside the window, long enough, and
disjoint from every busy interval. -/
def SlotSound (startT endT dur : Int) (busy : List (Int × Int)) (s : Int × Int) : Prop :=
  startT ≤ s.1 ∧ s.2 ≤ endT ∧ s.2 - s.1 ≥ dur ∧
  ∀ b ∈ busy, ∀ t, s.1 ≤ t → t < s.2 → ¬(b.1 ≤ t ∧ t < b.2)

theorem sweepAux_sound (endT dur : Int) (L : List (Int × Int)) :
    ∀ (rem past acc : List (Int × Int)) (cur startT : Int),
    past ++ rem = L →
    rem.Pairwise (fun a b => a.1 ≤ b.1) →
    (∀ b ∈ past, b.2 ≤ cur) →
    startT ≤ cur →
    (∀ s ∈ acc, SlotSound startT endT dur L s) →
    ∀ s ∈ (rem.foldl (sweepStep endT dur) (acc, cur)).1 ++
      (if (rem.foldl (sweepStep endT dur) (acc, cur)).2 < endT ∧
          endT - (rem.foldl (sweepStep endT dur) (acc, cur)).2 ≥ dur
       then [((rem.foldl (sweepStep endT dur) (acc, cur)).2, endT)] else []),
      SlotSound startT endT dur L s := by
  intro rem
  induction rem with
  | nil =>
    intro past acc cur startT hsplit hsort hpast hcur hacc s hmem
    simp only [List.foldl_nil] at hmem
    rcases List.mem_append.mp hmem with hin | hfin
    · exact hacc s hin
    · by_cases hc : cur < endT ∧ endT - cur ≥ dur
      · rw [if_pos hc] at hfin
        simp only [List.mem_singleton] at hfin
        subst hfin
        refine ⟨hcur, le_refl _, hc.2, ?_⟩
        intro b hb t ht1 ht2
        rw [List.append_nil] at hsplit
        rw [← hsplit] at hb
        have := hpast b hb
        simp only at ht1
        omega
      · rw [if_neg hc] at hfin
        simp at hfin
  | cons b rem ih =>
    intro past acc cur startT hsplit hsort hpast hcur hacc
    obtain ⟨hbrel, hsort2⟩ := List.pairwise_cons.mp hsort
    simp only [List.foldl_cons]
    have happ : (past ++ [b]) ++ rem = L := by
      rw [List.append_assoc, List.singleton_append]
      exact hsplit
    have hpast2 : ∀ b2 ∈ past ++ [b], b2.2 ≤ max cur b.2 := by
      intro b2 hb2
      rcases List.mem_append.mp hb2 with h | h
      · have := hpast b2 h
        have := le_max_left cur b.2
        omega
      · simp only [List.mem_singleton] at h
        rw [h]
        exact le_max_right cur b.2
    have hcur2 : startT ≤ max cur b.2 := le_trans hcur (le_max_left _ _)
    by_cases h1 : cur < b.1
    · by_cases h2 : min b.1 endT - cur ≥ dur
      · have hstep : sweepStep endT dur (acc, cur) b =
            (acc ++ [(cur, min b.1 endT)], max cur b.2) := by
          simp only [sweepStep]
          rw [if_pos h1, if_pos h2]
        rw [hstep]
        refine ih (past ++ [b]) (acc ++ [(cur, min b.1 endT)]) (max cur b.2) startT
          happ hsort2 hpast2 hcur2 ?_
        intro s hs
        rcases List.mem_append.mp hs with h | h
        · exact hacc s h
        · simp only [List.mem_singleton] at h
          subst h
          refine ⟨hcur, min_le_right _ _, h2, ?_⟩
          intro b2 hb2 t ht1 ht2
          simp only at ht1 ht2
          rw [← hsplit] at hb2
          rcases List.mem_append.mp hb2 with hp | hc2
          · have := hpast b2 hp
            omega
          · rcases List.mem_cons.mp hc2 with hbb | hr
            · have hmin := min_le_left b.1 endT
              rw [hbb]
              omega
            · have := hbrel b2 hr
              have := min_le_left b.1 endT
              omega
      · have hstep : sweepStep endT dur (acc, cur) b = (acc, max cur b.2) := by
          simp only [sweepStep]
          rw [if_pos h1, if_neg h2]
        rw [hstep]
        exact ih (past ++ [b]) acc (max cur b.2) startT happ hsort2 hpast2 hcur2 hacc
    · have hstep : sweepStep endT dur (acc, cur) b = (acc, max cur b.2) := by
        simp only [sweepStep]
        rw [if_neg h1]
      rw [hstep]
      exact ih (past ++ [b]) acc (max cur b.2) startT happ hsort2 hpast2 hcur2 hacc

theorem sweep_sound (startT endT dur : Int) (L : List (Int × Int))
    (hsorted : L.Pairwise (fun a b => a.1 ≤ b.1)) :
    ∀ s ∈ sweep startT endT dur L, SlotSound startT endT dur L s := by
  intro s hs
  exact sweepAux_sound endT dur L L [] [] startT startT rfl hsorted
    (by intro b hb; cases hb) (le_refl _) (by intro s2 hs2; cases hs2) s hs


/-! ## `tools.ts`: validators, error formatting, `handleToolCall` -/

def getField (input : Json) (k : String) : Option Json :=
  match input with
  | .obj kvs => (kvs.find? fun kv => kv.1 == k).map (·.2)
  | _ => none

def truthyOpt : Option Json → Bool
  | some v => jsTruthy v
  | none => false

def objMembers : Json → List (String × Json)
  | .obj kvs => kvs
  | _ => []

/-- JavaScript property assignment on the copied options object. -/
def setField (l : List (String × Json)) (k : String) (v : Json) : List (String × Json) :=
  if l.any (fun kv => kv.1 == k) then l.map fun kv => if kv.1 == k then (k, v) else kv
  else l ++ [(k, v)]

def strOfJson : Option Json → Option String
  | some (.str s) => some s
  | _ => none

/-- `attendees?.map(email => (\x7b email \x7d))` (validated to be strings). -/
def emailsOfJson : Option Json → Option (List String)
  | some (.arr xs) => some (xs.map fun x => match x with | .str s => s | v => jsDisplay v)
  | _ => none

/-- `validateInteger` from `tools.ts`. -/
def validateInteger (value : Option Json) (paramName : String) (mn mx : Option Int) :
    Except String Unit :=
  match value with
  | none => .ok ()
  | some .null => .ok ()
  | some (.num n) =>
    match mn with
    | some lo =>
      if n < lo then
        .error (paramName ++ " must be at least " ++ toString lo ++ ". Received: " ++ toString n)
      else
        match mx with
        | some hi =>
          if n > hi then
            .error (paramName ++ " must be at most " ++ toString hi ++ ". Received: " ++ toString n)
          else .ok ()
        | none => .ok ()
    | none =>
      match mx with
      | some hi =>
        if n > hi then
          .error (paramName ++ " must be at most " ++ toString hi ++ ". Received: " ++ toString n)
        else .ok ()
      | none => .ok ()
  | some v =>
    .error (paramName ++ " must be an integer. Received: " ++ jsTypeName v ++ " \"" ++
      jsDisplay v ++ "\"")

/-- `validateString` from `tools.ts`. -/
def validateString (value : Option Json) (paramName : String) : Except String Unit :=
  match value with
  | none => .ok ()
  | some .null => .ok ()
  | some (.str _) => .ok ()
  | some v =>
    .error (paramName ++ " must be a string. Received: " ++ jsTypeName v ++ " \"" ++
      jsDisplay v ++ "\"")

/-- The email regex `^[^\s@]+@[^\s@]+\.[^\s@]+$`: one `@`, non-empty
whitespace-free halves, and an inner dot in the domain. -/
def emailOk (s : String) : Bool :=
  let ok := fun c => !(isJsWs c || c == '@')
  let a := s.data.takeWhile fun c => !(c == '@')
  match s.data.dropWhile (fun c => !(c == '@')) with
  | '@' :: b =>
    !a.isEmpty && a.all ok && !b.isEmpty && b.all ok && ((b.drop 1).dropLast.any (· == '.'))
  | _ => false

def validateEmailList (paramName : String) : Nat → List Json → Except String Unit
  | _, [] => .ok ()
  | i, x :: t =>
    match x with
    | .str s =>
      if emailOk s then validateEmailList paramName (i + 1) t
      else .error (paramName ++ "[" ++ toString i ++ "] must be a valid email address. Received: \"" ++
        s ++ "\"")
    | v =>
      .error (paramName ++ "[" ++ toString i ++ "] must be a string email address. Received: " ++
        jsTypeName v ++ " \"" ++ jsDisplay v ++ "\"")

/-- `validateEmailArray` from `tools.ts`. -/
def validateEmailArray (emails : Option Json) (paramName : String) : Except String Unit :=
  match emails with
  | none => .ok ()
  | some .null => .ok ()
  | some (.arr xs) => validateEmailList paramName 0 xs
  | some v =>
    .error (paramName ++ " must be an array of email addresses. Received: " ++ jsTypeName v)

/-- A Google API error as read by `formatGoogleApiError`: HTTP-like code,
`errors[0].reason` when present, and the message. -/
structure GoogleErr where
  code : Option Int
  reason : Option String
  message : String
deriving Repr

/-- Substring search (`String.prototype.includes`). -/
def subSearch (pat : List Char) : List Char → Bool
  | [] => pat.isEmpty
  | c :: t => pat.isPrefixOf (c :: t) || subSearch pat t

def strIncludes (hay pat : String) : Bool := subSearch pat.data hay.data

/-- `formatGoogleApiError` from `tools.ts`. -/
def formatGoogleApiError (e : GoogleErr) : String :=
  match e.reason with
  | some "invalid" =>
    "Invalid parameter value. Please check your date format (use ISO 8601 like \"2024-01-15T14:30:00\") and other parameters"
  | some "badRequest" =>
    "Bad request. Please check your date/time format (use ISO 8601 like \"2024-01-15T14:30:00\") and parameter types"
  | some "notFound" =>
    "Resource not found. The calendar or event may not exist or may have been deleted"
  | some "forbidden" =>
    "Access denied. You may not have permission to access this calendar"
  | some "unauthorized" =>
    "Authentication failed. Please re-authenticate with Google Calendar"
  | _ =>
    match e.code with
    | some 400 =>
      if strIncludes e.message.toLower "time" || strIncludes e.message.toLower "date" then
        "Invalid date/time format. Please use ISO 8601 format like \"2024-01-15T14:30:00\" or \"2024-01-15T14:30:00Z\""
      else if strIncludes e.message.toLower "calendar" then
        "Invalid calendar ID. Use \"primary\" for your main calendar or get valid IDs with get_calendars"
      else if strIncludes e.message.toLower "event" then
        "Invalid event ID. Get valid event IDs from get_events_in_time_range"
      else
        "Bad request: " ++ e.message ++
          ". Please check your parameters (especially date formats - use ISO 8601 like \"2024-01-15T14:30:00\")"
    | some 401 => "Authentication failed. Please re-authenticate with Google Calendar"
    | some 403 => "Permission denied. Check that you have calendar access permissions"
    | some 404 => "Resource not found. The calendar or event may have been deleted"
    | _ =>
      "Google Calendar API error (" ++
        (match e.code with
         | some c => if c == 0 then "unknown" else toString c
         | none => "unknown") ++ "): " ++ e.message

/-- What a dispatch branch can throw: a plain `Error` message, or a raw
Google API error (recognized by the catch block via its `code`/`response`
fields). -/
inductive ToolError where
  | plain (msg : String) : ToolError
  | gapi (e : GoogleErr) : ToolError
deriving Repr

/-- The backing calendar service (external collaborator). -/
structure Backend where
  listEvents : List (String × Json) → Except GoogleErr (List CalendarEvent)
  insertEvent : Option Json → CalendarEvent → Except GoogleErr CalendarEvent
  updateEvent : String → CalendarEvent → Except GoogleErr CalendarEvent
  deleteEvent : String → Option Json → Except GoogleErr Unit
  listCalendars : Except GoogleErr (List CalendarListEntry)

/-- Side effects performed by `handleToolCall`. -/
inductive BackendCall where
  | listEvents (params : List (String × Json)) : BackendCall
  | insertEvent (calendarId : Option Json) (event : CalendarEvent) : BackendCall
  | updateEvent (eventId : String) (event : CalendarEvent) : BackendCall
  | deleteEvent (eventId : String) (calendarId : Option Json) : BackendCall
  | listCalendars : BackendCall
deriving Repr

inductive Effect where
  | shell (command : Option Json) : Effect
  | call (c : BackendCall) : Effect
deriving Repr

/-- Runtime context of tool dispatch.  `shell` models `executeBash` (its
promise always resolves with a result string); `fmtEvent` models the
presentation-only `logger.formatCalendarEvent`; `toLocale` models
`Date.prototype.toLocaleString`; `nanFreeSlots` is the free-slot listing when
an event datetime fails to parse (NaN arithmetic, outside the model). -/
structure DispatchCtx where
  env : JsEnv
  be : Backend
  shell : Option Json → String
  fmtEvent : CalendarEvent → String
  toLocale : String → String
  nanFreeSlots : String

/-- `getEventsInTimeRange` request parameters: defaults overridden by the
spread options. -/
def listEventsParams (env : JsEnv) (options : List (String × Json)) : List (String × Json) :=
  let base : List (String × Json) :=
    [("calendarId", .str "primary"), ("maxResults", .num 10),
     ("timeMin", .str (renderIso env.nowMs)), ("singleEvents", .bool true),
     ("orderBy", .str "startTime")]
  (base.filter fun kv => !(options.any fun kv2 => kv2.1 == kv.1)) ++ options

def formatCalendarEvents (fmt : CalendarEvent → String) (events : List CalendarEvent) : String :=
  if events.isEmpty then "No events found in the specified time range."
  else
    String.intercalate "\n\n" (events.enum.map fun p => toString (p.1 + 1) ++ ". " ++ fmt p.2)

/-- The merged options object of the list-events branch: the raw tool-call
members with the normalized `timeMin`/`timeMax` (when produced) assigned over
them. -/
def mergedOptions (m1 : List (String × Json)) (tmin tmax : Option String) :
    List (String × Json) :=
  match tmax with
  | some b => setField (match tmin with
      | some a => setField m1 "timeMin" (Json.str a)
      | none => m1) "timeMax" (Json.str b)
  | none => match tmin with
      | some a => setField m1 "timeMin" (Json.str a)
      | none => m1

/-- Options object of the conflict / free-time window query. -/
def windowOptions (ns ne : String) (calId : Json) : List (String × Json) :=
  [("timeMin", Json.str ns), ("timeMax", Json.str ne), ("calendarId", calId),
   ("maxResults", Json.num 100)]

/-- The event payload assembled by the create-event branch. -/
def createEventPayload (input : Json) (sg eg : GoogleCalendarDateTime) : CalendarEvent :=
  ⟨strOfJson (getField input "title"), strOfJson (getField input "description"),
   strOfJson (getField input "location"),
   some ⟨some sg.dateTime, none, some sg.timeZone⟩,
   some ⟨some eg.dateTime, none, some eg.timeZone⟩,
   emailsOfJson (getField input "attendees")⟩

/-- `durationMinutes || 60` of the quick-event branch. -/
def quickDuration (input : Json) : Int :=
  match getField input "durationMinutes" with
  | some (.num n) => if n == 0 then 60 else n
  | _ => 60

/-- The event payload assembled by `createQuickEvent` for start instant `t`. -/
def quickEventPayload (env : JsEnv) (input : Json) (t : Int) : CalendarEvent :=
  ⟨strOfJson (getField input "title"), strOfJson (getField input "description"),
   strOfJson (getField input "location"),
   some ⟨some (renderIso t), none, some env.tzName⟩,
   some ⟨some (renderIso (t + quickDuration input * 60000)), none, some env.tzName⟩,
   emailsOfJson (getField input "attendees")⟩

/-- The partial event payload assembled by the update-event branch. -/
def updateEventPayload (input : Json) (sg eg : Option GoogleCalendarDateTime) : CalendarEvent :=
  ⟨(if truthyOpt (getField input "title") then strOfJson (getField input "title") else none),
   (if truthyOpt (getField input "description") then strOfJson (getField input "description")
    else none),
   (if truthyOpt (getField input "location") then strOfJson (getField input "location") else none),
   sg.map (fun g => ⟨some g.dateTime, none, some g.timeZone⟩),
   eg.map (fun g => ⟨some g.dateTime, none, some g.timeZone⟩),
   (if truthyOpt (getField input "attendees") then emailsOfJson (getField input "attendees")
    else none)⟩

/-- Guard of the update branch: both endpoints supplied and start ≥ end. -/
def bothPresentGe (env : JsEnv) : Option String → Option String → Bool
  | some a, some b => dateGe (jsDateOfString env a) (jsDateOfString env b)
  | _, _ => false

def vstep (v : Except String Unit) (k : Unit → List Effect × Except ToolError String) :
    List Effect × Except ToolError String :=
  match v with
  | .error m => ([], .error (.plain m))
  | .ok _ => k ()

def nstep (v : Except String String) (k : String → List Effect × Except ToolError String) :
    List Effect × Except ToolError String :=
  match v with
  | .error m => ([], .error (.plain m))
  | .ok s => k s

/-- Normalize a datetime argument only when truthy (`if (input.x) ...`). -/
def nstepOpt (env : JsEnv) (o : Option Json) (name : String)
    (k : Option String → List Effect × Except ToolError String) :
    List Effect × Except ToolError String :=
  if truthyOpt o then nstep (normalizeDateTime env o name none) (fun s => k (some s)) else k none

def authStep (auth : Bool) (k : Unit → List Effect × Except ToolError String) :
    List Effect × Except ToolError String :=
  if auth then k () else ([], .error (.plain "Google Calendar authentication required"))

def bashBranch (ctx : DispatchCtx) (input : Json) : List Effect × Except ToolError String :=
  ([.shell (getField input "command")], .ok (ctx.shell (getField input "command")))

def getEventsBranch (ctx : DispatchCtx) (auth : Bool) (input : Json) :
    List Effect × Except ToolError String :=
  authStep auth fun _ =>
  vstep (validateInteger (getField input "maxResults") "maxResults" (some 1) (some 100)) fun _ =>
  vstep (validateString (getField input "calendarId") "calendarId") fun _ =>
  nstepOpt ctx.env (getField input "timeMin") "timeMin" fun tmin =>
  nstepOpt ctx.env (getField input "timeMax") "timeMax" fun tmax =>
  match ctx.be.listEvents (listEventsParams ctx.env
      (mergedOptions (objMembers input) tmin tmax)) with
  | .ok events =>
    ([.call (.listEvents (listEventsParams ctx.env (mergedOptions (objMembers input) tmin tmax)))],
     .ok (formatCalendarEvents ctx.fmtEvent events))
  | .error g =>
    ([.call (.listEvents (listEventsParams ctx.env (mergedOptions (objMembers input) tmin tmax)))],
     .error (.gapi g))

def createEventBranch (ctx : DispatchCtx) (auth : Bool) (input : Json) :
    List Effect × Except ToolError String :=
  authStep auth fun _ =>
  vstep (validateString (getField input "title") "title") fun _ =>
  if !truthyOpt (getField input "title") then
    ([], .error (.plain "title is required and cannot be empty"))
  else
  nstep (normalizeDateTime ctx.env (getField input "startDateTime") "startDateTime" none) fun ns =>
  nstep (normalizeDateTime ctx.env (getField input "endDateTime") "endDateTime" none) fun ne =>
  vstep (validateString (getField input "description") "description") fun _ =>
  vstep (validateString (getField input "location") "location") fun _ =>
  vstep (validateString (getField input "calendarId") "calendarId") fun _ =>
  vstep (validateEmailArray (getField input "attendees") "attendees") fun _ =>
  if dateGe (jsDateOfString ctx.env ns) (jsDateOfString ctx.env ne) then
    ([], .error (.plain "startDateTime must be before endDateTime"))
  else
    match createGoogleDateTime ctx.env (getField input "startDateTime") none with
    | .error m => ([], .error (.plain m))
    | .ok sg =>
      match createGoogleDateTime ctx.env (getField input "endDateTime") none with
      | .error m => ([], .error (.plain m))
      | .ok eg =>
        match ctx.be.insertEvent (getField input "calendarId") (createEventPayload input sg eg) with
        | .ok ev =>
          ([.call (.insertEvent (getField input "calendarId") (createEventPayload input sg eg))],
           .ok ("Event created successfully!\n\n" ++ ctx.fmtEvent ev))
        | .error g =>
          ([.call (.insertEvent (getField input "calendarId") (createEventPayload input sg eg))],
           .error (.plain ("Failed to create event: Error: " ++ g.message)))

def createQuickEventBranch (ctx : DispatchCtx) (auth : Bool) (input : Json) :
    List Effect × Except ToolError String :=
  authStep auth fun _ =>
  vstep (validateString (getField input "title") "title") fun _ =>
  if !truthyOpt (getField input "title") then
    ([], .error (.plain "title is required and cannot be empty"))
  else
  nstep (normalizeDateTime ctx.env (getField input "startDateTime") "startDateTime" none) fun nq =>
  vstep (validateInteger (getField input "durationMinutes") "durationMinutes" (some 1) none) fun _ =>
  vstep (validateString (getField input "description") "description") fun _ =>
  vstep (validateString (getField input "location") "location") fun _ =>
  vstep (validateString (getField input "calendarId") "calendarId") fun _ =>
  vstep (validateEmailArray (getField input "attendees") "attendees") fun _ =>
  match jsDateOfString ctx.env nq with
  | none => ([], .error (.plain "Invalid time value"))
  | some t =>
    match ctx.be.insertEvent (getField input "calendarId") (quickEventPayload ctx.env input t) with
    | .ok ev =>
      ([.call (.insertEvent (getField input "calendarId") (quickEventPayload ctx.env input t))],
       .ok ("Quick event created successfully!\n\n" ++ ctx.fmtEvent ev))
    | .error g =>
      ([.call (.insertEvent (getField input "calendarId") (quickEventPayload ctx.env input t))],
       .error (.plain ("Failed to create event: Error: " ++ g.message)))

def updateEventBranch (ctx : DispatchCtx) (auth : Bool) (input : Json) :
    List Effect × Except ToolError String :=
  authStep auth fun _ =>
  vstep (validateString (getField input "eventId") "eventId") fun _ =>
  if !truthyOpt (getField input "eventId") then
    ([], .error (.plain "eventId is required and cannot be empty"))
  else
  nstepOpt ctx.env (getField input "startDateTime") "startDateTime" fun ns =>
  nstepOpt ctx.env (getField input "endDateTime") "endDateTime" fun ne =>
  vstep (validateString (getField input "title") "title") fun _ =>
  vstep (validateString (getField input "description") "description") fun _ =>
  vstep (validateString (getField input "location") "location") fun _ =>
  vstep (validateEmailArray (getField input "attendees") "attendees") fun _ =>
  if bothPresentGe ctx.env ns ne then
    ([], .error (.plain "startDateTime must be before endDateTime"))
  else
    match (if truthyOpt (getField input "startDateTime") then
             (createGoogleDateTime ctx.env (getField input "startDateTime") none).map some
           else .ok none) with
    | .error m => ([], .error (.plain m))
    | .ok sg =>
      match (if truthyOpt (getField input "endDateTime") then
               (createGoogleDateTime ctx.env (getField input "endDateTime") none).map some
             else .ok none) with
      | .error m => ([], .error (.plain m))
      | .ok eg =>
        match ctx.be.updateEvent ((strOfJson (getField input "eventId")).getD "")
            (updateEventPayload input sg eg) with
        | .ok ev =>
          ([.call (.updateEvent ((strOfJson (getField input "eventId")).getD "")
              (updateEventPayload input sg eg))],
           .ok ("Event updated successfully!\n\n" ++ ctx.fmtEvent ev))
        | .error g =>
          ([.call (.updateEvent ((strOfJson (getField input "eventId")).getD "")
              (updateEventPayload input sg eg))],
           .error (.plain ("Failed to update event: Error: " ++ g.message)))

def deleteEventBranch (ctx : DispatchCtx) (auth : Bool) (input : Json) :
    List Effect × Except ToolError String :=
  authStep auth fun _ =>
  vstep (validateString (getField input "eventId") "eventId") fun _ =>
  if !truthyOpt (getField input "eventId") then
    ([], .error (.plain "eventId is required and cannot be empty"))
  else
  vstep (validateString (getField input "calendarId") "calendarId") fun _ =>
  match ctx.be.deleteEvent ((strOfJson (getField input "eventId")).getD "")
      (getField input "calendarId") with
  | .ok _ =>
    ([.call (.deleteEvent ((strOfJson (getField input "eventId")).getD "")
        (getField input "calendarId"))],
     .ok "Event deleted successfully!")
  | .error g =>
    ([.call (.deleteEvent ((strOfJson (getField input "eventId")).getD "")
        (getField input "calendarId"))],
     .error (.plain ("Failed to delete event: Error: " ++ g.message)))

def checkConflictsBranch (ctx : DispatchCtx) (auth : Bool) (input : Json) :
    List Effect × Except ToolError String :=
  authStep auth fun _ =>
  nstep (normalizeDateTime ctx.env (getField input "startTime") "startTime" none) fun ns =>
  nstep (normalizeDateTime ctx.env (getField input "endTime") "endTime" none) fun ne =>
  vstep (validateString (getField input "calendarId") "calendarId") fun _ =>
  if dateGe (jsDateOfString ctx.env ns) (jsDateOfString ctx.env ne) then
    ([], .error (.plain "startTime must be before endTime"))
  else
    match ctx.be.listEvents (listEventsParams ctx.env (windowOptions ns ne
        ((getField input "calendarId").getD (.str "primary")))) with
    | .ok events =>
      ([.call (.listEvents (listEventsParams ctx.env (windowOptions ns ne
          ((getField input "calendarId").getD (.str "primary")))))],
       .ok (if (checkForConflicts ctx.env ns ne events).length > 0 then
              "Found " ++ toString (checkForConflicts ctx.env ns ne events).length ++
                " conflicts:\n\n" ++
                formatCalendarEvents ctx.fmtEvent (checkForConflicts ctx.env ns ne events)
            else "No conflicts found in the specified time range."))
    | .error g =>
      ([.call (.listEvents (listEventsParams ctx.env (windowOptions ns ne
          ((getField input "calendarId").getD (.str "primary")))))],
       .error (.gapi g))

/-- `slotDurationMinutes` as read by the free-time branch. -/
def freeSlotDuration (input : Json) : Int :=
  match getField input "slotDurationMinutes" with
  | some (.num n) => n
  | some .null => 0
  | none => 60
  | _ => 0

def findFreeTimeBranch (ctx : DispatchCtx) (auth : Bool) (input : Json) :
    List Effect × Except ToolError String :=
  authStep auth fun _ =>
  nstep (normalizeDateTime ctx.env (getField input "startDate") "startDate" none) fun ns =>
  nstep (normalizeDateTime ctx.env (getField input "endDate") "endDate" none) fun ne =>
  vstep (validateInteger (getField input "slotDurationMinutes") "slotDurationMinutes"
    (some 1) none) fun _ =>
  vstep (validateString (getField input "calendarId") "calendarId") fun _ =>
  if dateGe (jsDateOfString ctx.env ns) (jsDateOfString ctx.env ne) then
    ([], .error (.plain "startDate must be before endDate"))
  else
    match ctx.be.listEvents (listEventsParams ctx.env (windowOptions ns ne
        ((getField input "calendarId").getD (.str "primary")))) with
    | .ok events =>
      ([.call (.listEvents (listEventsParams ctx.env (windowOptions ns ne
          ((getField input "calendarId").getD (.str "primary")))))],
       .ok (match findFreeTimeSlots ctx.env ns ne (freeSlotDuration input) events with
            | some slots =>
              if slots.length > 0 then
                "Found " ++ toString slots.length ++ " free time slots:\n\n" ++
                  String.intercalate "\n" (slots.enum.map fun p =>
                    toString (p.1 + 1) ++ ". üïí " ++ ctx.toLocale p.2.1 ++ " - " ++
                      ctx.toLocale p.2.2)
              else "No free time slots found in the specified range."
            | none => ctx.nanFreeSlots))
    | .error g =>
      ([.call (.listEvents (listEventsParams ctx.env (windowOptions ns ne
          ((getField input "calendarId").getD (.str "primary")))))],
       .error (.gapi g))

def getCalendarsBranch (ctx : DispatchCtx) (auth : Bool) :
    List Effect × Except ToolError String :=
  authStep auth fun _ =>
  match ctx.be.listCalendars with
  | .ok cals =>
    ([.call .listCalendars],
     .ok ("Available calendars:\n\n" ++
       String.intercalate "\n\n" (cals.enum.map fun p =>
         toString (p.1 + 1) ++ ". üìÖ " ++
           (match p.2.summary with
            | some s => if s.data.isEmpty then "Untitled Calendar" else s
            | none => "Untitled Calendar") ++
           "\n   üÜî ID: " ++ (match p.2.id with | some i => i | none => "undefined") ++
           "\n   üìù " ++
           (match p.2.description with
            | some d => if d.data.isEmpty then "No description" else d
            | none => "No description"))))
  | .error g => ([.call .listCalendars],
                 .error (.plain ("Failed to fetch calendars: Error: " ++ g.message)))

/-- The `switch (toolCall.name)` of `handleToolCall`. -/
def dispatchBody (ctx : DispatchCtx) (auth : Bool) (tc : ToolCall) :
    List Effect × Except ToolError String :=
  if tc.name = "bash" then bashBranch ctx tc.input
  else if tc.name = "get_events_in_time_range" then getEventsBranch ctx auth tc.input
  else if tc.name = "create_event" then createEventBranch ctx auth tc.input
  else if tc.name = "create_quick_event" then createQuickEventBranch ctx auth tc.input
  else if tc.name = "update_event" then updateEventBranch ctx auth tc.input
  else if tc.name = "delete_event" then deleteEventBranch ctx auth tc.input
  else if tc.name = "check_conflicts" then checkConflictsBranch ctx auth tc.input
  else if tc.name = "find_free_time" then findFreeTimeBranch ctx auth tc.input
  else if tc.name = "get_calendars" then getCalendarsBranch ctx auth
  else ([], .error (.plain ("Unsupported tool: " ++ tc.name)))

/-- A tool-result message. -/
structure ToolMsg where
  role : String
  tool_call_id : String
  content : String
deriving DecidableEq, Repr

/-- The catch block of `handleToolCall`: a raw Google API error, or a plain
error whose message happens to contain `googleapis`, is routed through
`formatGoogleApiError` (a plain `Error` has no `code`/`response`/`cause`
fields). -/
def catchFormat (toolName : String) : ToolError → String
  | .gapi g => "Error executing " ++ toolName ++ ": " ++ formatGoogleApiError g
  | .plain m =>
    if strIncludes m "googleapis" then
      "Error executing " ++ toolName ++ ": " ++ formatGoogleApiError ⟨none, none, m⟩
    else "Error executing " ++ toolName ++ ": " ++ m

/-- `handleToolCall` from `tools.ts`: dispatch, catching every failure into a
tool-result message; also returns the side effects performed. -/
def handleToolCall (ctx : DispatchCtx) (auth : Bool) (tc : ToolCall) : ToolMsg × List Effect :=
  match dispatchBody ctx auth tc with
  | (effs, .ok content) => (⟨"tool", tc.id, content⟩, effs)
  | (effs, .error e) => (⟨"tool", tc.id, catchFormat tc.name e⟩, effs)

/-! ## Fixtures for concrete evaluations -/

/-- A concrete runtime environment: clock at 2024-01-15T00:00:00Z, UTC offset,
no native-parse oracle. -/
def testEnv : JsEnv := ⟨1705276800000, 0, "UTC", fun _ => none⟩

/-- A backend whose operations all succeed (list queries return no events). -/
def testBackend : Backend :=
  ⟨fun _ => .ok [], fun _ e => .ok e, fun _ e => .ok e, fun _ _ => .ok (), .ok []⟩

/-- A concrete dispatch context over `testEnv` and `testBackend`. -/
def testCtx : DispatchCtx := ⟨testEnv, testBackend, fun _ => "done", fun _ => "", fun s => s, "NaN"⟩

/-! ## Generic facts about the dispatch combinators -/

theorem authStep_true (k : Unit → List Effect × Except ToolError String) :
    authStep true k = k () := rfl

theorem vstep_ok {v : Except String Unit} {k : Unit → List Effect × Except ToolError String}
    (u : Unit) (h : v = .ok u) : vstep v k = k () := by subst h; rfl

theorem vstep_error {v : Except String Unit} {k : Unit → List Effect × Except ToolError String}
    {m : String} (h : v = .error m) : vstep v k = ([], .error (.plain m)) := by subst h; rfl

theorem nstep_ok {v : Except String String} {k : String → List Effect × Except ToolError String}
    {s : String} (h : v = .ok s) : nstep v k = k s := by subst h; rfl

theorem nstep_error {v : Except String String} {k : String → List Effect × Except ToolError String}
    {m : String} (h : v = .error m) : nstep v k = ([], .error (.plain m)) := by subst h; rfl

theorem nstepOpt_pos {env : JsEnv} {o : Option Json} {name : String}
    {k : Option String → List Effect × Except ToolError String} {s : String}
    (ht : truthyOpt o = true) (h : normalizeDateTime env o name none = .ok s) :
    nstepOpt env o name k = k (some s) := by
  unfold nstepOpt
  rw [if_pos ht]
  exact nstep_ok h

theorem nstepOpt_neg {env : JsEnv} {o : Option Json} {name : String}
    {k : Option String → List Effect × Except ToolError String}
    (ht : truthyOpt o = false) : nstepOpt env o name k = k none := by
  unfold nstepOpt
  rw [if_neg (by rw [ht]; exact Bool.false_ne_true)]

theorem authStep_split (auth : Bool) (k : Unit → List Effect × Except ToolError String) :
    authStep auth k = k () ∨
    ((authStep auth k).1 = [] ∧ ∃ e, (authStep auth k).2 = Except.error e) := by
  cases auth with
  | false => exact Or.inr ⟨rfl, _, rfl⟩
  | true => exact Or.inl rfl

theorem vstep_split (v : Except String Unit) (k : Unit → List Effect × Except ToolError String) :
    vstep v k = k () ∨ ((vstep v k).1 = [] ∧ ∃ e, (vstep v k).2 = Except.error e) := by
  cases v with
  | error m => exact Or.inr ⟨rfl, _, rfl⟩
  | ok u => exact Or.inl (vstep_ok u rfl)

theorem nstep_split (v : Except String String) (k : String → List Effect × Except ToolError String) :
    (∃ s, v = .ok s ∧ nstep v k = k s) ∨
    ((nstep v k).1 = [] ∧ ∃ e, (nstep v k).2 = Except.error e) := by
  cases v with
  | error m => exact Or.inr ⟨rfl, _, rfl⟩
  | ok s => exact Or.inl ⟨s, rfl, rfl⟩

theorem nstepOpt_split (env : JsEnv) (o : Option Json) (name : String)
    (k : Option String → List Effect × Except ToolError String) :
    (∃ s, normalizeDateTime env o name none = .ok s ∧ nstepOpt env o name k = k (some s)) ∨
    (truthyOpt o = false ∧ nstepOpt env o name k = k none) ∨
    ((nstepOpt env o name k).1 = [] ∧ ∃ e, (nstepOpt env o name k).2 = Except.error e) := by
  by_cases ht : truthyOpt o = true
  · cases hn : normalizeDateTime env o name none with
    | error m =>
      refine Or.inr (Or.inr ?_)
      unfold nstepOpt
      rw [if_pos ht, nstep_error hn]
      exact ⟨rfl, _, rfl⟩
    | ok s => exact Or.inl ⟨s, rfl, nstepOpt_pos ht hn⟩
  · have ht2 : truthyOpt o = false := by
      cases h : truthyOpt o with
      | false => rfl
      | true => exact absurd h ht
    exact Or.inr (Or.inl ⟨ht2, nstepOpt_neg ht2⟩)

theorem not_bang_true {b : Bool} (h : b = true) : ¬((!b) = true) := by
  rw [h]
  decide

theorem bang_true {b : Bool} (h : b = false) : (!b) = true := by
  rw [h]
  rfl

/-! ## Request parameters carried into the calendar service -/

/-- Value of a request parameter (first binding wins, as `find?` does). -/
def getParam (params : List (String × Json)) (k : String) : Option Json :=
  (params.find? fun kv => kv.1 == k).map (fun kv => kv.2)

/-- The `dateTime` strings of an event payload's start/end. -/
def eventTimeJsons (e : CalendarEvent) : List Json :=
  (match e.start with
   | some t => (t.dateTime.map Json.str).toList
   | none => []) ++
  (match e.«end» with
   | some t => (t.dateTime.map Json.str).toList
   | none => [])

/-- The timestamp values one side effect carries into the calendar service:
`timeMin`/`timeMax` of list queries and the `start`/`end` datetimes of event
payloads. -/
def timestampValues : Effect → List Json
  | .shell _ => []
  | .call (.listEvents params) =>
    (getParam params "timeMin").toList ++ (getParam params "timeMax").toList
  | .call (.insertEvent _ e) => eventTimeJsons e
  | .call (.updateEvent _ e) => eventTimeJsons e
  | .call (.deleteEvent _ _) => []
  | .call .listCalendars => []

/-- Instants whose `toISOString` rendering stays within four-digit years. -/
def RenderSafe (t : Int) : Prop :=
  (t / 86400000 + (epochDayOffset : Int)).toNat < yearDays 10000

/-- A value that, whenever truthy, is the `toISOString` rendering of an instant. -/
def RenderedVal (v : Json) : Prop :=
  jsTruthy v = true → ∃ t : Int, v = Json.str (renderIso t)

theorem getField_objMembers (input : Json) (k : String) :
    getField input k = getParam (objMembers input) k := by
  cases input <;> rfl

/-! ## `find?` bookkeeping for the options spread -/

theorem find?_append_none {α : Type} (p : α → Bool) :
    ∀ l1 l2 : List α, l1.find? p = none → (l1 ++ l2).find? p = l2.find? p := by
  intro l1
  induction l1 with
  | nil => intro l2 _; rfl
  | cons a t ih =>
    intro l2 h
    rw [List.cons_append]
    by_cases hp : p a = true
    · rw [List.find?_cons_of_pos _ hp] at h
      exact Option.noConfusion h
    · rw [List.find?_cons_of_neg _ hp] at h
      rw [List.find?_cons_of_neg _ hp]
      exact ih l2 h

theorem find?_append_some {α : Type} (p : α → Bool) :
    ∀ (l1 l2 : List α) (x : α), l1.find? p = some x → (l1 ++ l2).find? p = some x := by
  intro l1
  induction l1 with
  | nil => intro l2 x h; exact Option.noConfusion h
  | cons a t ih =>
    intro l2 x h
    rw [List.cons_append]
    by_cases hp : p a = true
    · rw [List.find?_cons_of_pos _ hp] at h
      rw [List.find?_cons_of_pos _ hp]
      exact h
    · rw [List.find?_cons_of_neg _ hp] at h
      rw [List.find?_cons_of_neg _ hp]
      exact ih l2 x h

theorem find?_filter_none {α : Type} (p q : α → Bool) :
    ∀ l : List α, (∀ x ∈ l, p x = true → q x = false) → (l.filter q).find? p = none := by
  intro l
  induction l with
  | nil => intro _; rfl
  | cons a t ih =>
    intro h
    rw [List.filter_cons]
    by_cases hq : q a = true
    · rw [if_pos hq, List.find?_cons_of_neg _ ?hpa]
      case hpa =>
        intro hp
        rw [h a (List.mem_cons_self a t) hp] at hq
        exact Bool.false_ne_true hq
      exact ih fun x hx hp => h x (List.mem_cons_of_mem a hx) hp
    · rw [if_neg hq]
      exact ih fun x hx hp => h x (List.mem_cons_of_mem a hx) hp

theorem find?_append_singleton {α : Type} (p : α → Bool) (x : α) (hx : p x = false) :
    ∀ l : List α, (l ++ [x]).find? p = l.find? p := by
  intro l
  induction l with
  | nil =>
    rw [List.nil_append, List.find?_cons_of_neg _ (by rw [hx]; exact Bool.false_ne_true)]
  | cons a t ih =>
    rw [List.cons_append]
    by_cases hp : p a = true
    · rw [List.find?_cons_of_pos _ hp, List.find?_cons_of_pos _ hp]
    · rw [List.find?_cons_of_neg _ hp, List.find?_cons_of_neg _ hp]
      exact ih

theorem bool_not_true {b : Bool} (h : ¬ b = true) : b = false := by
  cases b with
  | false => rfl
  | true => exact absurd rfl h

theorem findp_cons_pos (k : String) (a : String × Json) (l : List (String × Json))
    (h : (a.1 == k) = true) :
    ((a :: l).find? fun kv => kv.1 == k) = some a :=
  List.find?_cons_of_pos l h

theorem findp_cons_neg (k : String) (a : String × Json) (l : List (String × Json))
    (h : (a.1 == k) = false) :
    ((a :: l).find? fun kv => kv.1 == k) = l.find? fun kv => kv.1 == k :=
  List.find?_cons_of_neg l (fun hc => Bool.false_ne_true (h.symm.trans hc))

theorem find?_map_setList (k : String) (v : Json) :
    ∀ l : List (String × Json), l.any (fun kv => kv.1 == k) = true →
    ((l.map fun kv => if kv.1 == k then (k, v) else kv).find? fun kv => kv.1 == k) =
      some (k, v) := by
  intro l
  induction l with
  | nil => intro h; exact absurd h (by simp)
  | cons a t ih =>
    intro h
    rw [List.map_cons]
    by_cases ha : (a.1 == k) = true
    · rw [if_pos ha]
      exact findp_cons_pos k (k, v) _ (by simp)
    · rw [if_neg ha, findp_cons_neg k a _ (bool_not_true ha)]
      refine ih ?_
      rw [List.any_cons] at h
      simp only [ha, Bool.false_or] at h
      exact h

theorem find?_map_other (k2 k : String) (v : Json) (h : (k2 == k) = false) :
    ∀ l : List (String × Json),
    ((l.map fun kv => if kv.1 == k2 then (k2, v) else kv).find? fun kv => kv.1 == k) =
      (l.find? fun kv => kv.1 == k) := by
  intro l
  induction l with
  | nil => rfl
  | cons a t ih =>
    rw [List.map_cons]
    by_cases ha : (a.1 == k2) = true
    · rw [if_pos ha, findp_cons_neg k (k2, v) _ h, findp_cons_neg k a t ?hak]
      case hak =>
        cases hx : (a.1 == k) with
        | false => rfl
        | true =>
          have h1 : a.1 = k2 := eq_of_beq ha
          have h2 : a.1 = k := eq_of_beq hx
          rw [h1] at h2
          rw [h2] at h
          simp at h
      exact ih
    · rw [if_neg ha]
      cases hak : (a.1 == k) with
      | true => rw [findp_cons_pos k a _ hak, findp_cons_pos k a t hak]
      | false =>
        rw [findp_cons_neg k a _ hak, findp_cons_neg k a t hak]
        exact ih

theorem find?_setField_self (l : List (String × Json)) (k : String) (v : Json) :
    ((setField l k v).find? fun kv => kv.1 == k) = some (k, v) := by
  unfold setField
  by_cases hany : l.any (fun kv => kv.1 == k) = true
  · rw [if_pos hany]
    exact find?_map_setList k v l hany
  · rw [if_neg hany]
    have hnone : (l.find? fun kv => kv.1 == k) = none := by
      rw [List.find?_eq_none]
      intro x hx hpx
      exact hany (List.any_eq_true.mpr ⟨x, hx, hpx⟩)
    rw [find?_append_none _ l [(k, v)] hnone, findp_cons_pos k (k, v) [] (by simp)]

theorem find?_setField_other (l : List (String × Json)) (k2 k : String) (v : Json)
    (h : (k2 == k) = false) :
    ((setField l k2 v).find? fun kv => kv.1 == k) = (l.find? fun kv => kv.1 == k) := by
  unfold setField
  by_cases hany : l.any (fun kv => kv.1 == k2) = true
  · rw [if_pos hany]
    exact find?_map_other k2 k v h l
  · rw [if_neg hany]
    exact find?_append_singleton _ (k2, v) h l

theorem mergedOptions_timeMin (m1 : List (String × Json)) (tmin tmax : Option String) :
    getParam (mergedOptions m1 tmin tmax) "timeMin" =
      (match tmin with
       | some a => some (Json.str a)
       | none => getParam m1 "timeMin") := by
  unfold mergedOptions getParam
  cases tmax with
  | some b =>
    rw [find?_setField_other _ "timeMax" "timeMin" _ (by decide)]
    cases tmin with
    | some a => rw [find?_setField_self]; rfl
    | none => rfl
  | none =>
    cases tmin with
    | some a => rw [find?_setField_self]; rfl
    | none => rfl

theorem mergedOptions_timeMax (m1 : List (String × Json)) (tmin tmax : Option String) :
    getParam (mergedOptions m1 tmin tmax) "timeMax" =
      (match tmax with
       | some b => some (Json.str b)
       | none => getParam m1 "timeMax") := by
  unfold mergedOptions getParam
  cases tmax with
  | some b => rw [find?_setField_self]; rfl
  | none =>
    cases tmin with
    | some a => rw [find?_setField_other _ "timeMin" "timeMax" _ (by decide)]
    | none => rfl

theorem getParam_listEventsParams_timeMin (env : JsEnv) (options : List (String × Json)) :
    getParam (listEventsParams env options) "timeMin" = some (Json.str (renderIso env.nowMs)) ∨
    getParam (listEventsParams env options) "timeMin" = getParam options "timeMin" := by
  unfold listEventsParams getParam
  cases hf : (([("calendarId", Json.str "primary"), ("maxResults", Json.num 10),
      ("timeMin", Json.str (renderIso env.nowMs)), ("singleEvents", Json.bool true),
      ("orderBy", Json.str "startTime")].filter
        fun kv => !(options.any fun kv2 => kv2.1 == kv.1)).find?
          fun kv => kv.1 == "timeMin") with
  | none =>
    right
    rw [find?_append_none _ _ _ hf]
  | some kv =>
    left
    have hmem : kv ∈ ([("calendarId", Json.str "primary"), ("maxResults", Json.num 10),
        ("timeMin", Json.str (renderIso env.nowMs)), ("singleEvents", Json.bool true),
        ("orderBy", Json.str "startTime")].filter
          fun kv => !(options.any fun kv2 => kv2.1 == kv.1)) :=
      List.mem_of_find?_eq_some hf
    have hp := List.find?_some hf
    have hmem2 := List.mem_of_mem_filter hmem
    rw [find?_append_some _ _ _ _ hf]
    simp only [List.mem_cons, List.not_mem_nil, or_false] at hmem2
    rcases hmem2 with rfl | rfl | rfl | rfl | rfl
    · exact absurd hp (show ¬(("calendarId" : String) == "timeMin") = true by decide)
    · exact absurd hp (show ¬(("maxResults" : String) == "timeMin") = true by decide)
    · rfl
    · exact absurd hp (show ¬(("singleEvents" : String) == "timeMin") = true by decide)
    · exact absurd hp (show ¬(("orderBy" : String) == "timeMin") = true by decide)

theorem getParam_listEventsParams_timeMax (env : JsEnv) (options : List (String × Json)) :
    getParam (listEventsParams env options) "timeMax" = getParam options "timeMax" := by
  unfold listEventsParams getParam
  rw [find?_append_none]
  refine find?_filter_none _ _ _ ?_
  intro x hx hp
  simp only [List.mem_cons, List.not_mem_nil, or_false] at hx
  rcases hx with rfl | rfl | rfl | rfl | rfl
  · exact absurd hp (show ¬(("calendarId" : String) == "timeMax") = true by decide)
  · exact absurd hp (show ¬(("maxResults" : String) == "timeMax") = true by decide)
  · exact absurd hp (show ¬(("timeMin" : String) == "timeMax") = true by decide)
  · exact absurd hp (show ¬(("singleEvents" : String) == "timeMax") = true by decide)
  · exact absurd hp (show ¬(("orderBy" : String) == "timeMax") = true by decide)

/-! ## Every normalizer output is a `toISOString` rendering -/

theorem formatInner_renders {env : JsEnv} {v : Json} {s2 : String}
    (h : formatInner env v = .ok s2) : ∃ t : Int, s2 = renderIso t := by
  unfold formatInner at h
  split at h
  · exact Except.noConfusion h
  · exact Except.noConfusion h
  · rename_i t heq
    injection h with h2
    exact ⟨t, h2.symm⟩

theorem formatDateTimeForGoogle_renders {env : JsEnv} {input : Option Json}
    {tzo : Option String} {g : GoogleCalendarDateTime}
    (h : formatDateTimeForGoogle env input tzo = .ok g) : ∃ t : Int, g.dateTime = renderIso t := by
  unfold formatDateTimeForGoogle at h
  split at h
  · exact Except.noConfusion h
  · split at h
    · rename_i dt hdt
      obtain ⟨t, ht⟩ := formatInner_renders hdt
      injection h with h2
      exact ⟨t, by rw [← h2]; exact ht⟩
    · exact Except.noConfusion h

theorem normalizeDateTime_renders {env : JsEnv} {input : Option Json} {p : String}
    {tzo : Option String} {s2 : String}
    (h : normalizeDateTime env input p tzo = .ok s2) : ∃ t : Int, s2 = renderIso t := by
  unfold normalizeDateTime at h
  split at h
  · rename_i g hg
    obtain ⟨t, ht⟩ := formatDateTimeForGoogle_renders hg
    injection h with h2
    exact ⟨t, h2 ▸ ht⟩
  · exact Except.noConfusion h

/-! ## Renderings within four-digit years match the canonical shape -/

theorem renderIso_eq_renderFields (t : Int) :
    renderIso t = renderFields
      ⟨(civilFromDay ((t / 86400000 + (epochDayOffset : Int)).toNat)).1,
       (civilFromDay ((t / 86400000 + (epochDayOffset : Int)).toNat)).2.1,
       (civilFromDay ((t / 86400000 + (epochDayOffset : Int)).toNat)).2.2,
       (t % 86400000).toNat / 3600000, (t % 86400000).toNat / 60000 % 60,
       (t % 86400000).toNat / 1000 % 60, (t % 86400000).toNat % 1000, true, IsoZone.utc⟩ := by
  simp only [renderIso, renderFields, msChars, zoneChars, List.cons_append, List.nil_append,
    List.singleton_append, List.append_assoc]

theorem isCanonicalShape_renderFields (f : IsoFields) (hy : f.y ≤ 9999) (hmo : f.mo ≤ 99)
    (hdd : f.dd ≤ 99) (hhh : f.hh ≤ 99) (hmi : f.mi ≤ 99) (hss : f.ss ≤ 99) (hms : f.ms ≤ 999)
    (hm : f.hasMs = true) (hz : f.zone = IsoZone.utc) :
    isCanonicalShape (renderFields f) = true := by
  unfold isCanonicalShape
  rw [parseCanonical_renderFields f hy hmo hdd hhh hmi hss hms
    (fun hf => nomatch hm.symm.trans hf) (fun neg oh om hzo => nomatch hz.symm.trans hzo)]
  rfl

theorem isCanonicalShape_renderIso {t : Int} (h : RenderSafe t) :
    isCanonicalShape (renderIso t) = true := by
  unfold RenderSafe at h
  obtain ⟨hy1, hm1, hm2, hd1, hd2, _⟩ :=
    civilFromDay_spec ((t / 86400000 + (epochDayOffset : Int)).toNat)
  have hy2 : (civilFromDay ((t / 86400000 + (epochDayOffset : Int)).toNat)).1 ≤ 9999 :=
    yearOf_lt_10000 h
  have hlen := monthLen_le_31
    (isLeap (civilFromDay ((t / 86400000 + (epochDayOffset : Int)).toNat)).1)
    (civilFromDay ((t / 86400000 + (epochDayOffset : Int)).toNat)).2.1 (by omega)
  have hmsb : (t % 86400000).toNat ≤ 86399999 := by omega
  rw [renderIso_eq_renderFields]
  refine isCanonicalShape_renderFields _ hy2 ?_ ?_ ?_ ?_ ?_ ?_ rfl rfl
  · show (civilFromDay ((t / 86400000 + (epochDayOffset : Int)).toNat)).2.1 ≤ 99
    omega
  · show (civilFromDay ((t / 86400000 + (epochDayOffset : Int)).toNat)).2.2 ≤ 99
    omega
  · show (t % 86400000).toNat / 3600000 ≤ 99
    omega
  · show (t % 86400000).toNat / 60000 % 60 ≤ 99
    omega
  · show (t % 86400000).toNat / 1000 % 60 ≤ 99
    omega
  · show (t % 86400000).toNat % 1000 ≤ 999
    omega

/-! ## Rendered timestamps per dispatch branch -/

theorem rendered_of_norm {env : JsEnv} {o : Option Json} {name : String} {s : String}
    (hn : normalizeDateTime env o name none = .ok s) :
    ∀ s3, (some s : Option String) = some s3 → ∃ t : Int, s3 = renderIso t := by
  intro s3 hs3
  cases hs3
  exact normalizeDateTime_renders hn

theorem rendered_none_falsy {input : Json} {key : String}
    (ht : truthyOpt (getField input key) = false) :
    ∀ v : Json, (none : Option String) = none → getParam (objMembers input) key = some v →
      jsTruthy v = false := by
  intro v _ hfind
  rw [getField_objMembers input key, hfind] at ht
  exact ht

theorem listEventsParams_rendered (env : JsEnv) (m1 : List (String × Json))
    (tmin tmax : Option String)
    (hminN : ∀ v : Json, tmin = none → getParam m1 "timeMin" = some v → jsTruthy v = false)
    (hminS : ∀ s2, tmin = some s2 → ∃ t : Int, s2 = renderIso t)
    (hmaxN : ∀ v : Json, tmax = none → getParam m1 "timeMax" = some v → jsTruthy v = false)
    (hmaxS : ∀ s2, tmax = some s2 → ∃ t : Int, s2 = renderIso t) :
    ∀ v ∈ timestampValues (Effect.call (.listEvents
        (listEventsParams env (mergedOptions m1 tmin tmax)))), RenderedVal v := by
  intro v hv
  rcases List.mem_append.mp hv with h | h
  · have hsome : getParam (listEventsParams env (mergedOptions m1 tmin tmax)) "timeMin" =
        some v := by
      cases hx : getParam (listEventsParams env (mergedOptions m1 tmin tmax)) "timeMin" with
      | none => rw [hx] at h; exact absurd h (List.not_mem_nil v)
      | some w =>
        rw [hx] at h
        simp only [Option.toList_some, List.mem_singleton] at h
        rw [h]
    rcases getParam_listEventsParams_timeMin env (mergedOptions m1 tmin tmax) with hdef | hopt
    · rw [hdef] at hsome
      injection hsome with hv2
      exact fun _ => ⟨env.nowMs, hv2.symm⟩
    · rw [hopt, mergedOptions_timeMin] at hsome
      cases htm : tmin with
      | some a =>
        simp only [htm] at hsome
        injection hsome with hv2
        obtain ⟨t, ht⟩ := hminS a htm
        exact fun _ => ⟨t, by rw [← hv2, ht]⟩
      | none =>
        simp only [htm] at hsome
        intro htr
        rw [hminN v htm hsome] at htr
        exact absurd htr (by simp)
  · have hsome : getParam (listEventsParams env (mergedOptions m1 tmin tmax)) "timeMax" =
        some v := by
      cases hx : getParam (listEventsParams env (mergedOptions m1 tmin tmax)) "timeMax" with
      | none => rw [hx] at h; exact absurd h (List.not_mem_nil v)
      | some w =>
        rw [hx] at h
        simp only [Option.toList_some, List.mem_singleton] at h
        rw [h]
    rw [getParam_listEventsParams_timeMax, mergedOptions_timeMax] at hsome
    cases htm : tmax with
    | some a =>
      simp only [htm] at hsome
      injection hsome with hv2
      obtain ⟨t, ht⟩ := hmaxS a htm
      exact fun _ => ⟨t, by rw [← hv2, ht]⟩
    | none =>
      simp only [htm] at hsome
      intro htr
      rw [hmaxN v htm hsome] at htr
      exact absurd htr (by simp)

theorem windowParams_rendered (env : JsEnv) (ns ne : String) (calId : Json)
    (hns : ∃ t : Int, ns = renderIso t) (hne : ∃ t : Int, ne = renderIso t) :
    ∀ v ∈ timestampValues (Effect.call (.listEvents
        (listEventsParams env (windowOptions ns ne calId)))), RenderedVal v := by
  intro v hv
  rcases List.mem_append.mp hv with h | h
  · have hsome : getParam (listEventsParams env (windowOptions ns ne calId)) "timeMin" =
        some v := by
      cases hx : getParam (listEventsParams env (windowOptions ns ne calId)) "timeMin" with
      | none => rw [hx] at h; exact absurd h (List.not_mem_nil v)
      | some w =>
        rw [hx] at h
        simp only [Option.toList_some, List.mem_singleton] at h
        rw [h]
    rcases getParam_listEventsParams_timeMin env (windowOptions ns ne calId) with hdef | hopt
    · rw [hdef] at hsome
      injection hsome with hv2
      exact fun _ => ⟨env.nowMs, hv2.symm⟩
    · rw [hopt, show getParam (windowOptions ns ne calId) "timeMin" = some (Json.str ns)
        from rfl] at hsome
      injection hsome with hv2
      obtain ⟨t, ht⟩ := hns
      exact fun _ => ⟨t, by rw [← hv2, ht]⟩
  · have hsome : getParam (listEventsParams env (windowOptions ns ne calId)) "timeMax" =
        some v := by
      cases hx : getParam (listEventsParams env (windowOptions ns ne calId)) "timeMax" with
      | none => rw [hx] at h; exact absurd h (List.not_mem_nil v)
      | some w =>
        rw [hx] at h
        simp only [Option.toList_some, List.mem_singleton] at h
        rw [h]
    rw [getParam_listEventsParams_timeMax, show getParam (windowOptions ns ne calId) "timeMax" =
      some (Json.str ne) from rfl] at hsome
    injection hsome with hv2
    obtain ⟨t, ht⟩ := hne
    exact fun _ => ⟨t, by rw [← hv2, ht]⟩

theorem eventTimeJsons_rendered (e : CalendarEvent)
    (hs : ∀ s2, (match e.start with | some t0 => t0.dateTime | none => none) = some s2 →
       ∃ t : Int, s2 = renderIso t)
    (hn : ∀ s2, (match e.«end» with | some t0 => t0.dateTime | none => none) = some s2 →
       ∃ t : Int, s2 = renderIso t) :
    ∀ v ∈ eventTimeJsons e, RenderedVal v := by
  intro v hv
  unfold eventTimeJsons at hv
  rcases List.mem_append.mp hv with h | h
  · cases hst : e.start with
    | none =>
      rw [hst] at h
      exact absurd h (List.not_mem_nil v)
    | some t0 =>
      rw [hst] at h
      have h2 : v ∈ (Option.map Json.str t0.dateTime).toList := h
      cases hdt : t0.dateTime with
      | none =>
        rw [hdt] at h2
        exact absurd h2 (List.not_mem_nil v)
      | some s2 =>
        rw [hdt] at h2
        have h3 := List.mem_singleton.mp h2
        subst h3
        intro _
        obtain ⟨t, ht⟩ := hs s2 (by rw [hst]; exact hdt)
        exact ⟨t, by rw [ht]⟩
  · cases hst : e.«end» with
    | none =>
      rw [hst] at h
      exact absurd h (List.not_mem_nil v)
    | some t0 =>
      rw [hst] at h
      have h2 : v ∈ (Option.map Json.str t0.dateTime).toList := h
      cases hdt : t0.dateTime with
      | none =>
        rw [hdt] at h2
        exact absurd h2 (List.not_mem_nil v)
      | some s2 =>
        rw [hdt] at h2
        have h3 := List.mem_singleton.mp h2
        subst h3
        intro _
        obtain ⟨t, ht⟩ := hn s2 (by rw [hst]; exact hdt)
        exact ⟨t, by rw [ht]⟩

theorem bashBranch_rendered (ctx : DispatchCtx) (input : Json) :
    ∀ eff ∈ (bashBranch ctx input).1, ∀ v ∈ timestampValues eff, RenderedVal v := by
  intro eff he
  have h2 := List.mem_singleton.mp he
  subst h2
  intro v hv
  exact absurd hv (List.not_mem_nil v)

theorem getEventsBranch_rendered (ctx : DispatchCtx) (auth : Bool) (input : Json) :
    ∀ eff ∈ (getEventsBranch ctx auth input).1, ∀ v ∈ timestampValues eff, RenderedVal v := by
  unfold getEventsBranch
  rcases authStep_split auth _ with h | ⟨h, -⟩
  · rw [h]
    rcases vstep_split (validateInteger (getField input "maxResults") "maxResults"
        (some 1) (some 100)) _ with h1 | ⟨h1, -⟩
    · rw [h1]
      rcases vstep_split (validateString (getField input "calendarId") "calendarId") _ with
        h2 | ⟨h2, -⟩
      · rw [h2]
        rcases nstepOpt_split ctx.env (getField input "timeMin") "timeMin" _ with
          ⟨s1, hn1, he1⟩ | ⟨ht1, he1⟩ | ⟨he1, -⟩
        · rw [he1]
          rcases nstepOpt_split ctx.env (getField input "timeMax") "timeMax" _ with
            ⟨s2, hn2, he2⟩ | ⟨ht2, he2⟩ | ⟨he2, -⟩
          · rw [he2]
            rcases hbe : ctx.be.listEvents (listEventsParams ctx.env
                (mergedOptions (objMembers input) (some s1) (some s2))) with g | evs <;>
              (simp only [hbe]
               intro eff he
               have hm := List.mem_singleton.mp he
               subst hm
               exact listEventsParams_rendered ctx.env (objMembers input) (some s1) (some s2)
                 (fun v2 hc => nomatch hc) (rendered_of_norm hn1)
                 (fun v2 hc => nomatch hc) (rendered_of_norm hn2))
          · rw [he2]
            rcases hbe : ctx.be.listEvents (listEventsParams ctx.env
                (mergedOptions (objMembers input) (some s1) none)) with g | evs <;>
              (simp only [hbe]
               intro eff he
               have hm := List.mem_singleton.mp he
               subst hm
               exact listEventsParams_rendered ctx.env (objMembers input) (some s1) none
                 (fun v2 hc => nomatch hc) (rendered_of_norm hn1)
                 (rendered_none_falsy ht2) (fun s3 hc => nomatch hc))
          · rw [he2]
            intro eff he
            exact absurd he (List.not_mem_nil eff)
        · rw [he1]
          rcases nstepOpt_split ctx.env (getField input "timeMax") "timeMax" _ with
            ⟨s2, hn2, he2⟩ | ⟨ht2, he2⟩ | ⟨he2, -⟩
          · rw [he2]
            rcases hbe : ctx.be.listEvents (listEventsParams ctx.env
                (mergedOptions (objMembers input) none (some s2))) with g | evs <;>
              (simp only [hbe]
               intro eff he
               have hm := List.mem_singleton.mp he
               subst hm
               exact listEventsParams_rendered ctx.env (objMembers input) none (some s2)
                 (rendered_none_falsy ht1) (fun s3 hc => nomatch hc)
                 (fun v2 hc => nomatch hc) (rendered_of_norm hn2))
          · rw [he2]
            rcases hbe : ctx.be.listEvents (listEventsParams ctx.env
                (mergedOptions (objMembers input) none none)) with g | evs <;>
              (simp only [hbe]
               intro eff he
               have hm := List.mem_singleton.mp he
               subst hm
               exact listEventsParams_rendered ctx.env (objMembers input) none none
                 (rendered_none_falsy ht1) (fun s3 hc => nomatch hc)
                 (rendered_none_falsy ht2) (fun s3 hc => nomatch hc))
          · rw [he2]
            intro eff he
            exact absurd he (List.not_mem_nil eff)
        · rw [he1]
          intro eff he
          exact absurd he (List.not_mem_nil eff)
      · rw [h2]
        intro eff he
        exact absurd he (List.not_mem_nil eff)
    · rw [h1]
      intro eff he
      exact absurd he (List.not_mem_nil eff)
  · rw [h]
    intro eff he
    exact absurd he (List.not_mem_nil eff)

theorem createEventBranch_rendered (ctx : DispatchCtx) (auth : Bool) (input : Json) :
    ∀ eff ∈ (createEventBranch ctx auth input).1, ∀ v ∈ timestampValues eff, RenderedVal v := by
  unfold createEventBranch
  rcases authStep_split auth _ with h | ⟨h, -⟩
  · rw [h]
    rcases vstep_split (validateString (getField input "title") "title") _ with h1 | ⟨h1, -⟩
    · rw [h1]
      by_cases ht : truthyOpt (getField input "title") = true
      · rw [if_neg (not_bang_true ht)]
        rcases nstep_split (normalizeDateTime ctx.env (getField input "startDateTime")
            "startDateTime" none) _ with ⟨ns, hns, he1⟩ | ⟨he1, -⟩
        · rw [he1]
          rcases nstep_split (normalizeDateTime ctx.env (getField input "endDateTime")
              "endDateTime" none) _ with ⟨ne, hne, he2⟩ | ⟨he2, -⟩
          · rw [he2]
            rcases vstep_split (validateString (getField input "description") "description") _
              with h2 | ⟨h2, -⟩
            · rw [h2]
              rcases vstep_split (validateString (getField input "location") "location") _ with
                h3 | ⟨h3, -⟩
              · rw [h3]
                rcases vstep_split (validateString (getField input "calendarId") "calendarId") _
                  with h4 | ⟨h4, -⟩
                · rw [h4]
                  rcases vstep_split (validateEmailArray (getField input "attendees")
                      "attendees") _ with h5 | ⟨h5, -⟩
                  · rw [h5]
                    by_cases hg : dateGe (jsDateOfString ctx.env ns)
                        (jsDateOfString ctx.env ne) = true
                    · rw [if_pos hg]
                      intro eff he
                      exact absurd he (List.not_mem_nil eff)
                    · rw [if_neg hg]
                      rcases hsg : createGoogleDateTime ctx.env
                          (getField input "startDateTime") none with m | sg
                      · simp only [hsg]
                        intro eff he
                        exact absurd he (List.not_mem_nil eff)
                      · simp only [hsg]
                        rcases heg : createGoogleDateTime ctx.env
                            (getField input "endDateTime") none with m | eg
                        · simp only [heg]
                          intro eff he
                          exact absurd he (List.not_mem_nil eff)
                        · simp only [heg]
                          rcases hbe : ctx.be.insertEvent (getField input "calendarId")
                              (createEventPayload input sg eg) with g | ev <;>
                            (simp only [hbe]
                             intro eff he
                             have hm := List.mem_singleton.mp he
                             subst hm
                             show ∀ v ∈ eventTimeJsons (createEventPayload input sg eg), RenderedVal v
                             refine eventTimeJsons_rendered _ ?_ ?_
                             · intro s2 h2
                               have h3 : some sg.dateTime = some s2 := h2
                               injection h3 with h4
                               subst h4
                               exact formatDateTimeForGoogle_renders hsg
                             · intro s2 h2
                               have h3 : some eg.dateTime = some s2 := h2
                               injection h3 with h4
                               subst h4
                               exact formatDateTimeForGoogle_renders heg)
                  · rw [h5]
                    intro eff he
                    exact absurd he (List.not_mem_nil eff)
                · rw [h4]
                  intro eff he
                  exact absurd he (List.not_mem_nil eff)
              · rw [h3]
                intro eff he
                exact absurd he (List.not_mem_nil eff)
            · rw [h2]
              intro eff he
              exact absurd he (List.not_mem_nil eff)
          · rw [he2]
            intro eff he
            exact absurd he (List.not_mem_nil eff)
        · rw [he1]
          intro eff he
          exact absurd he (List.not_mem_nil eff)
      · have ht2 : truthyOpt (getField input "title") = false := bool_not_true ht
        rw [if_pos (bang_true ht2)]
        intro eff he
        exact absurd he (List.not_mem_nil eff)
    · rw [h1]
      intro eff he
      exact absurd he (List.not_mem_nil eff)
  · rw [h]
    intro eff he
    exact absurd he (List.not_mem_nil eff)

theorem createQuickEventBranch_rendered (ctx : DispatchCtx) (auth : Bool) (input : Json) :
    ∀ eff ∈ (createQuickEventBranch ctx auth input).1,
      ∀ v ∈ timestampValues eff, RenderedVal v := by
  unfold createQuickEventBranch
  rcases authStep_split auth _ with h | ⟨h, -⟩
  · rw [h]
    rcases vstep_split (validateString (getField input "title") "title") _ with h1 | ⟨h1, -⟩
    · rw [h1]
      by_cases ht : truthyOpt (getField input "title") = true
      · rw [if_neg (not_bang_true ht)]
        rcases nstep_split (normalizeDateTime ctx.env (getField input "startDateTime")
            "startDateTime" none) _ with ⟨nq, hnq, he1⟩ | ⟨he1, -⟩
        · rw [he1]
          rcases vstep_split (validateInteger (getField input "durationMinutes")
              "durationMinutes" (some 1) none) _ with h2 | ⟨h2, -⟩
          · rw [h2]
            rcases vstep_split (validateString (getField input "description") "description") _
              with h3 | ⟨h3, -⟩
            · rw [h3]
              rcases vstep_split (validateString (getField input "location") "location") _ with
                h4 | ⟨h4, -⟩
              · rw [h4]
                rcases vstep_split (validateString (getField input "calendarId") "calendarId") _
                  with h5 | ⟨h5, -⟩
                · rw [h5]
                  rcases vstep_split (validateEmailArray (getField input "attendees")
                      "attendees") _ with h6 | ⟨h6, -⟩
                  · rw [h6]
                    rcases hjs : jsDateOfString ctx.env nq with _ | t
                    · simp only [hjs]
                      intro eff he
                      exact absurd he (List.not_mem_nil eff)
                    · simp only [hjs]
                      rcases hbe : ctx.be.insertEvent (getField input "calendarId")
                          (quickEventPayload ctx.env input t) with g | ev <;>
                        (simp only [hbe]
                         intro eff he
                         have hm := List.mem_singleton.mp he
                         subst hm
                         show ∀ v ∈ eventTimeJsons (quickEventPayload ctx.env input t), RenderedVal v
                         refine eventTimeJsons_rendered _ ?_ ?_
                         · intro s2 h2
                           have h3 : some (renderIso t) = some s2 := h2
                           injection h3 with h4
                           subst h4
                           exact ⟨_, rfl⟩
                         · intro s2 h2
                           have h3 : some (renderIso (t + quickDuration input * 60000)) = some s2 := h2
                           injection h3 with h4
                           subst h4
                           exact ⟨_, rfl⟩)
                  · rw [h6]
                    intro eff he
                    exact absurd he (List.not_mem_nil eff)
                · rw [h5]
                  intro eff he
                  exact absurd he (List.not_mem_nil eff)
              · rw [h4]
                intro eff he
                exact absurd he (List.not_mem_nil eff)
            · rw [h3]
              intro eff he
              exact absurd he (List.not_mem_nil eff)
          · rw [h2]
            intro eff he
            exact absurd he (List.not_mem_nil eff)
        · rw [he1]
          intro eff he
          exact absurd he (List.not_mem_nil eff)
      · have ht2 : truthyOpt (getField input "title") = false := bool_not_true ht
        rw [if_pos (bang_true ht2)]
        intro eff he
        exact absurd he (List.not_mem_nil eff)
    · rw [h1]
      intro eff he
      exact absurd he (List.not_mem_nil eff)
  · rw [h]
    intro eff he
    exact absurd he (List.not_mem_nil eff)

theorem update_time_rendered {env : JsEnv} {o : Option Json}
    {sg : Option GoogleCalendarDateTime}
    (hsg : (createGoogleDateTime env o none).map some = Except.ok sg) :
    ∀ s2, (match sg.map (fun g => (⟨some g.dateTime, none, some g.timeZone⟩ : EventTime)) with
           | some t0 => t0.dateTime
           | none => none) = some s2 → ∃ t : Int, s2 = renderIso t := by
  intro s2 h2
  cases sg with
  | none => exact nomatch h2
  | some g =>
    cases hx : createGoogleDateTime env o none with
    | error m =>
      rw [hx] at hsg
      exact Except.noConfusion hsg
    | ok g2 =>
      rw [hx] at hsg
      have h4 : some g2 = some g := by injection hsg
      have hg : g2 = g := by injection h4
      have h3 : g.dateTime = s2 := by injection h2
      obtain ⟨t, htr⟩ := formatDateTimeForGoogle_renders hx
      exact ⟨t, by rw [← h3, ← hg, htr]⟩

theorem update_time_none :
    ∀ s2, (match (none : Option GoogleCalendarDateTime).map
        (fun g => (⟨some g.dateTime, none, some g.timeZone⟩ : EventTime)) with
        | some t0 => t0.dateTime
        | none => none) = some s2 → ∃ t : Int, s2 = renderIso t := by
  intro s2 h2
  exact nomatch h2

theorem updateEventBranch_rendered (ctx : DispatchCtx) (auth : Bool) (input : Json) :
    ∀ eff ∈ (updateEventBranch ctx auth input).1, ∀ v ∈ timestampValues eff, RenderedVal v := by
  unfold updateEventBranch
  rcases authStep_split auth _ with h | ⟨h, -⟩
  · rw [h]
    rcases vstep_split (validateString (getField input "eventId") "eventId") _ with h1 | ⟨h1, -⟩
    · rw [h1]
      by_cases hid : truthyOpt (getField input "eventId") = true
      · rw [if_neg (not_bang_true hid)]
        rcases nstepOpt_split ctx.env (getField input "startDateTime") "startDateTime" _ with
          ⟨ns, hns, he1⟩ | ⟨ht1, he1⟩ | ⟨he1, -⟩
        · rw [he1]
          rcases nstepOpt_split ctx.env (getField input "endDateTime") "endDateTime" _ with
            ⟨ne, hne, he2⟩ | ⟨ht2, he2⟩ | ⟨he2, -⟩
          · rw [he2]
            rcases vstep_split (validateString (getField input "title") "title") _ with
              h2 | ⟨h2, -⟩
            · rw [h2]
              rcases vstep_split (validateString (getField input "description") "description") _ with
                h3 | ⟨h3, -⟩
              · rw [h3]
                rcases vstep_split (validateString (getField input "location") "location") _ with
                  h4 | ⟨h4, -⟩
                · rw [h4]
                  rcases vstep_split (validateEmailArray (getField input "attendees") "attendees") _ with
                    h5 | ⟨h5, -⟩
                  · rw [h5]
                    by_cases hg : bothPresentGe ctx.env (some ns) (some ne) = true
                    · rw [if_pos hg]
                      intro eff he
                      exact absurd he (List.not_mem_nil eff)
                    · rw [if_neg hg]
                      by_cases hts : truthyOpt (getField input "startDateTime") = true
                      · rw [if_pos hts]
                        rcases hsg : (createGoogleDateTime ctx.env (getField input "startDateTime")
                            none).map some with m | sg
                        · simp only [hsg]
                          intro eff he
                          exact absurd he (List.not_mem_nil eff)
                        · simp only [hsg]
                          by_cases hte : truthyOpt (getField input "endDateTime") = true
                          · rw [if_pos hte]
                            rcases heg : (createGoogleDateTime ctx.env (getField input "endDateTime")
                                none).map some with m | eg
                            · simp only [heg]
                              intro eff he
                              exact absurd he (List.not_mem_nil eff)
                            · simp only [heg]
                              rcases hbe : ctx.be.updateEvent ((strOfJson (getField input "eventId")).getD "")
                                  (updateEventPayload input sg eg) with g | ev <;>
                                (simp only [hbe]
                                 intro eff he
                                 have hm := List.mem_singleton.mp he
                                 subst hm
                                 show ∀ v ∈ eventTimeJsons (updateEventPayload input sg eg), RenderedVal v
                                 refine eventTimeJsons_rendered _ ?_ ?_
                                 · exact update_time_rendered hsg
                                 · exact update_time_rendered heg)
                          · rw [if_neg hte]
                            simp only []
                            rcases hbe : ctx.be.updateEvent ((strOfJson (getField input "eventId")).getD "")
                                (updateEventPayload input sg none) with g | ev <;>
                              (simp only [hbe]
                               intro eff he
                               have hm := List.mem_singleton.mp he
                               subst hm
                               show ∀ v ∈ eventTimeJsons (updateEventPayload input sg none), RenderedVal v
                               refine eventTimeJsons_rendered _ ?_ ?_
                               · exact update_time_rendered hsg
                               · exact update_time_none)
                      · rw [if_neg hts]
                        simp only []
                        by_cases hte : truthyOpt (getField input "endDateTime") = true
                        · rw [if_pos hte]
                          rcases heg : (createGoogleDateTime ctx.env (getField input "endDateTime")
                              none).map some with m | eg
                          · simp only [heg]
                            intro eff he
                            exact absurd he (List.not_mem_nil eff)
                          · simp only [heg]
                            rcases hbe : ctx.be.updateEvent ((strOfJson (getField input "eventId")).getD "")
                                (updateEventPayload input none eg) with g | ev <;>
                              (simp only [hbe]
                               intro eff he
                               have hm := List.mem_singleton.mp he
                               subst hm
                               show ∀ v ∈ eventTimeJsons (updateEventPayload input none eg), RenderedVal v
                               refine eventTimeJsons_rendered _ ?_ ?_
                               · exact update_time_none
                               · exact update_time_rendered heg)
                        · rw [if_neg hte]
                          simp only []
                          rcases hbe : ctx.be.updateEvent ((strOfJson (getField input "eventId")).getD "")
                              (updateEventPayload input none none) with g | ev <;>
                            (simp only [hbe]
                             intro eff he
                             have hm := List.mem_singleton.mp he
                             subst hm
                             show ∀ v ∈ eventTimeJsons (updateEventPayload input none none), RenderedVal v
                             refine eventTimeJsons_rendered _ ?_ ?_
                             · exact update_time_none
                             · exact update_time_none)
                  · rw [h5]
                    intro eff he
                    exact absurd he (List.not_mem_nil eff)
                · rw [h4]
                  intro eff he
                  exact absurd he (List.not_mem_nil eff)
              · rw [h3]
                intro eff he
                exact absurd he (List.not_mem_nil eff)
            · rw [h2]
              intro eff he
              exact absurd he (List.not_mem_nil eff)
          · rw [he2]
            rcases vstep_split (validateString (getField input "title") "title") _ with
              h2 | ⟨h2, -⟩
            · rw [h2]
              rcases vstep_split (validateString (getField input "description") "description") _ with
                h3 | ⟨h3, -⟩
              · rw [h3]
                rcases vstep_split (validateString (getField input "location") "location") _ with
                  h4 | ⟨h4, -⟩
                · rw [h4]
                  rcases vstep_split (validateEmailArray (getField input "attendees") "attendees") _ with
                    h5 | ⟨h5, -⟩
                  · rw [h5]
                    by_cases hg : bothPresentGe ctx.env (some ns) none = true
                    · rw [if_pos hg]
                      intro eff he
                      exact absurd he (List.not_mem_nil eff)
                    · rw [if_neg hg]
                      by_cases hts : truthyOpt (getField input "startDateTime") = true
                      · rw [if_pos hts]
                        rcases hsg : (createGoogleDateTime ctx.env (getField input "startDateTime")
                            none).map some with m | sg
                        · simp only [hsg]
                          intro eff he
                          exact absurd he (List.not_mem_nil eff)
                        · simp only [hsg]
                          by_cases hte : truthyOpt (getField input "endDateTime") = true
                          · rw [if_pos hte]
                            rcases heg : (createGoogleDateTime ctx.env (getField input "endDateTime")
                                none).map some with m | eg
                            · simp only [heg]
                              intro eff he
                              exact absurd he (List.not_mem_nil eff)
                            · simp only [heg]
                              rcases hbe : ctx.be.updateEvent ((strOfJson (getField input "eventId")).getD "")
                                  (updateEventPayload input sg eg) with g | ev <;>
                                (simp only [hbe]
                                 intro eff he
                                 have hm := List.mem_singleton.mp he
                                 subst hm
                                 show ∀ v ∈ eventTimeJsons (updateEventPayload input sg eg), RenderedVal v
                                 refine eventTimeJsons_rendered _ ?_ ?_
                                 · exact update_time_rendered hsg
                                 · exact update_time_rendered heg)
                          · rw [if_neg hte]
                            simp only []
                            rcases hbe : ctx.be.updateEvent ((strOfJson (getField input "eventId")).getD "")
                                (updateEventPayload input sg none) with g | ev <;>
                              (simp only [hbe]
                               intro eff he
                               have hm := List.mem_singleton.mp he
                               subst hm
                               show ∀ v ∈ eventTimeJsons (updateEventPayload input sg none), RenderedVal v
                               refine eventTimeJsons_rendered _ ?_ ?_
                               · exact update_time_rendered hsg
                               · exact update_time_none)
                      · rw [if_neg hts]
                        simp only []
                        by_cases hte : truthyOpt (getField input "endDateTime") = true
                        · rw [if_pos hte]
                          rcases heg : (createGoogleDateTime ctx.env (getField input "endDateTime")
                              none).map some with m | eg
                          · simp only [heg]
                            intro eff he
                            exact absurd he (List.not_mem_nil eff)
                          · simp only [heg]
                            rcases hbe : ctx.be.updateEvent ((strOfJson (getField input "eventId")).getD "")
                                (updateEventPayload input none eg) with g | ev <;>
                              (simp only [hbe]
                               intro eff he
                               have hm := List.mem_singleton.mp he
                               subst hm
                               show ∀ v ∈ eventTimeJsons (updateEventPayload input none eg), RenderedVal v
                               refine eventTimeJsons_rendered _ ?_ ?_
                               · exact update_time_none
                               · exact update_time_rendered heg)
                        · rw [if_neg hte]
                          simp only []
                          rcases hbe : ctx.be.updateEvent ((strOfJson (getField input "eventId")).getD "")
                              (updateEventPayload input none none) with g | ev <;>
                            (simp only [hbe]
                             intro eff he
                             have hm := List.mem_singleton.mp he
                             subst hm
                             show ∀ v ∈ eventTimeJsons (updateEventPayload input none none), RenderedVal v
                             refine eventTimeJsons_rendered _ ?_ ?_
                             · exact update_time_none
                             · exact update_time_none)
                  · rw [h5]
                    intro eff he
                    exact absurd he (List.not_mem_nil eff)
                · rw [h4]
                  intro eff he
                  exact absurd he (List.not_mem_nil eff)
              · rw [h3]
                intro eff he
                exact absurd he (List.not_mem_nil eff)
            · rw [h2]
              intro eff he
              exact absurd he (List.not_mem_nil eff)
          · rw [he2]
            intro eff he
            exact absurd he (List.not_mem_nil eff)
        · rw [he1]
          rcases nstepOpt_split ctx.env (getField input "endDateTime") "endDateTime" _ with
            ⟨ne, hne, he2⟩ | ⟨ht2, he2⟩ | ⟨he2, -⟩
          · rw [he2]
            rcases vstep_split (validateString (getField input "title") "title") _ with
              h2 | ⟨h2, -⟩
            · rw [h2]
              rcases vstep_split (validateString (getField input "description") "description") _ with
                h3 | ⟨h3, -⟩
              · rw [h3]
                rcases vstep_split (validateString (getField input "location") "location") _ with
                  h4 | ⟨h4, -⟩
                · rw [h4]
                  rcases vstep_split (validateEmailArray (getField input "attendees") "attendees") _ with
                    h5 | ⟨h5, -⟩
                  · rw [h5]
                    by_cases hg : bothPresentGe ctx.env none (some ne) = true
                    · rw [if_pos hg]
                      intro eff he
                      exact absurd he (List.not_mem_nil eff)
                    · rw [if_neg hg]
                      by_cases hts : truthyOpt (getField input "startDateTime") = true
                      · rw [if_pos hts]
                        rcases hsg : (createGoogleDateTime ctx.env (getField input "startDateTime")
                            none).map some with m | sg
                        · simp only [hsg]
                          intro eff he
                          exact absurd he (List.not_mem_nil eff)
                        · simp only [hsg]
                          by_cases hte : truthyOpt (getField input "endDateTime") = true
                          · rw [if_pos hte]
                            rcases heg : (createGoogleDateTime ctx.env (getField input "endDateTime")
                                none).map some with m | eg
                            · simp only [heg]
                              intro eff he
                              exact absurd he (List.not_mem_nil eff)
                            · simp only [heg]
                              rcases hbe : ctx.be.updateEvent ((strOfJson (getField input "eventId")).getD "")
                                  (updateEventPayload input sg eg) with g | ev <;>
                                (simp only [hbe]
                                 intro eff he
                                 have hm := List.mem_singleton.mp he
                                 subst hm
                                 show ∀ v ∈ eventTimeJsons (updateEventPayload input sg eg), RenderedVal v
                                 refine eventTimeJsons_rendered _ ?_ ?_
                                 · exact update_time_rendered hsg
                                 · exact update_time_rendered heg)
                          · rw [if_neg hte]
                            simp only []
                            rcases hbe : ctx.be.updateEvent ((strOfJson (getField input "eventId")).getD "")
                                (updateEventPayload input sg none) with g | ev <;>
                              (simp only [hbe]
                               intro eff he
                               have hm := List.mem_singleton.mp he
                               subst hm
                               show ∀ v ∈ eventTimeJsons (updateEventPayload input sg none), RenderedVal v
                               refine eventTimeJsons_rendered _ ?_ ?_
                               · exact update_time_rendered hsg
                               · exact update_time_none)
                      · rw [if_neg hts]
                        simp only []
                        by_cases hte : truthyOpt (getField input "endDateTime") = true
                        · rw [if_pos hte]
                          rcases heg : (createGoogleDateTime ctx.env (getField input "endDateTime")
                              none).map some with m | eg
                          · simp only [heg]
                            intro eff he
                            exact absurd he (List.not_mem_nil eff)
                          · simp only [heg]
                            rcases hbe : ctx.be.updateEvent ((strOfJson (getField input "eventId")).getD "")
                                (updateEventPayload input none eg) with g | ev <;>
                              (simp only [hbe]
                               intro eff he
                               have hm := List.mem_singleton.mp he
                               subst hm
                               show ∀ v ∈ eventTimeJsons (updateEventPayload input none eg), RenderedVal v
                               refine eventTimeJsons_rendered _ ?_ ?_
                               · exact update_time_none
                               · exact update_time_rendered heg)
                        · rw [if_neg hte]
                          simp only []
                          rcases hbe : ctx.be.updateEvent ((strOfJson (getField input "eventId")).getD "")
                              (updateEventPayload input none none) with g | ev <;>
                            (simp only [hbe]
                             intro eff he
                             have hm := List.mem_singleton.mp he
                             subst hm
                             show ∀ v ∈ eventTimeJsons (updateEventPayload input none none), RenderedVal v
                             refine eventTimeJsons_rendered _ ?_ ?_
                             · exact update_time_none
                             · exact update_time_none)
                  · rw [h5]
                    intro eff he
                    exact absurd he (List.not_mem_nil eff)
                · rw [h4]
                  intro eff he
                  exact absurd he (List.not_mem_nil eff)
              · rw [h3]
                intro eff he
                exact absurd he (List.not_mem_nil eff)
            · rw [h2]
              intro eff he
              exact absurd he (List.not_mem_nil eff)
          · rw [he2]
            rcases vstep_split (validateString (getField input "title") "title") _ with
              h2 | ⟨h2, -⟩
            · rw [h2]
              rcases vstep_split (validateString (getField input "description") "description") _ with
                h3 | ⟨h3, -⟩
              · rw [h3]
                rcases vstep_split (validateString (getField input "location") "location") _ with
                  h4 | ⟨h4, -⟩
                · rw [h4]
                  rcases vstep_split (validateEmailArray (getField input "attendees") "attendees") _ with
                    h5 | ⟨h5, -⟩
                  · rw [h5]
                    by_cases hg : bothPresentGe ctx.env none none = true
                    · rw [if_pos hg]
                      intro eff he
                      exact absurd he (List.not_mem_nil eff)
                    · rw [if_neg hg]
                      by_cases hts : truthyOpt (getField input "startDateTime") = true
                      · rw [if_pos hts]
                        rcases hsg : (createGoogleDateTime ctx.env (getField input "startDateTime")
                            none).map some with m | sg
                        · simp only [hsg]
                          intro eff he
                          exact absurd he (List.not_mem_nil eff)
                        · simp only [hsg]
                          by_cases hte : truthyOpt (getField input "endDateTime") = true
                          · rw [if_pos hte]
                            rcases heg : (createGoogleDateTime ctx.env (getField input "endDateTime")
                                none).map some with m | eg
                            · simp only [heg]
                              intro eff he
                              exact absurd he (List.not_mem_nil eff)
                            · simp only [heg]
                              rcases hbe : ctx.be.updateEvent ((strOfJson (getField input "eventId")).getD "")
                                  (updateEventPayload input sg eg) with g | ev <;>
                                (simp only [hbe]
                                 intro eff he
                                 have hm := List.mem_singleton.mp he
                                 subst hm
                                 show ∀ v ∈ eventTimeJsons (updateEventPayload input sg eg), RenderedVal v
                                 refine eventTimeJsons_rendered _ ?_ ?_
                                 · exact update_time_rendered hsg
                                 · exact update_time_rendered heg)
                          · rw [if_neg hte]
                            simp only []
                            rcases hbe : ctx.be.updateEvent ((strOfJson (getField input "eventId")).getD "")
                                (updateEventPayload input sg none) with g | ev <;>
                              (simp only [hbe]
                               intro eff he
                               have hm := List.mem_singleton.mp he
                               subst hm
                               show ∀ v ∈ eventTimeJsons (updateEventPayload input sg none), RenderedVal v
                               refine eventTimeJsons_rendered _ ?_ ?_
                               · exact update_time_rendered hsg
                               · exact update_time_none)
                      · rw [if_neg hts]
                        simp only []
                        by_cases hte : truthyOpt (getField input "endDateTime") = true
                        · rw [if_pos hte]
                          rcases heg : (createGoogleDateTime ctx.env (getField input "endDateTime")
                              none).map some with m | eg
                          · simp only [heg]
                            intro eff he
                            exact absurd he (List.not_mem_nil eff)
                          · simp only [heg]
                            rcases hbe : ctx.be.updateEvent ((strOfJson (getField input "eventId")).getD "")
                                (updateEventPayload input none eg) with g | ev <;>
                              (simp only [hbe]
                               intro eff he
                               have hm := List.mem_singleton.mp he
                               subst hm
                               show ∀ v ∈ eventTimeJsons (updateEventPayload input none eg), RenderedVal v
                               refine eventTimeJsons_rendered _ ?_ ?_
                               · exact update_time_none
                               · exact update_time_rendered heg)
                        · rw [if_neg hte]
                          simp only []
                          rcases hbe : ctx.be.updateEvent ((strOfJson (getField input "eventId")).getD "")
                              (updateEventPayload input none none) with g | ev <;>
                            (simp only [hbe]
                             intro eff he
                             have hm := List.mem_singleton.mp he
                             subst hm
                             show ∀ v ∈ eventTimeJsons (updateEventPayload input none none), RenderedVal v
                             refine eventTimeJsons_rendered _ ?_ ?_
                             · exact update_time_none
                             · exact update_time_none)
                  · rw [h5]
                    intro eff he
                    exact absurd he (List.not_mem_nil eff)
                · rw [h4]
                  intro eff he
                  exact absurd he (List.not_mem_nil eff)
              · rw [h3]
                intro eff he
                exact absurd he (List.not_mem_nil eff)
            · rw [h2]
              intro eff he
              exact absurd he (List.not_mem_nil eff)
          · rw [he2]
            intro eff he
            exact absurd he (List.not_mem_nil eff)
        · rw [he1]
          intro eff he
          exact absurd he (List.not_mem_nil eff)
      · have hid2 : truthyOpt (getField input "eventId") = false := bool_not_true hid
        rw [if_pos (bang_true hid2)]
        intro eff he
        exact absurd he (List.not_mem_nil eff)
    · rw [h1]
      intro eff he
      exact absurd he (List.not_mem_nil eff)
  · rw [h]
    intro eff he
    exact absurd he (List.not_mem_nil eff)

theorem deleteEventBranch_rendered (ctx : DispatchCtx) (auth : Bool) (input : Json) :
    ∀ eff ∈ (deleteEventBranch ctx auth input).1, ∀ v ∈ timestampValues eff, RenderedVal v := by
  unfold deleteEventBranch
  rcases authStep_split auth _ with h | ⟨h, -⟩
  · rw [h]
    rcases vstep_split (validateString (getField input "eventId") "eventId") _ with h1 | ⟨h1, -⟩
    · rw [h1]
      by_cases hid : truthyOpt (getField input "eventId") = true
      · rw [if_neg (not_bang_true hid)]
        rcases vstep_split (validateString (getField input "calendarId") "calendarId") _ with
          h2 | ⟨h2, -⟩
        · rw [h2]
          rcases hbe : ctx.be.deleteEvent ((strOfJson (getField input "eventId")).getD "")
              (getField input "calendarId") with g | u <;>
            (simp only [hbe]
             intro eff he
             have hm := List.mem_singleton.mp he
             subst hm
             intro v hv
             exact absurd hv (List.not_mem_nil v))
        · rw [h2]
          intro eff he
          exact absurd he (List.not_mem_nil eff)
      · have hid2 : truthyOpt (getField input "eventId") = false := bool_not_true hid
        rw [if_pos (bang_true hid2)]
        intro eff he
        exact absurd he (List.not_mem_nil eff)
    · rw [h1]
      intro eff he
      exact absurd he (List.not_mem_nil eff)
  · rw [h]
    intro eff he
    exact absurd he (List.not_mem_nil eff)

theorem checkConflictsBranch_rendered (ctx : DispatchCtx) (auth : Bool) (input : Json) :
    ∀ eff ∈ (checkConflictsBranch ctx auth input).1,
      ∀ v ∈ timestampValues eff, RenderedVal v := by
  unfold checkConflictsBranch
  rcases authStep_split auth _ with h | ⟨h, -⟩
  · rw [h]
    rcases nstep_split (normalizeDateTime ctx.env (getField input "startTime")
        "startTime" none) _ with ⟨ns, hns, he1⟩ | ⟨he1, -⟩
    · rw [he1]
      rcases nstep_split (normalizeDateTime ctx.env (getField input "endTime")
          "endTime" none) _ with ⟨ne, hne, he2⟩ | ⟨he2, -⟩
      · rw [he2]
        rcases vstep_split (validateString (getField input "calendarId") "calendarId") _ with
          h1 | ⟨h1, -⟩
        · rw [h1]
          by_cases hg : dateGe (jsDateOfString ctx.env ns) (jsDateOfString ctx.env ne) = true
          · rw [if_pos hg]
            intro eff he
            exact absurd he (List.not_mem_nil eff)
          · rw [if_neg hg]
            rcases hbe : ctx.be.listEvents (listEventsParams ctx.env (windowOptions ns ne
                ((getField input "calendarId").getD (.str "primary")))) with g | evs <;>
              (simp only [hbe]
               intro eff he
               have hm := List.mem_singleton.mp he
               subst hm
               exact windowParams_rendered ctx.env ns ne _
                 (normalizeDateTime_renders hns) (normalizeDateTime_renders hne))
        · rw [h1]
          intro eff he
          exact absurd he (List.not_mem_nil eff)
      · rw [he2]
        intro eff he
        exact absurd he (List.not_mem_nil eff)
    · rw [he1]
      intro eff he
      exact absurd he (List.not_mem_nil eff)
  · rw [h]
    intro eff he
    exact absurd he (List.not_mem_nil eff)

theorem findFreeTimeBranch_rendered (ctx : DispatchCtx) (auth : Bool) (input : Json) :
    ∀ eff ∈ (findFreeTimeBranch ctx auth input).1,
      ∀ v ∈ timestampValues eff, RenderedVal v := by
  unfold findFreeTimeBranch
  rcases authStep_split auth _ with h | ⟨h, -⟩
  · rw [h]
    rcases nstep_split (normalizeDateTime ctx.env (getField input "startDate")
        "startDate" none) _ with ⟨ns, hns, he1⟩ | ⟨he1, -⟩
    · rw [he1]
      rcases nstep_split (normalizeDateTime ctx.env (getField input "endDate")
          "endDate" none) _ with ⟨ne, hne, he2⟩ | ⟨he2, -⟩
      · rw [he2]
        rcases vstep_split (validateInteger (getField input "slotDurationMinutes")
            "slotDurationMinutes" (some 1) none) _ with h1 | ⟨h1, -⟩
        · rw [h1]
          rcases vstep_split (validateString (getField input "calendarId") "calendarId") _ with
            h2 | ⟨h2, -⟩
          · rw [h2]
            by_cases hg : dateGe (jsDateOfString ctx.env ns) (jsDateOfString ctx.env ne) = true
            · rw [if_pos hg]
              intro eff he
              exact absurd he (List.not_mem_nil eff)
            · rw [if_neg hg]
              rcases hbe : ctx.be.listEvents (listEventsParams ctx.env (windowOptions ns ne
                  ((getField input "calendarId").getD (.str "primary")))) with g | evs <;>
                (simp only [hbe]
                 intro eff he
                 have hm := List.mem_singleton.mp he
                 subst hm
                 exact windowParams_rendered ctx.env ns ne _
                   (normalizeDateTime_renders hns) (normalizeDateTime_renders hne))
          · rw [h2]
            intro eff he
            exact absurd he (List.not_mem_nil eff)
        · rw [h1]
          intro eff he
          exact absurd he (List.not_mem_nil eff)
      · rw [he2]
        intro eff he
        exact absurd he (List.not_mem_nil eff)
    · rw [he1]
      intro eff he
      exact absurd he (List.not_mem_nil eff)
  · rw [h]
    intro eff he
    exact absurd he (List.not_mem_nil eff)

theorem getCalendarsBranch_rendered (ctx : DispatchCtx) (auth : Bool) :
    ∀ eff ∈ (getCalendarsBranch ctx auth).1, ∀ v ∈ timestampValues eff, RenderedVal v := by
  unfold getCalendarsBranch
  rcases authStep_split auth _ with h | ⟨h, -⟩
  · rw [h]
    rcases hbe : ctx.be.listCalendars with g | cals <;>
      (simp only [hbe]
       intro eff he
       have hm := List.mem_singleton.mp he
       subst hm
       intro v hv
       exact absurd hv (List.not_mem_nil v))
  · rw [h]
    intro eff he
    exact absurd he (List.not_mem_nil eff)

theorem dispatchBody_rendered (ctx : DispatchCtx) (auth : Bool) (tc : ToolCall) :
    ∀ eff ∈ (dispatchBody ctx auth tc).1, ∀ v ∈ timestampValues eff, RenderedVal v := by
  intro eff he
  unfold dispatchBody at he
  split at he
  · exact bashBranch_rendered ctx tc.input eff he
  · split at he
    · exact getEventsBranch_rendered ctx auth tc.input eff he
    · split at he
      · exact createEventBranch_rendered ctx auth tc.input eff he
      · split at he
        · exact createQuickEventBranch_rendered ctx auth tc.input eff he
        · split at he
          · exact updateEventBranch_rendered ctx auth tc.input eff he
          · split at he
            · exact deleteEventBranch_rendered ctx auth tc.input eff he
            · split at he
              · exact checkConflictsBranch_rendered ctx auth tc.input eff he
              · split at he
                · exact findFreeTimeBranch_rendered ctx auth tc.input eff he
                · split at he
                  · exact getCalendarsBranch_rendered ctx auth eff he
                  · exact absurd he (List.not_mem_nil eff)

theorem handleToolCall_effects (ctx : DispatchCtx) (auth : Bool) (tc : ToolCall) :
    (handleToolCall ctx auth tc).2 = (dispatchBody ctx auth tc).1 := by
  unfold handleToolCall
  rcases h : dispatchBody ctx auth tc with ⟨effs, res⟩
  cases res <;> rfl

/-! ## Claim C3: total error handling of `handleToolCall` -/

theorem catchFormat_prefix (toolName : String) (e : ToolError) :
    ∃ m, catchFormat toolName e = "Error executing " ++ toolName ++ ": " ++ m := by
  cases e with
  | gapi g => exact ⟨formatGoogleApiError g, rfl⟩
  | plain m =>
    by_cases h : strIncludes m "googleapis" = true
    · refine ⟨formatGoogleApiError ⟨none, none, m⟩, ?_⟩
      simp only [catchFormat]
      rw [if_pos h]
    · refine ⟨m, ?_⟩
      simp only [catchFormat]
      rw [if_neg h]

/-- C3: `handleToolCall` never raises past its own boundary: for every tool
call and auth state it returns a message with role `tool` and the request's
`id`; the content is the branch result on success and the catch-block
formatting of the thrown error on any failure (validation, normalization,
missing auth, backend). -/
theorem handleToolCall_total (ctx : DispatchCtx) (auth : Bool) (tc : ToolCall) :
    (handleToolCall ctx auth tc).1.role = "tool" ∧
    (handleToolCall ctx auth tc).1.tool_call_id = tc.id ∧
    (∀ effs r, dispatchBody ctx auth tc = (effs, .ok r) →
      (handleToolCall ctx auth tc).1.content = r) ∧
    (∀ effs e, dispatchBody ctx auth tc = (effs, .error e) →
      (handleToolCall ctx auth tc).1.content = catchFormat tc.name e) := by
  unfold handleToolCall
  rcases hd : dispatchBody ctx auth tc with ⟨effs, res⟩
  cases res with
  | ok r =>
    refine ⟨rfl, rfl, ?_, ?_⟩
    · intro effs2 r2 h2
      cases h2
      rfl
    · intro effs2 e2 h2
      simp at h2
  | error e =>
    refine ⟨rfl, rfl, ?_, ?_⟩
    · intro effs2 r2 h2
      simp at h2
    · intro effs2 e2 h2
      cases h2
      rfl

/-- Witness for C3 at a concrete unsupported call. -/
theorem handleToolCall_total_witness :
    (handleToolCall testCtx false ⟨"call_1", "frobnicate", Json.null⟩).1.role = "tool" ∧
    (handleToolCall testCtx false ⟨"call_1", "frobnicate", Json.null⟩).1.content =
      catchFormat "frobnicate" (.plain ("Unsupported tool: " ++ "frobnicate")) :=
  ⟨(handleToolCall_total testCtx false ⟨"call_1", "frobnicate", Json.null⟩).1,
   (handleToolCall_total testCtx false ⟨"call_1", "frobnicate", Json.null⟩).2.2.2 []
     (.plain ("Unsupported tool: " ++ "frobnicate")) rfl⟩

/-! ## Claim C10: unsupported tool names -/

/-- C10 (amended): for a name outside the nine registered tools, dispatch
performs no shell or calendar side effect and the tool result is
`Error executing <name>: Unsupported tool: <name>`; this message shape
additionally requires that the name avoid the substring `googleapis`, which
would reroute the text through `formatGoogleApiError` (see the
counterexample). -/
theorem unsupported_tool (ctx : DispatchCtx) (auth : Bool) (tc : ToolCall)
    (hn : tc.name ∉ ["bash", "get_events_in_time_range", "create_event",
      "create_quick_event", "update_event", "delete_event", "check_conflicts",
      "find_free_time", "get_calendars"])
    (hg : strIncludes ("Unsupported tool: " ++ tc.name) "googleapis" = false) :
    handleToolCall ctx auth tc =
      (⟨"tool", tc.id, "Error executing " ++ tc.name ++ ": " ++
        ("Unsupported tool: " ++ tc.name)⟩, []) := by
  simp only [List.mem_cons, List.not_mem_nil, or_false, not_or] at hn
  obtain ⟨n1, n2, n3, n4, n5, n6, n7, n8, n9⟩ := hn
  have hd : dispatchBody ctx auth tc =
      ([], .error (.plain ("Unsupported tool: " ++ tc.name))) := by
    unfold dispatchBody
    rw [if_neg n1, if_neg n2, if_neg n3, if_neg n4, if_neg n5, if_neg n6, if_neg n7,
      if_neg n8, if_neg n9]
  have hc : catchFormat tc.name (.plain ("Unsupported tool: " ++ tc.name)) =
      "Error executing " ++ tc.name ++ ": " ++ ("Unsupported tool: " ++ tc.name) := by
    simp only [catchFormat]
    rw [if_neg (by rw [hg]; exact Bool.false_ne_true)]
  unfold handleToolCall
  rw [hd]
  show ((⟨"tool", tc.id,
    catchFormat tc.name (.plain ("Unsupported tool: " ++ tc.name))⟩ : ToolMsg),
    ([] : List Effect)) = _
  rw [hc]

/-- Witness for C10 at a concrete unregistered name. -/
theorem unsupported_tool_witness :
    handleToolCall testCtx true ⟨"u1", "frob", Json.null⟩ =
      (⟨"tool", "u1", "Error executing " ++ "frob" ++ ": " ++
        ("Unsupported tool: " ++ "frob")⟩, []) :=
  unsupported_tool testCtx true ⟨"u1", "frob", Json.null⟩ (by decide) (by decide)

/-- C10 counterexample: a name containing `googleapis` makes the catch block
treat the thrown `Unsupported tool` error as a Google API error, so the
content is not the plain `Error executing <name>: Unsupported tool: <name>`
string the claim asserts. -/
theorem unsupported_tool_cex :
    (handleToolCall testCtx true ⟨"u2", "googleapis", Json.null⟩).1.content =
      "Error executing googleapis: Google Calendar API error (unknown): Unsupported tool: googleapis" ∧
    (handleToolCall testCtx true ⟨"u2", "googleapis", Json.null⟩).1.content ≠
      "Error executing googleapis: Unsupported tool: googleapis" := by
  constructor
  · rfl
  · decide

/-! ## Claim C6: the update-event guard -/

theorem updateEventBranch_blocked (ctx : DispatchCtx) (auth : Bool) (input : Json)
    (ns ne : String)
    (hts : truthyOpt (getField input "startDateTime") = true)
    (hte : truthyOpt (getField input "endDateTime") = true)
    (hns : normalizeDateTime ctx.env (getField input "startDateTime") "startDateTime" none =
      .ok ns)
    (hne : normalizeDateTime ctx.env (getField input "endDateTime") "endDateTime" none = .ok ne)
    (hge : dateGe (jsDateOfString ctx.env ns) (jsDateOfString ctx.env ne) = true) :
    (updateEventBranch ctx auth input).1 = [] ∧
    ∃ e, (updateEventBranch ctx auth input).2 = Except.error e := by
  unfold updateEventBranch
  rcases authStep_split auth _ with h | hh
  · rw [h]
    rcases vstep_split (validateString (getField input "eventId") "eventId") _ with h1 | hh
    · rw [h1]
      by_cases hid : truthyOpt (getField input "eventId") = true
      · rw [if_neg (not_bang_true hid)]
        rw [nstepOpt_pos hts hns, nstepOpt_pos hte hne]
        rcases vstep_split (validateString (getField input "title") "title") _ with h2 | hh
        · rw [h2]
          rcases vstep_split (validateString (getField input "description") "description") _
            with h3 | hh
          · rw [h3]
            rcases vstep_split (validateString (getField input "location") "location") _ with
              h4 | hh
            · rw [h4]
              rcases vstep_split (validateEmailArray (getField input "attendees") "attendees") _
                with h5 | hh
              · rw [h5]
                have hge2 : bothPresentGe ctx.env (some ns) (some ne) = true := hge
                rw [if_pos hge2]
                exact ⟨rfl, _, rfl⟩
              · exact hh
            · exact hh
          · exact hh
        · exact hh
      · have hid2 : truthyOpt (getField input "eventId") = false := bool_not_true hid
        rw [if_pos (bang_true hid2)]
        exact ⟨rfl, _, rfl⟩
    · exact hh
  · exact hh

/-- C6: an `update_event` call supplying both datetimes whose normalized start
does not strictly precede the normalized end fails with a validation error
surfaced as the tool result, and performs no backend operation. -/
theorem updateEvent_guard (ctx : DispatchCtx) (auth : Bool) (tc : ToolCall)
    (hname : tc.name = "update_event")
    (ns ne : String)
    (hts : truthyOpt (getField tc.input "startDateTime") = true)
    (hte : truthyOpt (getField tc.input "endDateTime") = true)
    (hns : normalizeDateTime ctx.env (getField tc.input "startDateTime") "startDateTime" none =
      .ok ns)
    (hne : normalizeDateTime ctx.env (getField tc.input "endDateTime") "endDateTime" none =
      .ok ne)
    (hge : dateGe (jsDateOfString ctx.env ns) (jsDateOfString ctx.env ne) = true) :
    (handleToolCall ctx auth tc).2 = [] ∧
    ∃ m, (handleToolCall ctx auth tc).1.content = "Error executing update_event: " ++ m := by
  have hd : dispatchBody ctx auth tc = updateEventBranch ctx auth tc.input := by
    unfold dispatchBody
    rw [if_neg (by rw [hname]; decide), if_neg (by rw [hname]; decide),
      if_neg (by rw [hname]; decide), if_neg (by rw [hname]; decide), if_pos hname]
  obtain ⟨heff, e, herr⟩ := updateEventBranch_blocked ctx auth tc.input ns ne hts hte hns hne hge
  unfold handleToolCall
  rw [hd]
  rcases hu : updateEventBranch ctx auth tc.input with ⟨effs, res⟩
  rw [hu] at heff herr
  cases res with
  | ok r => exact Except.noConfusion herr
  | error e2 =>
    refine ⟨heff, ?_⟩
    obtain ⟨m, hm⟩ := catchFormat_prefix tc.name e2
    rw [hname] at hm
    refine ⟨m, ?_⟩
    show catchFormat tc.name e2 = "Error executing update_event: " ++ m
    rw [hname, hm]
    rfl

def c6tc : ToolCall :=
  ⟨"c6", "update_event", Json.obj
    [("eventId", Json.str "abc"),
     ("startDateTime", Json.str "2024-01-15T12:00:00.000Z"),
     ("endDateTime", Json.str "2024-01-15T11:00:00.000Z")]⟩

/-- Witness for C6 at a concrete inverted interval. -/
theorem updateEvent_guard_witness :
    (handleToolCall testCtx true c6tc).2 = [] ∧
    ∃ m, (handleToolCall testCtx true c6tc).1.content = "Error executing update_event: " ++ m :=
  updateEvent_guard testCtx true c6tc rfl "2024-01-15T12:00:00.000Z" "2024-01-15T11:00:00.000Z"
    (by decide) (by decide) rfl rfl (by decide)

/-! ## Claim C1: the streaming aggregator on contiguous slots -/

/-- C1 (amended): when each slot's fragments arrive contiguously (the first
fragment carrying id and name, continuations carrying argument text), the
aggregator emits one completed call per slot, in discovery order, whose input
is the JSON parse of the full fragment concatenation.  The claim's
interleaving scenario fails: revisiting an index reopens a fresh slot instead
(see the counterexample). -/
theorem aggDeltas_two_slots (i j : Nat) (hij : i ≠ j) (id1 nm1 a1 : String)
    (frags1 : List String) (id2 nm2 a2 : String) (frags2 : List String) (v1 v2 : Json)
    (h1 : parseJson (a1 ++ String.join frags1) = some v1)
    (h2 : parseJson (a2 ++ String.join frags2) = some v2) :
    aggDeltas ((⟨some i, some id1, some nm1, some a1⟩ :: frags1.map (contFrag i)) ++
               (⟨some j, some id2, some nm2, some a2⟩ :: frags2.map (contFrag j))) =
      ([⟨id1, nm1, v1⟩, ⟨id2, nm2, v2⟩], 0) := by
  unfold aggDeltas
  rw [List.foldl_append]
  simp only [List.foldl_cons]
  have hop1 : stepDelta initAgg ⟨some i, some id1, some nm1, some a1⟩ =
      ⟨some ⟨i, id1, nm1, a1⟩, [], 0⟩ := rfl
  rw [hop1, foldl_contFrags i frags1 ⟨i, id1, nm1, a1⟩ rfl [] 0]
  have hne : j ≠ i := Ne.symm hij
  have hop2 : stepDelta ⟨some ⟨i, id1, nm1, a1 ++ String.join frags1⟩, [], 0⟩
      ⟨some j, some id2, some nm2, some a2⟩ =
      ⟨some ⟨j, id2, nm2, a2⟩, [⟨id1, nm1, v1⟩], 0⟩ := by
    simp only [stepDelta]
    rw [if_pos hne]
    simp only [finalizePending, h1, Option.map_some', Option.getD_some, List.nil_append]
  rw [hop2, foldl_contFrags j frags2 ⟨j, id2, nm2, a2⟩ rfl [⟨id1, nm1, v1⟩] 0]
  unfold finalizeState
  simp only [finalizePending, h2, Option.map_some', List.singleton_append]

/-- Witness for C1: one call split across three contiguous fragments, then a
second slot. -/
theorem aggDeltas_two_slots_witness :
    aggDeltas ((⟨some 0, some "A", some "f", some "\x7b\"x\""⟩ ::
        [":1", "\x7d"].map (contFrag 0)) ++
      (⟨some 1, some "B", some "g", some "\x7b\"y\":2\x7d"⟩ :: [].map (contFrag 1))) =
      ([⟨"A", "f", Json.obj [("x", Json.num 1)]⟩, ⟨"B", "g", Json.obj [("y", Json.num 2)]⟩], 0) :=
  aggDeltas_two_slots 0 1 (by decide) "A" "f" "\x7b\"x\"" [":1", "\x7d"] "B" "g"
    "\x7b\"y\":2\x7d" [] (Json.obj [("x", Json.num 1)]) (Json.obj [("y", Json.num 2)])
    (by rfl) (by rfl)

/-- C1 counterexample: interleaving a second slot inside a call whose argument
JSON is split across three fragments makes the aggregator finalize partial
text twice; it produces one completed call and two dropped parses, not two
completed calls. -/
theorem aggDeltas_interleaved_cex :
    aggDeltas [⟨some 0, some "call_a", some "fa", some "\x7b\"x\""⟩,
               ⟨some 1, some "call_b", some "fb", some "\x7b\"y\":2\x7d"⟩,
               ⟨some 0, none, none, some ":1"⟩,
               ⟨some 0, none, none, some "\x7d"⟩] =
      ([⟨"call_b", "fb", Json.obj [("y", Json.num 2)]⟩], 2) := by
  rfl

/-! ## Claim C9: stream termination finalizes the pending slot -/

theorem finalizeState_parseFail {cur : PendingToolCall} {calls : List ToolCall} {errs : Nat}
    (hp : parseJson cur.args = none) :
    finalizeState ⟨some cur, calls, errs⟩ = (calls, errs + 1) := by
  simp only [finalizeState, finalizePending, hp, Option.map_none']

theorem finalizeState_parseOk {cur : PendingToolCall} {calls : List ToolCall} {errs : Nat}
    {v : Json} (hp : parseJson cur.args = some v) :
    finalizeState ⟨some cur, calls, errs⟩ = (calls ++ [⟨cur.id, cur.fname, v⟩], errs) := by
  simp only [finalizeState, finalizePending, hp, Option.map_some']

theorem runStream_snd (chunks : List StreamChunk) :
    (runStream chunks).2 = finalizeState (processChunks ("", initAgg) chunks).2 := rfl

/-- C9: at stream termination (a `stop` or `tool_calls` finish reason breaks
the loop; a natural end exhausts it) the still-open slot is finalized by
parsing its accumulated text; a parse failure is only counted and drops just
that call, while the already-completed calls are still returned. -/
theorem runStream_finalizes (chunks : List StreamChunk) :
    (∀ cur calls errs,
       (processChunks ("", initAgg) chunks).2 = AggState.mk (some cur) calls errs →
       ((parseJson cur.args = none → (runStream chunks).2 = (calls, errs + 1)) ∧
        (∀ v, parseJson cur.args = some v →
           (runStream chunks).2 = (calls ++ [⟨cur.id, cur.fname, v⟩], errs)))) ∧
    (∀ calls errs,
       (processChunks ("", initAgg) chunks).2 = AggState.mk none calls errs →
       (runStream chunks).2 = (calls, errs)) ∧
    (∀ (acc : String × AggState) (ch : StreamChunk) (rest : List StreamChunk),
       (ch.finish = some "stop" ∨ ch.finish = some "tool_calls") →
       processChunks acc (ch :: rest) = stepChunk acc ch) := by
  refine ⟨?_, ?_, ?_⟩
  · intro cur calls errs hst
    constructor
    · intro hp
      rw [runStream_snd, hst, finalizeState_parseFail hp]
    · intro v hp
      rw [runStream_snd, hst, finalizeState_parseOk hp]
  · intro calls errs hst
    rw [runStream_snd, hst]
    rfl
  · intro acc ch rest h
    simp only [processChunks]
    rw [if_pos h]

/-- Witness for C9: a single chunk carrying a completed call, a pending slot
with unparseable text, and a `tool_calls` finish reason. -/
theorem runStream_finalizes_witness :
    (runStream [⟨some "Hi", [⟨some 0, some "A", some "f", some "\x7b\x7d"⟩,
        ⟨some 1, some "B", some "g", some "\x7bbad"⟩], some "tool_calls"⟩]).2 =
      ([⟨"A", "f", Json.obj []⟩], 0 + 1) :=
  (((runStream_finalizes [⟨some "Hi", [⟨some 0, some "A", some "f", some "\x7b\x7d"⟩,
      ⟨some 1, some "B", some "g", some "\x7bbad"⟩], some "tool_calls"⟩]).1
    ⟨1, "B", "g", "\x7bbad"⟩ [⟨"A", "f", Json.obj []⟩] 0 rfl).1) rfl

/-! ## Claim C2: canonical ISO strings through the normalizer -/

/-- C2 (amended): a canonical ISO string with valid calendar fields passes
`isValidGoogleDateTimeFormat`; it is returned *unchanged* by
`normalizeDateTime` exactly when it already carries fractional seconds and a
`Z` designator, because the value is re-rendered through `toISOString` rather
than used verbatim (see the counterexample for a valid canonical string
without milliseconds). -/
theorem normalize_canonical (f : IsoFields) (hok : FieldsOk f) :
    isValidGoogleDateTimeFormat (renderFields f) = true ∧
    (f.hasMs = true → f.zone = IsoZone.utc →
      ∀ (env : JsEnv) (p : String) (tzo : Option String),
        normalizeDateTime env (some (.str (renderFields f))) p tzo =
          .ok (renderFields f)) := by
  refine ⟨?_, ?_⟩
  · unfold isValidGoogleDateTimeFormat
    rw [parseCanonical_of_FieldsOk hok]
    exact fieldsValid_of_FieldsOk hok
  · intro hms hz env p tzo
    exact normalizeDateTime_renderUTCms env p tzo f hok hms hz

/-- Witness instant for C2: 2024-01-15T14:30:00.000Z. -/
def c2f : IsoFields := ⟨2024, 1, 15, 14, 30, 0, 0, true, IsoZone.utc⟩

/-- Witness for C2 at a concrete canonical string. -/
theorem normalize_canonical_witness :
    isValidGoogleDateTimeFormat (renderFields c2f) = true ∧
    normalizeDateTime testEnv (some (.str (renderFields c2f))) "startDateTime" none =
      .ok (renderFields c2f) := by
  have h := normalize_canonical c2f
    ⟨by decide, by decide, by decide, by decide, by decide, by decide, by decide,
     by decide, by decide, by decide, fun _ => rfl,
     fun neg oh om hz => IsoZone.noConfusion hz⟩
  exact ⟨h.1, h.2 rfl rfl testEnv "startDateTime" none⟩

/-- C2 counterexample: a canonical, field-valid ISO string without fractional
seconds is not returned unchanged; the normalizer re-renders it with `.000`
appended. -/
theorem normalize_canonical_cex :
    normalizeDateTime testEnv (some (.str "2024-01-15T14:30:00Z")) "startDateTime" none =
      .ok "2024-01-15T14:30:00.000Z" ∧
    ("2024-01-15T14:30:00.000Z" : String) ≠ "2024-01-15T14:30:00Z" := by
  exact ⟨rfl, by decide⟩

/-! ## Claim C8: the month-first US date branch -/

/-- C8 (amended): for an input whose trimmed, lower-cased text matches the US
pattern `M/D/Y H:MM[:SS][am|pm]` and whose components are in calendar range,
`parseStringDate` interprets the first numeric field as the month, and the
resulting instant's local civil fields equal the parsed year, month, day,
AM/PM-adjusted hour, minute and second; the adjustment maps 12AM to 0, 12PM
to 12 and 1PM to 13.  (Out-of-range fields such as a first component of 13
are not rejected but roll over, JavaScript-style — see the counterexample.) -/
theorem parseStringDate_us_fields :
    (∀ (env : JsEnv) (s : String) (M D Y hh mi ss : Nat) (ampm : Option Bool),
       parseCanonical (jsTrim s).data = none →
       parseUS ((jsTrim s).toLower).data = some (M, D, Y, some (hh, mi, ss, ampm)) →
       100 ≤ Y → Y ≤ 9999 → 1 ≤ M → M ≤ 12 → 1 ≤ D → D ≤ monthLen (isLeap Y) M →
       adjustAmPm hh ampm ≤ 23 → mi ≤ 59 → ss ≤ 59 →
       ∃ t : Int, parseStringDate env s = .ok (some t) ∧
         localCivil env.tz t = (Y, M, D, adjustAmPm hh ampm, mi, ss)) ∧
    adjustAmPm 12 (some false) = 0 ∧ adjustAmPm 12 (some true) = 12 ∧
    adjustAmPm 1 (some true) = 13 := by
  refine ⟨?_, rfl, rfl, rfl⟩
  intro env s M D Y hh mi ss ampm h1 h6 hY1 hY2 hM1 hM2 hD1 hD2 hhh hmi hss
  refine ⟨jsMakeLocalDate env.tz Y ((M : Int) - 1) D (adjustAmPm hh ampm) mi ss, ?_, ?_⟩
  · exact parseStringDate_us env s M D Y (some (hh, mi, ss, ampm)) h1 h6
  · exact localCivil_jsMakeLocalDate env.tz Y M D (adjustAmPm hh ampm) mi ss
      hY1 hY2 hM1 hM2 hD1 hD2 hhh hmi hss

/-- Witness for C8: `01/15/2024 1:30:00 PM` parses month-first to 2024-01-15
13:30:00 local. -/
theorem parseStringDate_us_fields_witness :
    (∃ t : Int, parseStringDate testEnv "01/15/2024 1:30:00 PM" = .ok (some t) ∧
       localCivil testEnv.tz t = (2024, 1, 15, adjustAmPm 1 (some true), 30, 0)) ∧
    adjustAmPm 12 (some false) = 0 := by
  have h6 : parseUS ((jsTrim "01/15/2024 1:30:00 PM").toLower).data =
      some (1, 15, 2024, some (1, 30, 0, some true)) := by
    simp only [String.toLower, String.map_eq]
    rfl
  exact ⟨parseStringDate_us_fields.1 testEnv "01/15/2024 1:30:00 PM" 1 15 2024 1 30 0
     (some true) rfl h6 (by decide) (by decide) (by decide) (by decide) (by decide)
     (by decide) (by decide) (by decide) (by decide),
   parseStringDate_us_fields.2.1⟩

/-- C8 counterexample: `13/01/2024` matches the US pattern with first field 13,
but the instant rolls over to January 2025 instead of having month 13, so the
parsed components are not all preserved for every pattern-matching string. -/
theorem parseStringDate_us_cex :
    parseUS ((jsTrim "13/01/2024").toLower).data = some (13, 1, 2024, none) ∧
    parseStringDate testEnv "13/01/2024" = .ok (some 1735689600000) ∧
    localCivil testEnv.tz 1735689600000 = (2025, 1, 1, 0, 0, 0) := by
  have h6 : parseUS ((jsTrim "13/01/2024").toLower).data = some (13, 1, 2024, none) := by
    simp only [String.toLower, String.map_eq]
    rfl
  refine ⟨h6, ?_, by decide⟩
  have h := parseStringDate_us testEnv "13/01/2024" 13 1 2024 none rfl h6
  rw [h]
  rfl

/-! ## Claim C4: the conflict predicate -/

/-- An existing event with only start/end datetimes set. -/
def c4evt (sd ed : String) : CalendarEvent :=
  ⟨some "E", none, none, some ⟨some sd, none, none⟩, some ⟨some ed, none, none⟩, none⟩

def c4in : CalendarEvent := c4evt "2024-01-15T10:30:00.000Z" "2024-01-15T10:45:00.000Z"

def c4out : CalendarEvent := c4evt "2024-01-15T11:00:00.000Z" "2024-01-15T12:00:00.000Z"

/-- C4: `checkForConflicts` keeps exactly the events with both endpoints
present whose interval strictly overlaps the query window
(existingStart < queryEnd and queryStart < existingEnd); for the window
10:00–11:00 the event 10:30–10:45 is reported and the touching event
11:00–12:00 is not. -/
theorem checkConflicts_spec :
    (∀ (env : JsEnv) (qs qe : String) (events : List CalendarEvent) (e : CalendarEvent),
       e ∈ checkForConflicts env qs qe events ↔ e ∈ events ∧ specOverlaps env qs qe e) ∧
    c4in ∈ checkForConflicts testEnv "2024-01-15T10:00:00.000Z" "2024-01-15T11:00:00.000Z"
      [c4in, c4out] ∧
    c4out ∉ checkForConflicts testEnv "2024-01-15T10:00:00.000Z" "2024-01-15T11:00:00.000Z"
      [c4in, c4out] := by
  refine ⟨checkForConflicts_mem, ?_, ?_⟩
  · decide
  · decide

/-- Witness for C4: the kept event also satisfies the overlap specification. -/
theorem checkConflicts_spec_witness :
    c4in ∈ checkForConflicts testEnv "2024-01-15T10:00:00.000Z" "2024-01-15T11:00:00.000Z"
      [c4in, c4out] ∧
    (c4in ∈ [c4in, c4out] ∧
     specOverlaps testEnv "2024-01-15T10:00:00.000Z" "2024-01-15T11:00:00.000Z" c4in) :=
  ⟨checkConflicts_spec.2.1,
   (checkConflicts_spec.1 testEnv "2024-01-15T10:00:00.000Z" "2024-01-15T11:00:00.000Z"
     [c4in, c4out] c4in).mp checkConflicts_spec.2.1⟩

/-! ## Claim C5: free-slot computation -/

/-- Soundness of one emitted free slot against the busy strings of the input
events: within the window, long enough, and disjoint from every busy interval
whose endpoints parse. -/
def SlotSoundStr (env : JsEnv) (events : List CalendarEvent) (s e dur a b : Int) : Prop :=
  s ≤ a ∧ b ≤ e ∧ b - a ≥ dur ∧
  ∀ bs ∈ busyStrings events, ∀ x y : Int, jsDateOfString env bs.1 = some x →
    jsDateOfString env bs.2 = some y →
    ∀ t2, a ≤ t2 → t2 < b → ¬(x ≤ t2 ∧ t2 < y)

theorem mapM_mem {α β : Type} (f : α → Option β) :
    ∀ (l : List α) (l2 : List β), l.mapM f = some l2 →
      ∀ a ∈ l, ∀ b, f a = some b → b ∈ l2 := by
  intro l
  induction l with
  | nil =>
    intro l2 hm a ha
    exact absurd ha (List.not_mem_nil a)
  | cons x t ih =>
    intro l2 hm a ha b hb
    rw [List.mapM_cons] at hm
    cases hfx : f x with
    | none =>
      rw [hfx] at hm
      exact Option.noConfusion hm
    | some y =>
      rw [hfx] at hm
      cases hmt : t.mapM f with
      | none =>
        rw [hmt] at hm
        exact Option.noConfusion hm
      | some ys =>
        rw [hmt] at hm
        have hm2 : some (y :: ys) = some l2 := hm
        injection hm2 with hm3
        subst hm3
        rcases List.mem_cons.mp ha with h | h
        · subst h
          rw [hb] at hfx
          injection hfx with h2
          subst h2
          exact List.mem_cons_self _ _
        · exact List.mem_cons_of_mem y (ih ys hmt a h b hb)

/-- Busy event for the C5 scenario: 12:00–13:00. -/
def c5evt : CalendarEvent :=
  ⟨some "Busy", none, none, some ⟨some "2024-01-15T12:00:00.000Z", none, none⟩,
   some ⟨some "2024-01-15T13:00:00.000Z", none, none⟩, none⟩

/-- C5: every slot emitted by `findFreeTimeSlots` renders a pair of instants
inside the query window, at least the requested duration long, disjoint from
every parsed busy interval; for the window 09:00–17:00 with one busy interval
12:00–13:00 and a 60-minute minimum, it returns exactly the slots 09:00–12:00
and 13:00–17:00. -/
theorem findFreeTime_spec :
    (∀ (env : JsEnv) (sd ed : String) (dur : Int) (events : List CalendarEvent)
       (slots : List (String × String)) (s e : Int),
       jsDateOfString env sd = some s → jsDateOfString env ed = some e →
       findFreeTimeSlots env sd ed dur events = some slots →
       ∀ p ∈ slots, ∃ a b : Int, p = (renderIso a, renderIso b) ∧
         SlotSoundStr env events s e (dur * 60000) a b) ∧
    findFreeTimeSlots testEnv "2024-01-15T09:00:00.000Z" "2024-01-15T17:00:00.000Z" 60
      [c5evt] = some
      [("2024-01-15T09:00:00.000Z", "2024-01-15T12:00:00.000Z"),
       ("2024-01-15T13:00:00.000Z", "2024-01-15T17:00:00.000Z")] := by
  constructor
  · intro env sd ed dur events slots s e hs he hf p hp
    unfold findFreeTimeSlots at hf
    rcases hb : busyParsed env events with _ | busy
    · rw [hs, he, hb] at hf
      exact Option.noConfusion hf
    · rw [hs, he, hb] at hf
      have hf2 : some ((sweep s e (dur * 60000)
          (List.insertionSort (fun a b : Int × Int => a.1 ≤ b.1) busy)).map
          fun q => (renderIso q.1, renderIso q.2)) = some slots := hf
      injection hf2 with hf3
      subst hf3
      obtain ⟨q, hq, hqe⟩ := List.mem_map.mp hp
      refine ⟨q.1, q.2, hqe.symm, ?_⟩
      haveI hT : IsTotal (Int × Int) (fun a b : Int × Int => a.1 ≤ b.1) :=
        ⟨fun a b => le_total a.1 b.1⟩
      haveI hTr : IsTrans (Int × Int) (fun a b : Int × Int => a.1 ≤ b.1) :=
        ⟨fun a b c hab hbc => le_trans hab hbc⟩
      have hsorted : (List.insertionSort (fun a b : Int × Int => a.1 ≤ b.1) busy).Pairwise
          (fun a b : Int × Int => a.1 ≤ b.1) := List.sorted_insertionSort _ busy
      obtain ⟨hq1, hq2, hq3, hq4⟩ := sweep_sound s e (dur * 60000) _ hsorted q hq
      refine ⟨hq1, hq2, hq3, ?_⟩
      intro bs hbs x y hx hy t2 ht1 ht2
      have hfb : (do
          let a ← jsDateOfString env bs.1
          let b ← jsDateOfString env bs.2
          pure (a, b) : Option (Int × Int)) = some (x, y) := by
        rw [hx, hy]
        rfl
      have hb2 : (busyStrings events).mapM (fun p2 : String × String =>
          (do
            let a ← jsDateOfString env p2.1
            let b ← jsDateOfString env p2.2
            pure (a, b) : Option (Int × Int))) = some busy := hb
      have hmem : (x, y) ∈ busy := mapM_mem _ (busyStrings events) busy hb2 bs hbs (x, y) hfb
      have hmem2 : (x, y) ∈ List.insertionSort (fun a b : Int × Int => a.1 ≤ b.1) busy :=
        ((List.perm_insertionSort _ busy).mem_iff).mpr hmem
      exact hq4 (x, y) hmem2 t2 ht1 ht2
  · rfl

/-- Witness for C5: the first emitted slot of the concrete scenario is sound. -/
theorem findFreeTime_spec_witness :
    ∃ a b : Int, ("2024-01-15T09:00:00.000Z", "2024-01-15T12:00:00.000Z") =
      (renderIso a, renderIso b) ∧
      SlotSoundStr testEnv [c5evt] 1705309200000 1705338000000 (60 * 60000) a b :=
  findFreeTime_spec.1 testEnv "2024-01-15T09:00:00.000Z" "2024-01-15T17:00:00.000Z" 60
    [c5evt]
    [("2024-01-15T09:00:00.000Z", "2024-01-15T12:00:00.000Z"),
     ("2024-01-15T13:00:00.000Z", "2024-01-15T17:00:00.000Z")]
    1705309200000 1705338000000 rfl rfl rfl
    ("2024-01-15T09:00:00.000Z", "2024-01-15T12:00:00.000Z") (List.mem_cons_self _ _)

/-! ## Claim C7: timestamps crossing into the calendar service -/

/-- Conflict query used as the C7 witness. -/
def c7tc : ToolCall :=
  ⟨"c7w", "check_conflicts", Json.obj
    [("startTime", Json.str "2024-01-15T10:00:00.000Z"),
     ("endTime", Json.str "2024-01-15T11:00:00.000Z")]⟩

/-- The list-query parameters produced by the C7 witness call. -/
def c7params : List (String × Json) :=
  listEventsParams testEnv (windowOptions "2024-01-15T10:00:00.000Z"
    "2024-01-15T11:00:00.000Z" (Json.str "primary"))

/-- Raw falsy list query used as the C7 counterexample. -/
def c7rawTc : ToolCall :=
  ⟨"c7r", "get_events_in_time_range", Json.obj [("timeMin", Json.str "")]⟩

/-- C7 (amended): every *truthy* timestamp value carried into a calendar
service call (`timeMin`/`timeMax` of list queries and the start/end datetimes
of event payloads) is the `toISOString` rendering of an instant, and such
renderings of in-range instants match the canonical shape
`YYYY-MM-DDTHH:MM:SS.sssZ`.  The truthiness guard is essential: a present but
falsy raw option such as the empty string bypasses normalization and reaches
the service verbatim (see the counterexample). -/
theorem timestamps_rendered :
    (∀ (ctx : DispatchCtx) (auth : Bool) (tc : ToolCall),
       ∀ eff ∈ (handleToolCall ctx auth tc).2, ∀ v ∈ timestampValues eff,
         jsTruthy v = true → ∃ t : Int, v = Json.str (renderIso t)) ∧
    (∀ t : Int, RenderSafe t → isCanonicalShape (renderIso t) = true) := by
  refine ⟨?_, ?_⟩
  · intro ctx auth tc eff he v hv htr
    rw [handleToolCall_effects] at he
    exact dispatchBody_rendered ctx auth tc eff he v hv htr
  · intro t ht
    exact isCanonicalShape_renderIso ht

/-- Witness for C7: the conflict query's `timeMin` is a rendered instant, and
rendering the epoch origin is canonical. -/
theorem timestamps_rendered_witness :
    (∃ t : Int, Json.str "2024-01-15T10:00:00.000Z" = Json.str (renderIso t)) ∧
    isCanonicalShape (renderIso 0) = true := by
  constructor
  · refine timestamps_rendered.1 testCtx true c7tc (Effect.call (.listEvents c7params))
      ?_ (Json.str "2024-01-15T10:00:00.000Z") ?_ rfl
    · have h : (handleToolCall testCtx true c7tc).2 =
          [Effect.call (.listEvents c7params)] := rfl
      rw [h]
      exact List.mem_singleton.mpr rfl
    · exact List.Mem.head _
  · exact timestamps_rendered.2 0 (by unfold RenderSafe; decide)

/-- C7 counterexample: a present but empty `timeMin` cannot be normalized (the
normalizer rejects it), yet the raw empty string is spread into the list-query
options and reaches the backing service without rejection. -/
theorem timestamps_rendered_cex :
    (handleToolCall testCtx true c7rawTc).2 =
      [Effect.call (.listEvents (listEventsParams testEnv [("timeMin", Json.str "")]))] ∧
    getParam (listEventsParams testEnv [("timeMin", Json.str "")]) "timeMin" =
      some (Json.str "") ∧
    isCanonicalShape "" = false ∧
    normalizeDateTime testEnv (some (Json.str "")) "timeMin" none =
      .error "timeMin: Date input is required" := by
  refine ⟨rfl, rfl, rfl, rfl⟩

end Calbot
